import Mathlib

/-!
Verification of the record-store and payment-ledger engine of the
school-management repository (`htsms/storage.py`, plus the `_next_id`
helpers of `htsms/app.py` and `htsms/wx_app.py`).

The spreadsheet document is shallowly embedded: a sheet is a list of rows,
each row a list of cells; a cell is either blank (openpyxl `None`), a
string, an integer, or a decimal number (Python floats are modelled as
rationals — the ledger only stores, compares and orders amounts, it never
performs float arithmetic whose rounding could be observed).  Python-level
operations that the source relies on (`str(...)`, `int(...)`, `float(...)`,
`x or y`, `==` between mixed types, dict construction with
later-key-overwrites, negative-index slices) are embedded as explicit
functions with Python semantics; fallible conversions return `Option` and
operations that can raise return `Except`.
-/

deriving instance DecidableEq for Except

namespace HTSMS

/-- Python `s.startswith(p)` (character-level, as Python strings are
character sequences). -/
def pyStartsWith (s p : String) : Bool :=
  s.toList.take p.toList.length = p.toList

/-- Python `s[len(p):]`, as a character list. -/
def pyTailAfter (s p : String) : List Char :=
  s.toList.drop p.toList.length

/-- Python `s.lower()`, character by character (ASCII case mapping; the
statuses compared in the source are plain ASCII words). -/
def pyLower (s : String) : String :=
  String.mk (s.toList.map Char.toLower)

/-- A spreadsheet cell value as surfaced by openpyxl: `None`, `str`,
`int` or `float` (floats modelled as rationals). -/
inductive Cell where
  | blank : Cell
  | str (s : String) : Cell
  | int (n : Int) : Cell
  | num (q : ℚ) : Cell
deriving DecidableEq, Repr

/-- Python `==` between two cell values: `None == None`, string equality,
and numeric equality across `int`/`float`. -/
def pyEq : Cell → Cell → Bool
  | Cell.blank, Cell.blank => true
  | Cell.str a, Cell.str b => a = b
  | Cell.int a, Cell.int b => a = b
  | Cell.int a, Cell.num b => (a : ℚ) = b
  | Cell.num a, Cell.int b => a = (b : ℚ)
  | Cell.num a, Cell.num b => a = b
  | _, _ => false

/-- Python `==` between two lists (elementwise `==`, equal lengths). -/
def pyEqList (xs ys : List Cell) : Bool :=
  xs.length = ys.length && (xs.zip ys).all (fun p => pyEq p.1 p.2)

/-- Python truthiness of a cell value (`None`, `""`, `0`, `0.0` are falsy). -/
def pyTruthy : Cell → Bool
  | Cell.blank => false
  | Cell.str s => s ≠ ""
  | Cell.int n => n ≠ 0
  | Cell.num q => q ≠ 0

/-- Python `x or y` on cell values. -/
def pyOr (a b : Cell) : Cell := if pyTruthy a then a else b

/-- Decimal representation of a rational standing for a Python float.
Exact for integral floats (`str(500.0) = "500.0"`); for non-integral
values Python's shortest-round-trip float repr is abstracted by the
rational's own representation.  No claim depends on the repr of a
non-integral float. -/
def ratRepr (q : ℚ) : String :=
  if q.den = 1 then toString q.num ++ ".0" else toString q

/-- Python `str(...)` of a cell value (`str(None) = "None"`). -/
def pyStr : Cell → String
  | Cell.blank => "None"
  | Cell.str s => s
  | Cell.int n => toString n
  | Cell.num q => ratRepr q

/-- Digits of a string, as a natural number, when the string is a nonempty
run of ASCII digits; `none` otherwise. -/
def digitsToNat? (cs : List Char) : Option Nat :=
  if cs ≠ [] ∧ cs.all Char.isDigit then
    some (cs.foldl (fun acc c => acc * 10 + (c.toNat - '0'.toNat)) 0)
  else none

/-- Python `int(s)` on a string: optional sign, then decimal digits.
(Whitespace trimming and underscore separators of the Python grammar are
not modelled; no claim exercises them.) -/
def strToInt? (s : String) : Option Int :=
  match s.toList with
  | '-' :: cs => (digitsToNat? cs).map (fun n => -(n : Int))
  | '+' :: cs => (digitsToNat? cs).map (fun n => (n : Int))
  | cs => (digitsToNat? cs).map (fun n => (n : Int))

/-- Truncation of a rational toward zero, as Python `int(float)` does. -/
def ratTrunc (q : ℚ) : Int :=
  if q < 0 then -((-q).floor) else q.floor

/-- Python `int(v)` on a cell value; `none` models a raised exception
(`int(None)` raises `TypeError`, a malformed string raises `ValueError`). -/
def pyInt : Cell → Option Int
  | Cell.blank => none
  | Cell.str s => strToInt? s
  | Cell.int n => some n
  | Cell.num q => some (ratTrunc q)

/-- Python `float(s)` on a string: optional sign, digits with at most one
decimal point, at least one digit.  (Exponent/`inf`/`nan` forms are not
modelled; no claim exercises them.) -/
def strToRat? (s : String) : Option ℚ :=
  let core : List Char → Option ℚ := fun cs =>
    match cs.splitOn '.' with
    | [ip] => (digitsToNat? ip).map (fun n => (n : ℚ))
    | [ip, fp] =>
      if ip = [] ∧ fp = [] then none
      else if ip ≠ [] ∧ fp = [] then (digitsToNat? ip).map (fun n => (n : ℚ))
      else if ip = [] then (digitsToNat? fp).map (fun n => (n : ℚ) / (10 : ℚ) ^ fp.length)
      else
        match digitsToNat? ip, digitsToNat? fp with
        | some a, some b => some ((a : ℚ) + (b : ℚ) / (10 : ℚ) ^ fp.length)
        | _, _ => none
    | _ => none
  match s.toList with
  | '-' :: cs => (core cs).map (fun q => -q)
  | '+' :: cs => core cs
  | cs => core cs

/-- Python `float(v)` on a cell value; `none` models a raised exception. -/
def pyFloat : Cell → Option ℚ
  | Cell.blank => none
  | Cell.str s => strToRat? s
  | Cell.int n => some ((n : ℚ))
  | Cell.num q => some q

/-- A worksheet: a list of stored rows, each a list of cells.  Cells not
stored read back as blank, as in openpyxl. -/
structure Sheet where
  rows : List (List Cell)
deriving DecidableEq, Repr

/-- `ws.max_row` (openpyxl reports at least 1 even for an empty sheet). -/
def Sheet.maxRow (ws : Sheet) : Nat := max 1 ws.rows.length

/-- `ws.max_column`. -/
def Sheet.maxCol (ws : Sheet) : Nat :=
  max 1 (ws.rows.foldr (fun row acc => max row.length acc) 0)

/-- `ws.cell(row=r, column=c).value`, 1-indexed; unstored cells are blank. -/
def Sheet.getCell (ws : Sheet) (r c : Nat) : Cell :=
  (ws.rows.getD (r - 1) []).getD (c - 1) Cell.blank

/-- Pad a row list with empty rows up to length `n`. -/
def padRows (l : List (List Cell)) (n : Nat) : List (List Cell) :=
  l ++ List.replicate (n - l.length) []

/-- Pad a row with blank cells up to length `n`. -/
def padRow (row : List Cell) (n : Nat) : List Cell :=
  row ++ List.replicate (n - row.length) Cell.blank

/-- `ws.cell(row=r, column=c, value=v)`, 1-indexed write (extends the grid). -/
def Sheet.setCell (ws : Sheet) (r c : Nat) (v : Cell) : Sheet :=
  let rows := padRows ws.rows r
  ⟨rows.set (r - 1) ((padRow (rows.getD (r - 1) []) c).set (c - 1) v)⟩

/-- `ws.delete_rows(r, 1)`, 1-indexed. -/
def Sheet.deleteRowAt (ws : Sheet) (r : Nat) : Sheet :=
  ⟨ws.rows.eraseIdx (r - 1)⟩

/-- `ws.append(values)`. -/
def Sheet.appendRow (ws : Sheet) (vals : List Cell) : Sheet :=
  ⟨ws.rows ++ [vals]⟩

/-- The cells of row `r` padded to the sheet's column count, as
`ws.iter_rows` / `ws[r]` surface them. -/
def Sheet.rowCells (ws : Sheet) (r : Nat) : List Cell :=
  (List.range ws.maxCol).map (fun i => ws.getCell r (i + 1))

/-- `[cell.value for cell in ws[1]]` — the header row as read by the store. -/
def Sheet.row1Cells (ws : Sheet) : List Cell := ws.rowCells 1

/-- A decoded row: the `{headers[i]: r[i]}` dict, as an association list in
construction order (Python dict lookup resolves to the LAST binding of a
duplicated key, since later comprehension steps overwrite). -/
abbrev Dict := List (Cell × Cell)

/-- Python `d.get(k, dflt)` on a decoded row dict, `k` a cell key. -/
def dictGet (d : Dict) (k : Cell) (dflt : Cell) : Cell :=
  match (List.reverse d).find? (fun p => pyEq p.1 k) with
  | some p => p.2
  | none => dflt

/-- `d.get(k, dflt)` with a string key, the common case. -/
def dictGetS (d : Dict) (k : String) (dflt : Cell) : Cell :=
  dictGet d (Cell.str k) dflt

/-- A caller-supplied field mapping `dict[str, Any]`. -/
abbrev PyDict := List (String × Cell)

/-- Python `data.get(k, dflt)` on a field mapping. -/
def dataGet (data : PyDict) (k : String) (dflt : Cell) : Cell :=
  match List.find? (fun p => p.1 = k) data with
  | some p => p.2
  | none => dflt

/-- `data.get(h, dflt)` where `h` is a header cell: only string headers can
match the string keys of the mapping. -/
def dataGetCell (data : PyDict) (h : Cell) (dflt : Cell) : Cell :=
  match h with
  | Cell.str s => dataGet data s dflt
  | _ => dflt

/-- Python `h in data` where `h` is a header cell. -/
def dataHasKey (data : PyDict) (h : Cell) : Bool :=
  match h with
  | Cell.str s => data.any (fun p => p.1 = s)
  | _ => false

/-- The whole workbook: the five tables of the store.  A sheet that
`ensure_workbook` would have to create is represented by the empty sheet,
which openpyxl's `create_sheet` also yields and which every code path
treats identically to a missing sheet. -/
structure Doc where
  students : Sheet
  teachers : Sheet
  student_payments : Sheet
  teacher_payments : Sheet
  activity_log : Sheet
deriving DecidableEq, Repr

/-- `ExcelStore._sheet_to_dicts`: decode rows 2..max_row, skipping rows
whose cells are all `None`, zipping header cells with row cells. -/
def sheet_to_dicts (ws : Sheet) : List Dict :=
  (List.range' 2 (ws.maxRow - 1)).filterMap (fun r =>
    let cells := ws.rowCells r
    if cells.all (fun c => c = Cell.blank) then none
    else some (ws.row1Cells.zip cells))

/-- `ExcelStore._find_row_by_id`: locate the id column in row 1 (first
header cell `== id_header`), then return the first row index in
2..max_row whose id cell `== person_id`; `none` when the header is missing
or no row matches. -/
def find_row_by_id (ws : Sheet) (idHeader : String) (pid : String) : Option Nat :=
  match ws.row1Cells.findIdx? (fun c => pyEq c (Cell.str idHeader)) with
  | none => none
  | some i =>
    (List.range' 2 (ws.maxRow - 1)).find? (fun r => pyEq (ws.getCell r (i + 1)) (Cell.str pid))

/-- `ExcelStore.list_students`. -/
def list_students (d : Doc) : List Dict := sheet_to_dicts d.students

/-- `ExcelStore.list_teachers`. -/
def list_teachers (d : Doc) : List Dict := sheet_to_dicts d.teachers

/-- The update branch of `upsert_student`: for each header cell (1-based
column), skip `created_at`, stamp `updated_at` with `now`, and overwrite
exactly the headers present as keys of `data`. -/
def updateRowFromData (ws : Sheet) (row : Nat) (headers : List Cell) (now : String)
    (data : PyDict) : Sheet :=
  (headers.enumFrom 1).foldl (fun ws' p =>
    if pyEq p.2 (Cell.str "created_at") then ws'
    else if pyEq p.2 (Cell.str "updated_at") then ws'.setCell row p.1 (Cell.str now)
    else if dataHasKey data p.2 then ws'.setCell row p.1 (dataGetCell data p.2 (Cell.str ""))
    else ws') ws

/-- The insert branch of `upsert_student`: one value per header, stamping
`created_at` and `updated_at`, defaulting unsupplied fields to `""`. -/
def insertRowFromData (headers : List Cell) (now : String) (data : PyDict) : List Cell :=
  headers.map (fun h =>
    if pyEq h (Cell.str "created_at") then Cell.str now
    else if pyEq h (Cell.str "updated_at") then Cell.str now
    else dataGetCell data h (Cell.str ""))

/-- `ExcelStore.upsert_student` on the loaded workbook (`now` stands for
the `_iso_now()` clock reading). -/
def upsert_student (now : String) (data : PyDict) (d : Doc) : Doc :=
  let ws := d.students
  let headers := ws.row1Cells
  let pid := pyStr (dataGet data "student_id" (Cell.str ""))
  match find_row_by_id ws "student_id" pid with
  | none => { d with students := ws.appendRow (insertRowFromData headers now data) }
  | some row => { d with students := updateRowFromData ws row headers now data }

/-- `ExcelStore.delete_student` on the loaded workbook: the returned flag
and the resulting workbook. -/
def delete_student (sid : String) (d : Doc) : Bool × Doc :=
  match find_row_by_id d.students "student_id" sid with
  | none => (false, d)
  | some r => (true, { d with students := d.students.deleteRowAt r })

/-- The payments sheet selected by `entity == "student"`. -/
def paymentsSheet (d : Doc) (entity : String) : Sheet :=
  if entity = "student" then d.student_payments else d.teacher_payments

/-- The id column name selected by `entity == "student"`. -/
def idColFor (entity : String) : String :=
  if entity = "student" then "student_id" else "teacher_id"

/-- Replace the payments sheet selected by `entity`. -/
def setPaymentsSheet (d : Doc) (entity : String) (ws : Sheet) : Doc :=
  if entity = "student" then { d with student_payments := ws }
  else { d with teacher_payments := ws }

/-- The row scan of `get_payment_record`: first decoded row whose id
matches and whose `year`/`month` convert via `int(...)` to the target
(short-circuit: `int` is only applied once the previous conjunct held);
`Except.error` models the uncaught exception of a failed conversion. -/
def findPaymentDict (idCol pid : String) (year month : Int) :
    List Dict → Except Unit (Option Dict)
  | [] => Except.ok none
  | r :: rest =>
    if pyStr (dictGetS r idCol (Cell.str "")) = pid then
      match pyInt (dictGetS r "year" (Cell.int 0)) with
      | none => Except.error ()
      | some y =>
        if y = year then
          match pyInt (dictGetS r "month" (Cell.int 0)) with
          | none => Except.error ()
          | some m =>
            if m = month then Except.ok (some r)
            else findPaymentDict idCol pid year month rest
        else findPaymentDict idCol pid year month rest
    else findPaymentDict idCol pid year month rest

/-- `ExcelStore.get_payment_record`: the stored record, else the synthetic
default `{"status": "Pending", "amount": 0.0}`. -/
def get_payment_record (d : Doc) (entity pid : String) (year month : Int) :
    Except Unit Dict :=
  match findPaymentDict (idColFor entity) pid year month
      (sheet_to_dicts (paymentsSheet d entity)) with
  | Except.error e => Except.error e
  | Except.ok (some r) => Except.ok r
  | Except.ok none =>
    Except.ok [(Cell.str "status", Cell.str "Pending"), (Cell.str "amount", Cell.num 0)]

/-- `ExcelStore.get_payment_status`:
`str(rec.get("status", "Pending") or "Pending")`. -/
def get_payment_status (d : Doc) (entity pid : String) (year month : Int) :
    Except Unit String :=
  (get_payment_record d entity pid year month).map (fun rec =>
    pyStr (pyOr (dictGetS rec "status" (Cell.str "Pending")) (Cell.str "Pending")))

/-- The target-row scan of `set_payment`: `enumerate(rows, start=2)` over
the decoded (blank-skipping) row list, so the reported index assumes the
decoded list is aligned with the sheet rows. -/
def findPaymentIdx (idCol pid : String) (year month : Int) :
    Nat → List Dict → Except Unit (Option Nat)
  | _, [] => Except.ok none
  | idx, r :: rest =>
    if pyStr (dictGetS r idCol (Cell.str "")) = pid then
      match pyInt (dictGetS r "year" (Cell.int 0)) with
      | none => Except.error ()
      | some y =>
        if y = year then
          match pyInt (dictGetS r "month" (Cell.int 0)) with
          | none => Except.error ()
          | some m =>
            if m = month then Except.ok (some idx)
            else findPaymentIdx idCol pid year month (idx + 1) rest
        else findPaymentIdx idCol pid year month (idx + 1) rest
    else findPaymentIdx idCol pid year month (idx + 1) rest

/-- The in-place update branch of `set_payment`: stamp `updated_at`, write
`status` and `amount` at their header columns of row `tr`. -/
def setPaymentRow (ws : Sheet) (tr : Nat) (headers : List Cell) (now status : String)
    (amount : ℚ) : Sheet :=
  (headers.enumFrom 1).foldl (fun ws' p =>
    if pyEq p.2 (Cell.str "updated_at") then ws'.setCell tr p.1 (Cell.str now)
    else if pyEq p.2 (Cell.str "status") then ws'.setCell tr p.1 (Cell.str status)
    else if pyEq p.2 (Cell.str "amount") then ws'.setCell tr p.1 (Cell.num amount)
    else ws') ws

/-- `ExcelStore.set_payment` on the loaded workbook. -/
def set_payment (now : String) (entity pid : String) (year month : Int)
    (status : String) (amount : ℚ) (d : Doc) : Except Unit Doc :=
  let ws := paymentsSheet d entity
  let idCol := idColFor entity
  let headers := ws.row1Cells
  match findPaymentIdx idCol pid year month 2 (sheet_to_dicts ws) with
  | Except.error e => Except.error e
  | Except.ok none =>
    let data : PyDict :=
      [(idCol, Cell.str pid), ("year", Cell.int year), ("month", Cell.int month),
       ("status", Cell.str status), ("amount", Cell.num amount),
       ("updated_at", Cell.str now)]
    Except.ok (setPaymentsSheet d entity
      (ws.appendRow (headers.map (fun h => dataGetCell data h (Cell.str "")))))
  | Except.ok (some tr) =>
    Except.ok (setPaymentsSheet d entity (setPaymentRow ws tr headers now status amount))

/-- `ExcelStore.list_all_payments`. -/
def list_all_payments (d : Doc) (entity : String) : List Dict :=
  sheet_to_dicts (paymentsSheet d entity)

/-- The `paid_lookup` construction of `get_pending_months`: records of this
person keyed by `(int(year), int(month))`, conversion failures skipped
(`except: pass`), later records overwriting earlier ones. -/
def buildPaidLookup (idCol pid : String) (recs : List Dict) :
    List ((Int × Int) × Dict) :=
  recs.foldl (fun acc rec =>
    if pyStr (dictGetS rec idCol (Cell.str "")) = pid then
      match pyInt (dictGetS rec "year" (Cell.int 0)) with
      | none => acc
      | some y =>
        match pyInt (dictGetS rec "month" (Cell.int 0)) with
        | none => acc
        | some m => acc ++ [((y, m), rec)]
    else acc) []

/-- Dict lookup on the paid-lookup table (last binding wins). -/
def lookupGet (l : List ((Int × Int) × Dict)) (k : Int × Int) : Option Dict :=
  (l.reverse.find? (fun p => p.1 = k)).map (fun p => p.2)

/-- One result entry of `get_pending_months`. -/
structure PendEntry where
  year : Int
  month : Int
  amount : ℚ
deriving DecidableEq, Repr

/-- The 24-iteration backward walk of `get_pending_months`, producing
entries newest-first (the caller reverses).  A month with no record is
pending at the default amount; a month whose record's lowercased status is
not `"paid"` is pending at the record's amount when that is `> 0`, else at
the default.  `Except.error` models the uncaught exception of
`float(...)` on a malformed amount. -/
def pendingLoop (lookup : List ((Int × Int) × Dict)) (dflt : ℚ) :
    Nat → Int → Int → Except Unit (List PendEntry)
  | 0, _, _ => Except.ok []
  | k + 1, y, m =>
    let next := pendingLoop lookup dflt k (if m - 1 < 1 then y - 1 else y)
      (if m - 1 < 1 then 12 else m - 1)
    match lookupGet lookup (y, m) with
    | none => next.map (fun rest => PendEntry.mk y m dflt :: rest)
    | some rec =>
      if pyLower (pyStr (dictGetS rec "status" (Cell.str ""))) ≠ "paid" then
        match pyFloat (pyOr (dictGetS rec "amount" (Cell.int 0)) (Cell.int 0)) with
        | none => Except.error ()
        | some a => next.map (fun rest => PendEntry.mk y m (if a ≤ 0 then dflt else a) :: rest)
      else next

/-- `ExcelStore.get_pending_months`. -/
def get_pending_months (d : Doc) (entity pid : String) (upY upM : Int)
    (dflt : ℚ) : Except Unit (List PendEntry) :=
  let lookup := buildPaidLookup (idColFor entity) pid (list_all_payments d entity)
  (pendingLoop lookup dflt 24 upY upM).map List.reverse

/-- The aggregate of `payment_stats`. -/
structure PayStats where
  paid : Nat
  pending : Nat
  total : Nat
deriving DecidableEq, Repr

/-- The person loop of `payment_stats`: skip empty string ids, classify the
rest by `get_payment_status` (case-insensitive `"paid"`). -/
def paymentStatsLoop (d : Doc) (entity idKey : String) (year month : Int) :
    List Dict → Nat → Nat → Except Unit (Nat × Nat)
  | [], paid, pending => Except.ok (paid, pending)
  | p :: rest, paid, pending =>
    let pid := pyStr (dictGetS p idKey (Cell.str ""))
    if pid = "" then paymentStatsLoop d entity idKey year month rest paid pending
    else
      match get_payment_status d entity pid year month with
      | Except.error e => Except.error e
      | Except.ok st =>
        if pyLower st = "paid" then
          paymentStatsLoop d entity idKey year month rest (paid + 1) pending
        else paymentStatsLoop d entity idKey year month rest paid (pending + 1)

/-- `ExcelStore.payment_stats`. -/
def payment_stats (d : Doc) (entity : String) (year month : Int) :
    Except Unit PayStats :=
  let people := if entity = "student" then list_students d else list_teachers d
  let idKey := if entity = "student" then "student_id" else "teacher_id"
  (paymentStatsLoop d entity idKey year month people 0 0).map (fun p =>
    PayStats.mk p.1 p.2 (p.1 + p.2))

/-- An activity event (`logger.AppEvent`). -/
structure AppEvent where
  timestamp : String
  action : String
  entity_type : String
  entity_id : String
  details : String
deriving DecidableEq, Repr

/-- `ExcelStore.add_event` on the loaded workbook. -/
def add_event (ev : AppEvent) (d : Doc) : Doc :=
  let row := [Cell.str ev.timestamp, Cell.str ev.action, Cell.str ev.entity_type,
    Cell.str ev.entity_id, Cell.str ev.details]
  { d with activity_log := d.activity_log.appendRow row }

/-- Python `l[start:]` with a possibly negative start. -/
def pySliceFrom {α : Type} (l : List α) (start : Int) : List α :=
  let n : Int := l.length
  let s : Int := if start < 0 then max 0 (n + start) else min start n
  l.drop s.toNat

/-- `ExcelStore.list_events`: `rows[-limit:]` over the decoded activity
rows. -/
def list_events (d : Doc) (limit : Int) : List Dict :=
  pySliceFrom (sheet_to_dicts d.activity_log) (-limit)

/-- Zero-pad a natural number to (at least) four digits, as `f"{n:04d}"`. -/
def pad4 (n : Nat) : String :=
  let s := toString n
  String.mk (List.replicate (4 - s.length) '0') ++ s

/-- `App._next_id` (app.py): a suffix contributes its integer value only
when `re.match(r"0*(\d+)$", tail)` succeeds, i.e. when the whole tail is a
nonempty run of digits. -/
def next_id_app (pfx : String) (existing : List String) : String :=
  let maxN := existing.foldl (fun acc eid =>
    if ¬ pyStartsWith eid pfx then acc
    else
      match digitsToNat? (pyTailAfter eid pfx) with
      | some n => max acc n
      | none => acc) 0
  pfx ++ pad4 (maxN + 1)

/-- `WxApp._next_id` (wx_app.py): ALL digit characters of the tail are
concatenated (not only a leading run) and parsed. -/
def next_id_wx (pfx : String) (existing : List String) : String :=
  let maxN := existing.foldl (fun acc eid =>
    if ¬ pyStartsWith eid pfx then acc
    else
      match digitsToNat? ((pyTailAfter eid pfx).filter Char.isDigit) with
      | some n => max acc n
      | none => acc) 0
  pfx ++ pad4 (maxN + 1)

/-- Errors of the load/save lifecycle. -/
inductive StoreErr where
  | fileNotFound : StoreErr
  | saveFailed : StoreErr
deriving DecidableEq, Repr

/-- The mutable state of an `ExcelStore`: the in-memory cached workbook
(`self._wb`) and the workbook persisted on disk (`none` = no file). -/
structure StoreState where
  cache : Option Doc
  disk : Option Doc
deriving DecidableEq, Repr

/-- `ExcelStore._load`: return the cached workbook, else read the file
into the cache (raising `FileNotFoundError` when it does not exist).  The
returned workbook ALIASES the cache: subsequent in-place cell mutations
are visible through `self._wb`. -/
def load_wb (s : StoreState) : Except StoreErr (Doc × StoreState) :=
  match s.cache with
  | some wb => Except.ok (wb, s)
  | none =>
    match s.disk with
    | none => Except.error StoreErr.fileNotFound
    | some dsk => Except.ok (dsk, StoreState.mk (some dsk) s.disk)

/-- `ExcelStore.upsert_student` including the load/save lifecycle, with
`saveOk` abstracting whether `wb.save(self.path)` succeeds.  Because the
workbook object is mutated in place before the save, the cache holds the
mutated workbook whether or not the save succeeds; only the disk copy is
conditional. -/
def upsert_student_run (saveOk : Bool) (now : String) (data : PyDict)
    (s : StoreState) : Except StoreErr Unit × StoreState :=
  match load_wb s with
  | Except.error e => (Except.error e, s)
  | Except.ok (wb, s1) =>
    let wb' := upsert_student now data wb
    if saveOk then (Except.ok (), StoreState.mk (some wb') (some wb'))
    else (Except.error StoreErr.saveFailed, StoreState.mk (some wb') s1.disk)

/-- `ExcelStore.delete_student` including the load/save lifecycle: the
not-found branch returns `False` without mutating or saving anything. -/
def delete_student_run (saveOk : Bool) (sid : String) (s : StoreState) :
    Except StoreErr Bool × StoreState :=
  match load_wb s with
  | Except.error e => (Except.error e, s)
  | Except.ok (wb, s1) =>
    match find_row_by_id wb.students "student_id" sid with
    | none => (Except.ok false, s1)
    | some r =>
      let wb' := { wb with students := wb.students.deleteRowAt r }
      if saveOk then (Except.ok true, StoreState.mk (some wb') (some wb'))
      else (Except.error StoreErr.saveFailed, StoreState.mk (some wb') s1.disk)

/-- `enumerate(headers, start=1)` write loop of `_ensure_sheet_headers`
when headers are (re)written into row 1. -/
def writeHeaderRow (ws : Sheet) (headers : List String) : Sheet :=
  (headers.enumFrom 1).foldl (fun ws' p => ws'.setCell 1 p.1 (Cell.str p.2)) ws

/-- The append-missing loop of `_ensure_sheet_headers`: for each required
header not `in` the existing header list, write it one past the current
header width and extend the list. -/
def appendMissingHeaders (ws : Sheet) (existing : List Cell) (headers : List String) : Sheet :=
  (headers.foldl (fun (acc : Sheet × List Cell) h =>
    if acc.2.any (fun c => pyEq c (Cell.str h)) then acc
    else (acc.1.setCell 1 (acc.2.length + 1) (Cell.str h), acc.2 ++ [Cell.str h]))
    (ws, existing)).1

/-- `_ensure_sheet_headers`. -/
def ensure_sheet_headers (ws : Sheet) (headers : List String) : Sheet :=
  if ws.maxRow < 1 ∨ ws.maxCol < 1 then writeHeaderRow ws headers
  else if ws.getCell 1 1 = Cell.blank ∧ ws.row1Cells.all (fun c => c = Cell.blank) then
    if 2 ≤ ws.maxRow then
      if pyEqList ((List.range headers.length).map (fun i => ws.getCell 2 (i + 1)))
          (headers.map Cell.str) then
        ws.deleteRowAt 1
      else writeHeaderRow ws headers
    else writeHeaderRow ws headers
  else if ¬ pyEqList ws.row1Cells (headers.map Cell.str) then
    appendMissingHeaders ws ws.row1Cells headers
  else ws

/-- The first `len(headers)` cell values of row `r`, as `_cleanup_sheet`
reads them. -/
def rowValsFor (ws : Sheet) (r n : Nat) : List Cell :=
  (List.range n).map (fun i => ws.getCell r (i + 1))

/-- One iteration of the bottom-up `_cleanup_sheet` scan at row `r`:
delete the row when it duplicates the header values or is entirely
blank/empty-string in the header columns. -/
def cleanupStep (ws : Sheet) (headers : List String) (r : Nat) : Sheet :=
  let vals := rowValsFor ws r headers.length
  if pyEqList vals (headers.map Cell.str) then ws.deleteRowAt r
  else if vals.all (fun v => v = Cell.blank ∨ v = Cell.str "") then ws.deleteRowAt r
  else ws

/-- The bottom-up scan `for row in range(max_row, 1, -1)`. -/
def cleanupFrom (headers : List String) : Nat → Sheet → Sheet
  | 0, ws => ws
  | 1, ws => ws
  | r + 2, ws => cleanupFrom headers (r + 1) (cleanupStep ws headers (r + 2))

/-- `_cleanup_sheet`. -/
def cleanup_sheet (ws : Sheet) (headers : List String) : Sheet :=
  if ws.maxRow ≤ 1 then ws else cleanupFrom headers ws.maxRow ws

/-- The per-table work of `ensure_workbook`: ensure headers, then clean. -/
def ensureTable (ws : Sheet) (headers : List String) : Sheet :=
  cleanup_sheet (ensure_sheet_headers ws headers) headers

/-- The students header list of `ensure_workbook`. -/
def studentHeaders (custom : List String) : List String :=
  ["student_id", "first_name", "last_name", "age", "class", "section",
   "primary_contact", "secondary_contact", "created_at", "updated_at"] ++ custom

/-- The teachers header list of `ensure_workbook`. -/
def teacherHeaders (custom : List String) : List String :=
  ["teacher_id", "first_name", "last_name", "role", "primary_contact",
   "secondary_contact", "created_at", "updated_at"] ++ custom

/-- The payments header list of `ensure_workbook`. -/
def payHeaders (idCol : String) : List String :=
  [idCol, "year", "month", "status", "amount", "updated_at"]

/-- The activity-log header list of `ensure_workbook`. -/
def activityHeaders : List String :=
  ["timestamp", "action", "entity_type", "entity_id", "details"]

/-- The table-structure effect of `ExcelStore.ensure_workbook` (the final
`wb.save` only persists; it does not alter the tables). -/
def ensure_workbook (scf tcf : List String) (d : Doc) : Doc :=
  { students := ensureTable d.students (studentHeaders scf)
    teachers := ensureTable d.teachers (teacherHeaders tcf)
    student_payments := ensureTable d.student_payments (payHeaders "student_id")
    teacher_payments := ensureTable d.teacher_payments (payHeaders "teacher_id")
    activity_log := ensureTable d.activity_log activityHeaders }

/-! ### Basic lemmas about the sheet grid -/

theorem padRows_length (l : List (List Cell)) (n : Nat) :
    (padRows l n).length = max l.length n := by
  simp [padRows]
  omega

theorem List_getD_set_self {α : Type} (l : List α) (i : Nat) (a d : α)
    (h : i < l.length) : (l.set i a).getD i d = a := by
  rw [List.getD_eq_getElem?_getD, List.getElem?_set_self h, Option.getD_some]

theorem List_getD_set_ne {α : Type} (l : List α) (i j : Nat) (a d : α)
    (h : i ≠ j) : (l.set i a).getD j d = l.getD j d := by
  rw [List.getD_eq_getElem?_getD, List.getElem?_set_ne h, ← List.getD_eq_getElem?_getD]

theorem padRows_getD (l : List (List Cell)) (n i : Nat) :
    (padRows l n).getD i [] = l.getD i [] := by
  rcases lt_or_ge i l.length with h | h
  · rw [padRows, List.getD_append _ _ _ _ h]
  · rw [List.getD_eq_default _ _ h]
    rw [padRows, List.getD_append_right _ _ _ _ h, List.getD_eq_getElem?_getD,
      List.getElem?_replicate]
    split <;> simp

theorem padRow_length (row : List Cell) (n : Nat) :
    (padRow row n).length = max row.length n := by
  simp [padRow]
  omega

theorem padRow_getD (row : List Cell) (n i : Nat) :
    (padRow row n).getD i Cell.blank = row.getD i Cell.blank := by
  rcases lt_or_ge i row.length with h | h
  · rw [padRow, List.getD_append _ _ _ _ h]
  · rw [List.getD_eq_default _ _ h]
    rcases lt_or_ge i (padRow row n).length with h2 | h2
    · rw [padRow, List.getD_append_right _ _ _ _ h, List.getD_eq_getElem?_getD,
        List.getElem?_replicate]
      split <;> simp
    · rw [List.getD_eq_default _ _ h2]

theorem Sheet.setCell_rows_length (ws : Sheet) (r c : Nat) (v : Cell) :
    (ws.setCell r c v).rows.length = max ws.rows.length r := by
  simp [Sheet.setCell, padRows_length]

theorem Sheet.getCell_setCell_same (ws : Sheet) (r c : Nat) (v : Cell)
    (hr : 1 ≤ r) (hc : 1 ≤ c) : (ws.setCell r c v).getCell r c = v := by
  unfold Sheet.setCell Sheet.getCell
  simp only
  have hrow : r - 1 < (padRows ws.rows r).length := by
    rw [padRows_length]; omega
  rw [List_getD_set_self _ _ _ _ hrow]
  have hcol : c - 1 < (padRow ((padRows ws.rows r).getD (r - 1) []) c).length := by
    rw [padRow_length]; omega
  rw [List_getD_set_self _ _ _ _ hcol]

theorem Sheet.getCell_setCell_other_row (ws : Sheet) (r c r' c' : Nat) (v : Cell)
    (hr : 1 ≤ r) (hr' : 1 ≤ r') (hne : r' ≠ r) :
    (ws.setCell r c v).getCell r' c' = ws.getCell r' c' := by
  unfold Sheet.setCell Sheet.getCell
  simp only
  rw [List_getD_set_ne _ _ _ _ _ (by omega), padRows_getD]

theorem Sheet.getCell_setCell_other_col (ws : Sheet) (r c c' : Nat) (v : Cell)
    (hr : 1 ≤ r) (hc : 1 ≤ c) (hc' : 1 ≤ c') (hne : c' ≠ c) :
    (ws.setCell r c v).getCell r c' = ws.getCell r c' := by
  unfold Sheet.setCell Sheet.getCell
  simp only
  have hrow : r - 1 < (padRows ws.rows r).length := by
    rw [padRows_length]; omega
  rw [List_getD_set_self _ _ _ _ hrow,
    List_getD_set_ne _ (c - 1) (c' - 1) _ _ (by omega), padRow_getD, padRows_getD]

/-! ### C10 — `list_events` limit edge cases -/

/-- A small populated activity log used to instantiate theorems. -/
def wEvRow (t a : String) : List Cell :=
  [Cell.str t, Cell.str a, Cell.str "s", Cell.str "S1", Cell.str ""]

/-- A document whose activity log holds three events. -/
def wEventsDoc : Doc :=
  Doc.mk ⟨[]⟩ ⟨[]⟩ ⟨[]⟩ ⟨[]⟩
    ⟨[activityHeaders.map Cell.str, wEvRow "t1" "a1", wEvRow "t2" "a2", wEvRow "t3" "a3"]⟩

/-- C10: `list_events` with `limit = 0` returns the entire decoded log
(oldest-first) — `rows[-0:]` is `rows[0:]` — and for every `limit ≥ 1` it
returns the last `min(limit, length)` decoded events in append order. -/
theorem list_events_limit_semantics (d : Doc) :
    list_events d 0 = sheet_to_dicts d.activity_log ∧
    (∀ limit : Int, 1 ≤ limit →
      list_events d limit =
        (sheet_to_dicts d.activity_log).drop
          ((sheet_to_dicts d.activity_log).length - limit.toNat) ∧
      (list_events d limit).length =
        min limit.toNat (sheet_to_dicts d.activity_log).length) := by
  constructor
  · simp [list_events, pySliceFrom]
  · intro limit hl
    have h1 : list_events d limit =
        (sheet_to_dicts d.activity_log).drop
          ((sheet_to_dicts d.activity_log).length - limit.toNat) := by
      have hneg : -limit < 0 := by omega
      simp only [list_events, pySliceFrom, if_pos hneg]
      congr 1
      omega
    refine ⟨h1, ?_⟩
    rw [h1, List.length_drop]
    omega

/-- Instantiation of `list_events_limit_semantics` at a concrete log. -/
theorem list_events_limit_semantics_witness :
    list_events wEventsDoc 2 =
      (sheet_to_dicts wEventsDoc.activity_log).drop
        ((sheet_to_dicts wEventsDoc.activity_log).length - (2 : Int).toNat) ∧
    (list_events wEventsDoc 2).length =
      min (2 : Int).toNat (sheet_to_dicts wEventsDoc.activity_log).length :=
  (list_events_limit_semantics wEventsDoc).2 2 (by decide)

/-! ### C5 — a failed save leaves the cache mutated (divergent from disk) -/

/-- A document with only the students header row. -/
def c5Doc : Doc :=
  Doc.mk ⟨[(studentHeaders []).map Cell.str]⟩ ⟨[]⟩ ⟨[]⟩ ⟨[]⟩ ⟨[]⟩

/-- A field mapping inserting a new student. -/
def c5Data : PyDict := [("student_id", Cell.str "S1"), ("first_name", Cell.str "Alice")]

/-- C5 fails on the code: `upsert_student` mutates the workbook object that
`self._wb` aliases BEFORE saving, so when the save raises, the cached
document holds the mutation while the disk does not — the cache diverges
from disk, contrary to the mutate-a-working-copy discipline the spec
requires. -/
theorem upsert_student_failed_save_diverges :
    (upsert_student_run false "2026-01-01T00:00:00" c5Data
        (StoreState.mk (some c5Doc) (some c5Doc))).1 = Except.error StoreErr.saveFailed ∧
    (upsert_student_run false "2026-01-01T00:00:00" c5Data
        (StoreState.mk (some c5Doc) (some c5Doc))).2.disk = some c5Doc ∧
    (upsert_student_run false "2026-01-01T00:00:00" c5Data
        (StoreState.mk (some c5Doc) (some c5Doc))).2.cache ≠ some c5Doc := by
  decide

/-! ### C4 — next-ID generation -/

/-- The extraction rule exactly as the claim words it (spec-side, for
comparison): the longest run of LEADING digits immediately following the
prefix. -/
def claimLeadingDigits (pfx eid : String) : Option Nat :=
  if pyStartsWith eid pfx then
    digitsToNat? ((pyTailAfter eid pfx).takeWhile Char.isDigit)
  else none

/-- Next-ID generation exactly as the claim words it (spec-side). -/
def claimNextId (pfx : String) (existing : List String) : String :=
  let maxN := existing.foldl (fun acc eid =>
    match claimLeadingDigits pfx eid with
    | some n => max acc n
    | none => acc) 0
  pfx ++ pad4 (maxN + 1)

/-- C4 fails on the code: neither implementation extracts "the longest run
of leading digits".  `app.py` requires the WHOLE tail to be digits (so
"STU-12a" contributes nothing and the result is "STU-0001", not the
claimed "STU-0013"), while `wx_app.py` concatenates ALL digit characters
of the tail (so "STU-1a2" contributes 12 and the result is "STU-0013",
not the claimed "STU-0002"). -/
theorem next_id_leading_digits_counterexample :
    claimNextId "STU-" ["STU-12a"] = "STU-0013" ∧
    next_id_app "STU-" ["STU-12a"] = "STU-0001" ∧
    next_id_app "STU-" ["STU-12a"] ≠ claimNextId "STU-" ["STU-12a"] ∧
    claimNextId "STU-" ["STU-1a2"] = "STU-0002" ∧
    next_id_wx "STU-" ["STU-1a2"] = "STU-0013" ∧
    next_id_wx "STU-" ["STU-1a2"] ≠ claimNextId "STU-" ["STU-1a2"] := by
  decide

/-- The contribution of one existing ID in `app.py`: the integer value of
the tail when the whole tail after the prefix is a nonempty digit run. -/
def appDigitsOf (pfx eid : String) : Option Nat :=
  if pyStartsWith eid pfx then digitsToNat? (pyTailAfter eid pfx) else none

/-- The contribution of one existing ID in `wx_app.py`: the concatenation
of all digit characters of the tail, when nonempty. -/
def wxDigitsOf (pfx eid : String) : Option Nat :=
  if pyStartsWith eid pfx then
    digitsToNat? ((pyTailAfter eid pfx).filter Char.isDigit)
  else none

theorem foldl_max_opt (f : String → Option Nat) (l : List String) :
    ∀ acc : Nat,
      acc ≤ l.foldl (fun a e => match f e with | some n => max a n | none => a) acc ∧
      (∀ e ∈ l, ∀ n, f e = some n →
        n ≤ l.foldl (fun a e => match f e with | some n => max a n | none => a) acc) ∧
      (l.foldl (fun a e => match f e with | some n => max a n | none => a) acc = acc ∨
        ∃ e ∈ l, f e =
          some (l.foldl (fun a e => match f e with | some n => max a n | none => a) acc)) := by
  induction l with
  | nil => intro acc; simp
  | cons e rest ih =>
    intro acc
    simp only [List.foldl_cons]
    rcases hfe : f e with _ | n <;> simp only [hfe]
    · rcases ih acc with ⟨h1, h2, h3⟩
      refine ⟨h1, ?_, ?_⟩
      · intro e' he' n' hn'
        rcases List.mem_cons.mp he' with he' | he'
        · rw [he', hfe] at hn'; cases hn'
        · exact h2 e' he' n' hn'
      · rcases h3 with h3 | ⟨e', he', hfe'⟩
        · exact Or.inl h3
        · exact Or.inr ⟨e', List.mem_cons.mpr (Or.inr he'), hfe'⟩
    · rcases ih (max acc n) with ⟨h1, h2, h3⟩
      refine ⟨le_trans (le_max_left _ _) h1, ?_, ?_⟩
      · intro e' he' n' hn'
        rcases List.mem_cons.mp he' with he' | he'
        · rw [he', hfe] at hn'
          injection hn' with hnn
          rw [← hnn]
          exact le_trans (le_max_right acc n) h1
        · exact h2 e' he' n' hn'
      · rcases h3 with h3 | ⟨e', he', hfe'⟩
        · rcases le_total n acc with hle | hle
          · have hm : max acc n = acc := by omega
            exact Or.inl (h3.trans hm)
          · have hm : max acc n = n := by omega
            exact Or.inr ⟨e, List.mem_cons.mpr (Or.inl rfl), by rw [hfe, h3, hm]⟩
        · exact Or.inr ⟨e', List.mem_cons.mpr (Or.inr he'), hfe'⟩

theorem next_id_app_fold_eq (pfx : String) (existing : List String) :
    next_id_app pfx existing =
      pfx ++ pad4 ((existing.foldl (fun a e =>
        match appDigitsOf pfx e with | some n => max a n | none => a) 0) + 1) := by
  simp only [next_id_app]
  congr 3
  apply List.foldl_ext
  intro a e _
  by_cases hh : pyStartsWith e pfx <;> simp [appDigitsOf, hh]

theorem next_id_wx_fold_eq (pfx : String) (existing : List String) :
    next_id_wx pfx existing =
      pfx ++ pad4 ((existing.foldl (fun a e =>
        match wxDigitsOf pfx e with | some n => max a n | none => a) 0) + 1) := by
  simp only [next_id_wx]
  congr 3
  apply List.foldl_ext
  intro a e _
  by_cases hh : pyStartsWith e pfx <;> simp [wxDigitsOf, hh]

/-- C4 amended: each implementation returns the prefix concatenated with
`max+1` zero-padded to 4 digits, where `max` is the greatest contribution
of any existing ID (0 when none contributes) — but the contribution of an
ID is NOT the leading digit run of its suffix: in `app.py` an ID
contributes only when its whole suffix is a nonempty digit run (its
integer value), and in `wx_app.py` it contributes the concatenation of
all digit characters anywhere in its suffix.  Malformed IDs contribute
nothing and never cause a failure, and the claim's concrete instance
still holds for both. -/
theorem next_id_spec (pfx : String) (existing : List String) :
    (∃ M : Nat,
      next_id_app pfx existing = pfx ++ pad4 (M + 1) ∧
      (∀ eid ∈ existing, ∀ n, appDigitsOf pfx eid = some n → n ≤ M) ∧
      (M = 0 ∨ ∃ eid ∈ existing, appDigitsOf pfx eid = some M)) ∧
    (∃ M : Nat,
      next_id_wx pfx existing = pfx ++ pad4 (M + 1) ∧
      (∀ eid ∈ existing, ∀ n, wxDigitsOf pfx eid = some n → n ≤ M) ∧
      (M = 0 ∨ ∃ eid ∈ existing, wxDigitsOf pfx eid = some M)) ∧
    next_id_app "STU-" ["STU-0001", "STU-0003", "STU-xyz"] = "STU-0004" ∧
    next_id_wx "STU-" ["STU-0001", "STU-0003", "STU-xyz"] = "STU-0004" := by
  refine ⟨?_, ?_, by decide, by decide⟩
  · refine ⟨existing.foldl (fun a e =>
      match appDigitsOf pfx e with | some n => max a n | none => a) 0,
      next_id_app_fold_eq pfx existing, ?_, ?_⟩
    · exact (foldl_max_opt (appDigitsOf pfx) existing 0).2.1
    · exact (foldl_max_opt (appDigitsOf pfx) existing 0).2.2
  · refine ⟨existing.foldl (fun a e =>
      match wxDigitsOf pfx e with | some n => max a n | none => a) 0,
      next_id_wx_fold_eq pfx existing, ?_, ?_⟩
    · exact (foldl_max_opt (wxDigitsOf pfx) existing 0).2.1
    · exact (foldl_max_opt (wxDigitsOf pfx) existing 0).2.2

/-- Instantiation of `next_id_spec` at the claim's concrete inputs,
exhibiting the concrete-instance conjuncts. -/
theorem next_id_spec_witness :
    next_id_app "STU-" ["STU-0001", "STU-0003", "STU-xyz"] = "STU-0004" ∧
    next_id_wx "STU-" ["STU-0001", "STU-0003", "STU-xyz"] = "STU-0004" :=
  (next_id_spec "STU-" ["STU-0001", "STU-0003", "STU-xyz"]).2.2

/-! ### C2 — `payment_stats` versus the person count -/

/-- A document whose students sheet holds one row with an EMPTY-STRING
student id (and a nonempty name, so the row is decoded by
`list_students`). -/
def c2Doc : Doc :=
  Doc.mk ⟨[(studentHeaders []).map Cell.str, [Cell.str "", Cell.str "X"]]⟩ ⟨[]⟩
    ⟨[(payHeaders "student_id").map Cell.str]⟩ ⟨[]⟩ ⟨[]⟩

/-- C2 fails on the code: `payment_stats` SKIPS a person whose id string
is empty (`if not pid: continue`), while `list_students` still returns
that row, so `total` can undercount the listed records. -/
theorem payment_stats_miscount_counterexample :
    payment_stats c2Doc "student" 2026 3 = Except.ok (PayStats.mk 0 0 0) ∧
    (list_students c2Doc).length = 1 := by
  decide

theorem paymentStatsLoop_sum (d : Doc) (entity idKey : String) (year month : Int) :
    ∀ (people : List Dict) (paid pending : Nat) (res : Nat × Nat),
      paymentStatsLoop d entity idKey year month people paid pending = Except.ok res →
      res.1 + res.2 = paid + pending +
        people.countP (fun p => pyStr (dictGetS p idKey (Cell.str "")) ≠ "") := by
  intro people
  induction people with
  | nil =>
    intro paid pending res h
    simp only [paymentStatsLoop] at h
    injection h with h
    rw [← h]
    simp
  | cons p rest ih =>
    intro paid pending res h
    simp only [paymentStatsLoop] at h
    by_cases hpid : pyStr (dictGetS p idKey (Cell.str "")) = ""
    · rw [if_pos hpid] at h
      have := ih paid pending res h
      rw [this]
      simp [List.countP_cons, hpid]
    · rw [if_neg hpid] at h
      rcases hst : get_payment_status d entity (pyStr (dictGetS p idKey (Cell.str "")))
          year month with e | st
      · simp only [hst] at h
        exact Except.noConfusion h
      · simp only [hst] at h
        by_cases hp : pyLower st = "paid"
        · rw [if_pos hp] at h
          have := ih (paid + 1) pending res h
          rw [this]
          simp [List.countP_cons, hpid]
          omega
        · rw [if_neg hp] at h
          have := ih paid (pending + 1) res h
          rw [this]
          simp [List.countP_cons, hpid]
          omega

/-- C2 amended: whenever `payment_stats` returns, its `total` equals
`paid + pending`, and that total equals the number of listed records of
the entity kind whose string-converted id is NONEMPTY (rows with an empty
id string are skipped by the stats loop, though `list_students` /
`list_teachers` still return them). -/
theorem payment_stats_total_spec (d : Doc) (entity : String) (year month : Int)
    (st : PayStats) (h : payment_stats d entity year month = Except.ok st) :
    st.total = st.paid + st.pending ∧
    st.total = ((if entity = "student" then list_students d else list_teachers d).countP
      (fun p => pyStr (dictGetS p
        (if entity = "student" then "student_id" else "teacher_id") (Cell.str "")) ≠ "")) := by
  simp only [payment_stats] at h
  rcases hloop : paymentStatsLoop d entity
      (if entity = "student" then "student_id" else "teacher_id") year month
      (if entity = "student" then list_students d else list_teachers d) 0 0 with e | res
  · rw [hloop] at h; cases h
  · rw [hloop] at h
    injection h with h
    have hs := paymentStatsLoop_sum d entity
      (if entity = "student" then "student_id" else "teacher_id") year month
      (if entity = "student" then list_students d else list_teachers d) 0 0 res hloop
    rw [← h]
    refine ⟨rfl, ?_⟩
    simpa using hs

/-! ### C9 — `set_payment` upsert on the composite key -/

/-- A payments sheet with a blank row BETWEEN the header and a stored
record: `set_payment`'s `enumerate(rows, start=2)` over the
blank-skipping decoded list then points at the wrong sheet row. -/
def c9Doc : Doc :=
  Doc.mk ⟨[]⟩ ⟨[]⟩
    ⟨[(payHeaders "student_id").map Cell.str, [],
      [Cell.str "S1", Cell.int 2025, Cell.int 1, Cell.str "Pending", Cell.num 100,
       Cell.str "t0"]]⟩ ⟨[]⟩ ⟨[]⟩

/-- C9 fails on the code: with a blank row above the stored record,
`set_payment(..., "Paid", 500)` writes status/amount/updated_at into the
BLANK row and leaves the matching record's row completely unchanged
(its status still reads back "Pending"), instead of updating the found
record in place. -/
theorem set_payment_blankrow_counterexample :
    (set_payment "t1" "student" "S1" 2025 1 "Paid" 500 c9Doc).map
        (fun d => get_payment_status d "student" "S1" 2025 1) =
      Except.ok (Except.ok "Pending") ∧
    (set_payment "t1" "student" "S1" 2025 1 "Paid" 500 c9Doc).map
        (fun d => d.student_payments.rows.getD 2 []) =
      Except.ok [Cell.str "S1", Cell.int 2025, Cell.int 1, Cell.str "Pending",
        Cell.num 100, Cell.str "t0"] ∧
    (set_payment "t1" "student" "S1" 2025 1 "Paid" 500 c9Doc).map
        (fun d => d.student_payments.rows.getD 1 []) =
      Except.ok [Cell.blank, Cell.blank, Cell.blank, Cell.str "Paid", Cell.num 500,
        Cell.str "t1"] := by
  decide

/-- A decoded payment row matching the composite key, exactly as the
`set_payment` / `get_payment_record` scans test it. -/
def dictMatchesKey (idCol pid : String) (year month : Int) (r : Dict) : Prop :=
  pyStr (dictGetS r idCol (Cell.str "")) = pid ∧
  pyInt (dictGetS r "year" (Cell.int 0)) = some year ∧
  pyInt (dictGetS r "month" (Cell.int 0)) = some month

instance (idCol pid : String) (year month : Int) (r : Dict) :
    Decidable (dictMatchesKey idCol pid year month r) := by
  unfold dictMatchesKey
  infer_instance

theorem findPaymentIdx_head (idCol pid : String) (Y M : Int) (r : Dict) :
    (dictMatchesKey idCol pid Y M r ∧ ∀ (rest : List Dict) (k : Nat),
      findPaymentIdx idCol pid Y M k (r :: rest) = Except.ok (some k)) ∨
    (¬ dictMatchesKey idCol pid Y M r ∧ ∀ (rest : List Dict) (k : Nat),
      findPaymentIdx idCol pid Y M k (r :: rest) = findPaymentIdx idCol pid Y M (k + 1) rest) ∨
    (∀ (rest : List Dict) (k : Nat),
      findPaymentIdx idCol pid Y M k (r :: rest) = Except.error ()) := by
  by_cases h1 : pyStr (dictGetS r idCol (Cell.str "")) = pid
  · rcases hy : pyInt (dictGetS r "year" (Cell.int 0)) with _ | y
    · right; right; intro rest k; simp [findPaymentIdx, h1, hy]
    · by_cases h2 : y = Y
      · rcases hm : pyInt (dictGetS r "month" (Cell.int 0)) with _ | m
        · right; right; intro rest k; simp [findPaymentIdx, h1, hy, h2, hm]
        · by_cases h3 : m = M
          · refine Or.inl ⟨⟨h1, by rw [hy, h2], by rw [hm, h3]⟩, ?_⟩
            intro rest k
            simp [findPaymentIdx, h1, hy, h2, hm, h3]
          · refine Or.inr (Or.inl ⟨?_, ?_⟩)
            · rintro ⟨-, -, hmm⟩
              rw [hm] at hmm
              injection hmm with hmm
              exact h3 hmm
            · intro rest k
              simp [findPaymentIdx, h1, hy, h2, hm, h3]
      · refine Or.inr (Or.inl ⟨?_, ?_⟩)
        · rintro ⟨-, hyy, -⟩
          rw [hy] at hyy
          injection hyy with hyy
          exact h2 hyy
        · intro rest k
          simp [findPaymentIdx, h1, hy, h2]
  · refine Or.inr (Or.inl ⟨fun hm => h1 hm.1, ?_⟩)
    intro rest k
    simp [findPaymentIdx, h1]

theorem findPaymentIdx_ok_some (idCol pid : String) (Y M : Int) :
    ∀ (l : List Dict) (k t : Nat),
      findPaymentIdx idCol pid Y M k l = Except.ok (some t) →
      k ≤ t ∧ t - k < l.length ∧ dictMatchesKey idCol pid Y M (l.getD (t - k) []) ∧
      ∀ j < t - k, ¬ dictMatchesKey idCol pid Y M (l.getD j []) := by
  intro l
  induction l with
  | nil =>
    intro k t h
    simp [findPaymentIdx] at h
  | cons r rest ih =>
    intro k t h
    rcases findPaymentIdx_head idCol pid Y M r with ⟨hm, he⟩ | ⟨hm, he⟩ | he
    · rw [he rest k] at h
      injection h with h
      injection h with h
      subst h
      refine ⟨le_refl _, by simp, by simpa using hm, by omega⟩
    · rw [he rest k] at h
      rcases ih (k + 1) t h with ⟨h1, h2, h3, h4⟩
      have hkt : k ≤ t := by omega
      have hsub : t - k = (t - (k + 1)) + 1 := by omega
      refine ⟨hkt, by simp; omega, ?_, ?_⟩
      · rw [hsub]
        simpa using h3
      · intro j hj
        rcases Nat.eq_zero_or_pos j with hj0 | hj0
        · subst hj0
          simpa using hm
        · have := h4 (j - 1) (by omega)
          have hgd : (r :: rest).getD j [] = rest.getD (j - 1) [] := by
            rcases j with _ | j'
            · omega
            · simp
          rw [hgd]
          exact this
    · rw [he rest k] at h
      exact Except.noConfusion h

theorem findPaymentIdx_ok_none (idCol pid : String) (Y M : Int) :
    ∀ (l : List Dict) (k : Nat),
      findPaymentIdx idCol pid Y M k l = Except.ok none →
      ∀ r ∈ l, ¬ dictMatchesKey idCol pid Y M r := by
  intro l
  induction l with
  | nil => intro k _ r hr; cases hr
  | cons r' rest ih =>
    intro k h r hr
    rcases findPaymentIdx_head idCol pid Y M r' with ⟨hm, he⟩ | ⟨hm, he⟩ | he
    · rw [he rest k] at h
      injection h with h
      exact Option.noConfusion h
    · rw [he rest k] at h
      rcases List.mem_cons.mp hr with hr | hr
      · rw [hr]; exact hm
      · exact ih (k + 1) h r hr
    · rw [he rest k] at h
      exact Except.noConfusion h

theorem findPaymentIdx_append_match (idCol pid : String) (Y M : Int) :
    ∀ (l : List Dict) (k : Nat) (r : Dict),
      findPaymentIdx idCol pid Y M k l = Except.ok none →
      dictMatchesKey idCol pid Y M r →
      findPaymentIdx idCol pid Y M k (l ++ [r]) = Except.ok (some (k + l.length)) := by
  intro l
  induction l with
  | nil =>
    intro k r _ hm
    obtain ⟨h1, h2, h3⟩ := hm
    simp [findPaymentIdx, h1, h2, h3]
  | cons r' rest ih =>
    intro k r h hm
    rcases findPaymentIdx_head idCol pid Y M r' with ⟨hm', he⟩ | ⟨hm', he⟩ | he
    · rw [he rest k] at h
      injection h with h
      exact Option.noConfusion h
    · rw [he rest k] at h
      rw [List.cons_append, he (rest ++ [r]) k, ih (k + 1) r h hm]
      congr 2
      simp
      omega
    · rw [he rest k] at h
      exact Except.noConfusion h

theorem filterMap_eq_map_on {α β : Type} (f : α → Option β) (g : α → β) :
    ∀ L : List α, (∀ x ∈ L, f x = some (g x)) → L.filterMap f = L.map g := by
  intro L
  induction L with
  | nil => intro _; rfl
  | cons x xs ih =>
    intro h
    rw [List.filterMap_cons, List.map_cons, h x (List.mem_cons_self x xs),
      ih (fun y hy => h y (List.mem_cons_of_mem x hy))]

theorem Sheet.row1Cells_length (ws : Sheet) : ws.row1Cells.length = ws.maxCol := by
  simp [Sheet.row1Cells, Sheet.rowCells]

theorem Sheet.rowCells_length (ws : Sheet) (r : Nat) :
    (ws.rowCells r).length = ws.maxCol := by
  simp [Sheet.rowCells]

/-- With no blank data row, `_sheet_to_dicts` decodes every data row in
order: the decoded list is aligned with sheet rows 2..max_row. -/
theorem sheet_to_dicts_eq_map (ws : Sheet)
    (hnb : ∀ r ∈ List.range' 2 (ws.maxRow - 1),
      ¬ (ws.rowCells r).all (fun c => c = Cell.blank)) :
    sheet_to_dicts ws =
      (List.range' 2 (ws.maxRow - 1)).map (fun r => ws.row1Cells.zip (ws.rowCells r)) := by
  unfold sheet_to_dicts
  apply filterMap_eq_map_on
  intro r hr
  simp only
  rw [if_neg ?_]
  intro hall
  exact hnb r hr (by simpa using hall)

theorem payHeaders_map_str (idCol : String) :
    (payHeaders idCol).map Cell.str =
      [Cell.str idCol, Cell.str "year", Cell.str "month", Cell.str "status",
       Cell.str "amount", Cell.str "updated_at"] := rfl

theorem payDict_get_year (idCol : String) (a b c e f g dflt : Cell) :
    dictGetS (((payHeaders idCol).map Cell.str).zip [a, b, c, e, f, g]) "year" dflt = b := by
  simp [dictGetS, dictGet, pyEq, payHeaders]

theorem payDict_get_month (idCol : String) (a b c e f g dflt : Cell) :
    dictGetS (((payHeaders idCol).map Cell.str).zip [a, b, c, e, f, g]) "month" dflt = c := by
  simp [dictGetS, dictGet, pyEq, payHeaders]

theorem payDict_get_status (idCol : String) (a b c e f g dflt : Cell) :
    dictGetS (((payHeaders idCol).map Cell.str).zip [a, b, c, e, f, g]) "status" dflt = e := by
  simp [dictGetS, dictGet, pyEq, payHeaders]

theorem payDict_get_amount (idCol : String) (a b c e f g dflt : Cell) :
    dictGetS (((payHeaders idCol).map Cell.str).zip [a, b, c, e, f, g]) "amount" dflt = f := by
  simp [dictGetS, dictGet, pyEq, payHeaders]

theorem payDict_get_id (idCol : String) (a b c e f g dflt : Cell)
    (h1 : idCol ≠ "year") (h2 : idCol ≠ "month") (h3 : idCol ≠ "status")
    (h4 : idCol ≠ "amount") (h5 : idCol ≠ "updated_at") :
    dictGetS (((payHeaders idCol).map Cell.str).zip [a, b, c, e, f, g]) idCol dflt = a := by
  simp [dictGetS, dictGet, pyEq, payHeaders, Ne.symm h1, Ne.symm h2, Ne.symm h3,
    Ne.symm h4, Ne.symm h5]

theorem padRows_eq_self (l : List (List Cell)) (n : Nat) (h : n ≤ l.length) :
    padRows l n = l := by
  simp [padRows, Nat.sub_eq_zero_of_le h]

/-- The row-length supremum underlying `maxCol`. -/
theorem rowLenSup_le (B : Nat) :
    ∀ l : List (List Cell), (∀ row ∈ l, row.length ≤ B) →
      l.foldr (fun row acc => max row.length acc) 0 ≤ B := by
  intro l
  induction l with
  | nil => intro _; simp
  | cons row rest ih =>
    intro h
    simp only [List.foldr_cons]
    have h1 := h row (List.mem_cons_self row rest)
    have h2 := ih (fun r hr => h r (List.mem_cons_of_mem row hr))
    omega

theorem le_rowLenSup :
    ∀ (l : List (List Cell)) (row : List Cell), row ∈ l →
      row.length ≤ l.foldr (fun row acc => max row.length acc) 0 := by
  intro l
  induction l with
  | nil => intro row hr; cases hr
  | cons r rest ih =>
    intro row hr
    simp only [List.foldr_cons]
    rcases List.mem_cons.mp hr with hr | hr
    · rw [hr]; omega
    · have := ih row hr; omega

theorem Sheet.maxCol_le (ws : Sheet) (B : Nat) (h1 : 1 ≤ B)
    (h : ∀ row ∈ ws.rows, row.length ≤ B) : ws.maxCol ≤ B := by
  have := rowLenSup_le B ws.rows h
  simp only [Sheet.maxCol]
  omega

theorem Sheet.le_maxCol (ws : Sheet) (row : List Cell) (h : row ∈ ws.rows) :
    row.length ≤ ws.maxCol := by
  have := le_rowLenSup ws.rows row h
  simp only [Sheet.maxCol]
  omega

theorem Sheet.row_length_le_maxCol_getD (ws : Sheet) (i : Nat) :
    (ws.rows.getD i []).length ≤ ws.maxCol := by
  rcases lt_or_ge i ws.rows.length with h | h
  · apply ws.le_maxCol
    rw [List.getD_eq_getElem?_getD, List.getElem?_eq_getElem h, Option.getD_some]
    exact List.getElem_mem _
  · rw [List.getD_eq_default _ _ h]
    simp [Sheet.maxCol]

theorem Sheet.maxCol_setCell_eq (ws : Sheet) (r c : Nat) (v : Cell)
    (hr : 1 ≤ r) (hrlen : r ≤ ws.rows.length) (hc : 1 ≤ c) (hcle : c ≤ ws.maxCol) :
    (ws.setCell r c v).maxCol = ws.maxCol := by
  have hpad : padRows ws.rows r = ws.rows := padRows_eq_self _ _ hrlen
  have hone : 1 ≤ ws.maxCol := by simp [Sheet.maxCol]
  apply le_antisymm
  · apply Sheet.maxCol_le _ _ hone
    intro row hrow
    simp only [Sheet.setCell, hpad] at hrow
    rcases List.mem_or_eq_of_mem_set hrow with hrow | hrow
    · exact ws.le_maxCol row hrow
    · rw [hrow, List.length_set, padRow_length]
      have := ws.row_length_le_maxCol_getD (r - 1)
      omega
  · apply Sheet.maxCol_le ws ((ws.setCell r c v).maxCol) (by simp [Sheet.maxCol])
    intro row hrow
    have hset : (ws.setCell r c v).rows = ws.rows.set (r - 1)
        ((padRow (ws.rows.getD (r - 1) []) c).set (c - 1) v) := by
      simp [Sheet.setCell, hpad]
    -- every original row is bounded by the new maxCol: rows other than
    -- r - 1 are unchanged, and row r - 1 only grew
    have hlen : ∀ j, j < ws.rows.length →
        (ws.rows.getD j []).length ≤ ((ws.setCell r c v).rows.getD j []).length := by
      intro j hj
      rw [hset]
      rcases eq_or_ne j (r - 1) with hje | hje
      · subst hje
        rw [List_getD_set_self _ _ _ _ (by omega), List.length_set, padRow_length]
        omega
      · rw [List_getD_set_ne _ _ _ _ _ (Ne.symm hje)]
    rcases List.mem_iff_getElem.mp hrow with ⟨j, hj, hje⟩
    have hrowD : row = ws.rows.getD j [] := by
      rw [List.getD_eq_getElem?_getD, List.getElem?_eq_getElem hj, Option.getD_some, hje]
    calc row.length = (ws.rows.getD j []).length := by rw [hrowD]
      _ ≤ ((ws.setCell r c v).rows.getD j []).length := hlen j hj
      _ ≤ (ws.setCell r c v).maxCol := (ws.setCell r c v).row_length_le_maxCol_getD j

theorem Sheet.rows_length_setCell (ws : Sheet) (r c : Nat) (v : Cell)
    (hrlen : r ≤ ws.rows.length) :
    (ws.setCell r c v).rows.length = ws.rows.length := by
  simp [Sheet.setCell, padRows_eq_self _ _ hrlen, List.length_set]

theorem Sheet.maxCol_appendRow (ws : Sheet) (v : List Cell)
    (hv : v.length ≤ ws.maxCol) : (ws.appendRow v).maxCol = ws.maxCol := by
  have hone : 1 ≤ ws.maxCol := by simp [Sheet.maxCol]
  apply le_antisymm
  · apply Sheet.maxCol_le _ _ hone
    intro row hrow
    simp only [Sheet.appendRow] at hrow
    rcases List.mem_append.mp hrow with hrow | hrow
    · exact ws.le_maxCol row hrow
    · rw [List.mem_singleton.mp hrow]; exact hv
  · apply Sheet.maxCol_le ws ((ws.appendRow v).maxCol) (by simp [Sheet.maxCol])
    intro row hrow
    apply (ws.appendRow v).le_maxCol
    simp [Sheet.appendRow, hrow]

theorem Sheet.getCell_appendRow_old (ws : Sheet) (v : List Cell) (r c : Nat)
    (hr : 1 ≤ r) (hrlen : r ≤ ws.rows.length) :
    (ws.appendRow v).getCell r c = ws.getCell r c := by
  simp only [Sheet.appendRow, Sheet.getCell]
  rw [List.getD_append _ _ _ _ (by omega)]

theorem Sheet.getCell_appendRow_new (ws : Sheet) (v : List Cell) (c : Nat) :
    (ws.appendRow v).getCell (ws.rows.length + 1) c = v.getD (c - 1) Cell.blank := by
  simp only [Sheet.appendRow, Sheet.getCell]
  rw [List.getD_append_right _ _ _ _ (by omega)]
  simp

theorem map_getD_range_eq_self (v : List Cell) (n : Nat) (h : v.length = n) :
    (List.range n).map (fun i => v.getD i Cell.blank) = v := by
  apply List.ext_getElem
  · simp [h]
  · intro i h1 h2
    simp only [List.getElem_map, List.getElem_range]
    rw [List.getD_eq_getElem?_getD, List.getElem?_eq_getElem h2, Option.getD_some]

theorem Sheet.rowCells_appendRow_old (ws : Sheet) (v : List Cell) (r : Nat)
    (hr : 1 ≤ r) (hrlen : r ≤ ws.rows.length) (hv : v.length ≤ ws.maxCol) :
    (ws.appendRow v).rowCells r = ws.rowCells r := by
  simp only [Sheet.rowCells, Sheet.maxCol_appendRow ws v hv]
  apply List.map_congr_left
  intro i _
  exact ws.getCell_appendRow_old v r (i + 1) hr hrlen

theorem Sheet.rowCells_appendRow_new (ws : Sheet) (v : List Cell)
    (hv : v.length = ws.maxCol) :
    (ws.appendRow v).rowCells (ws.rows.length + 1) = v := by
  simp only [Sheet.rowCells, Sheet.maxCol_appendRow ws v (le_of_eq hv)]
  have : ∀ i, (ws.appendRow v).getCell (ws.rows.length + 1) (i + 1) = v.getD i Cell.blank := by
    intro i
    rw [ws.getCell_appendRow_new v (i + 1)]
    simp
  simp only [this]
  exact map_getD_range_eq_self v ws.maxCol hv

theorem Sheet.row1Cells_appendRow (ws : Sheet) (v : List Cell)
    (hrows : 1 ≤ ws.rows.length) (hv : v.length ≤ ws.maxCol) :
    (ws.appendRow v).row1Cells = ws.row1Cells := by
  unfold Sheet.row1Cells
  exact Sheet.rowCells_appendRow_old ws v 1 (le_refl 1) hrows hv

theorem Sheet.rows_ne_nil_of_cell (ws : Sheet) (c : Nat)
    (h : ws.getCell 1 c ≠ Cell.blank) : 1 ≤ ws.rows.length := by
  by_contra hlen
  apply h
  have : ws.rows = [] := by
    cases hr : ws.rows with
    | nil => rfl
    | cons a l => rw [hr] at hlen; simp at hlen
  simp [Sheet.getCell, this]

theorem Sheet.maxRow_appendRow (ws : Sheet) (v : List Cell) (h : 1 ≤ ws.rows.length) :
    (ws.appendRow v).maxRow = ws.maxRow + 1 := by
  simp only [Sheet.maxRow, Sheet.appendRow, List.length_append, List.length_singleton]
  omega

theorem sheet_to_dicts_appendRow (ws : Sheet) (v : List Cell)
    (hvlen : v.length = ws.maxCol)
    (hvnb : ¬ v.all (fun c => c = Cell.blank))
    (hrows : 1 ≤ ws.rows.length) :
    sheet_to_dicts (ws.appendRow v) = sheet_to_dicts ws ++ [ws.row1Cells.zip v] := by
  have hmr : ws.maxRow = ws.rows.length := by simp [Sheet.maxRow]; omega
  have hrange : List.range' 2 ((ws.appendRow v).maxRow - 1) =
      List.range' 2 (ws.maxRow - 1) ++ [ws.rows.length + 1] := by
    rw [Sheet.maxRow_appendRow ws v hrows]
    have h1 : ws.maxRow + 1 - 1 = (ws.maxRow - 1) + 1 := by omega
    rw [h1, List.range'_1_concat]
    congr 1
    · congr 1
      omega
  unfold sheet_to_dicts
  rw [hrange, List.filterMap_append]
  congr 1
  · apply List.filterMap_congr
    intro r hr
    have hrmem := List.mem_range'_1.mp hr
    have hr2 : 1 ≤ r := by omega
    have hrle : r ≤ ws.rows.length := by omega
    simp only [Sheet.rowCells_appendRow_old ws v r hr2 hrle (le_of_eq hvlen)]
    have hrow1 : (ws.appendRow v).row1Cells = ws.row1Cells :=
      Sheet.rowCells_appendRow_old ws v 1 (le_refl 1) hrows (le_of_eq hvlen)
    rw [hrow1]
  · have hnew : (ws.appendRow v).rowCells (ws.rows.length + 1) = v :=
      Sheet.rowCells_appendRow_new ws v hvlen
    have hrow1 : (ws.appendRow v).row1Cells = ws.row1Cells :=
      Sheet.rowCells_appendRow_old ws v 1 (le_refl 1) hrows (le_of_eq hvlen)
    simp only [List.filterMap_cons, List.filterMap_nil, hnew, hrow1]
    rw [if_neg hvnb]

/-- The effect of the `set_payment` in-place update (write status, amount,
updated_at at columns 4, 5, 6 of row `tr`) on the sheet grid. -/
theorem tripleSet_facts (ws : Sheet) (tr : Nat) (status now : String) (amount : ℚ)
    (h2 : 2 ≤ tr) (hlen : tr ≤ ws.rows.length) (hmc : ws.maxCol = 6) :
    (((ws.setCell tr 4 (Cell.str status)).setCell tr 5 (Cell.num amount)).setCell tr 6
        (Cell.str now)).rows.length = ws.rows.length ∧
    (((ws.setCell tr 4 (Cell.str status)).setCell tr 5 (Cell.num amount)).setCell tr 6
        (Cell.str now)).maxCol = 6 ∧
    (∀ r c, 1 ≤ r → r ≠ tr →
      (((ws.setCell tr 4 (Cell.str status)).setCell tr 5 (Cell.num amount)).setCell tr 6
        (Cell.str now)).getCell r c = ws.getCell r c) ∧
    (((ws.setCell tr 4 (Cell.str status)).setCell tr 5 (Cell.num amount)).setCell tr 6
        (Cell.str now)).rowCells tr =
      [ws.getCell tr 1, ws.getCell tr 2, ws.getCell tr 3, Cell.str status,
       Cell.num amount, Cell.str now] ∧
    (∀ r, 1 ≤ r → r ≠ tr →
      (((ws.setCell tr 4 (Cell.str status)).setCell tr 5 (Cell.num amount)).setCell tr 6
        (Cell.str now)).rowCells r = ws.rowCells r) := by
  have h1tr : 1 ≤ tr := by omega
  have hmc1 : (ws.setCell tr 4 (Cell.str status)).maxCol = 6 := by
    rw [Sheet.maxCol_setCell_eq ws tr 4 _ h1tr hlen (by omega) (by omega)]
    exact hmc
  have hlen1 : (ws.setCell tr 4 (Cell.str status)).rows.length = ws.rows.length :=
    Sheet.rows_length_setCell ws tr 4 _ hlen
  have hmc2 : ((ws.setCell tr 4 (Cell.str status)).setCell tr 5 (Cell.num amount)).maxCol = 6 := by
    rw [Sheet.maxCol_setCell_eq _ tr 5 _ h1tr (by omega) (by omega) (by omega)]
    exact hmc1
  have hlen2 : ((ws.setCell tr 4 (Cell.str status)).setCell tr 5
      (Cell.num amount)).rows.length = ws.rows.length := by
    rw [Sheet.rows_length_setCell _ tr 5 _ (by omega)]
    exact hlen1
  have hmc3 : (((ws.setCell tr 4 (Cell.str status)).setCell tr 5 (Cell.num amount)).setCell
      tr 6 (Cell.str now)).maxCol = 6 := by
    rw [Sheet.maxCol_setCell_eq _ tr 6 _ h1tr (by omega) (by omega) (by omega)]
    exact hmc2
  have hlen3 : (((ws.setCell tr 4 (Cell.str status)).setCell tr 5 (Cell.num amount)).setCell
      tr 6 (Cell.str now)).rows.length = ws.rows.length := by
    rw [Sheet.rows_length_setCell _ tr 6 _ (by omega)]
    exact hlen2
  have hother : ∀ r c, 1 ≤ r → r ≠ tr →
      (((ws.setCell tr 4 (Cell.str status)).setCell tr 5 (Cell.num amount)).setCell tr 6
        (Cell.str now)).getCell r c = ws.getCell r c := by
    intro r c hr hne
    rw [Sheet.getCell_setCell_other_row _ tr 6 r c _ h1tr hr hne,
      Sheet.getCell_setCell_other_row _ tr 5 r c _ h1tr hr hne,
      Sheet.getCell_setCell_other_row _ tr 4 r c _ h1tr hr hne]
  have hg1 : ∀ c, 1 ≤ c → c ≤ 3 →
      (((ws.setCell tr 4 (Cell.str status)).setCell tr 5 (Cell.num amount)).setCell tr 6
        (Cell.str now)).getCell tr c = ws.getCell tr c := by
    intro c hc1 hc3
    rw [Sheet.getCell_setCell_other_col _ tr 6 c _ h1tr (by omega) hc1 (by omega),
      Sheet.getCell_setCell_other_col _ tr 5 c _ h1tr (by omega) hc1 (by omega),
      Sheet.getCell_setCell_other_col _ tr 4 c _ h1tr (by omega) hc1 (by omega)]
  have hg4 : (((ws.setCell tr 4 (Cell.str status)).setCell tr 5 (Cell.num amount)).setCell tr 6
      (Cell.str now)).getCell tr 4 = Cell.str status := by
    rw [Sheet.getCell_setCell_other_col _ tr 6 4 _ h1tr (by omega) (by omega) (by omega),
      Sheet.getCell_setCell_other_col _ tr 5 4 _ h1tr (by omega) (by omega) (by omega),
      Sheet.getCell_setCell_same _ tr 4 _ h1tr (by omega)]
  have hg5 : (((ws.setCell tr 4 (Cell.str status)).setCell tr 5 (Cell.num amount)).setCell tr 6
      (Cell.str now)).getCell tr 5 = Cell.num amount := by
    rw [Sheet.getCell_setCell_other_col _ tr 6 5 _ h1tr (by omega) (by omega) (by omega),
      Sheet.getCell_setCell_same _ tr 5 _ h1tr (by omega)]
  have hg6 : (((ws.setCell tr 4 (Cell.str status)).setCell tr 5 (Cell.num amount)).setCell tr 6
      (Cell.str now)).getCell tr 6 = Cell.str now :=
    Sheet.getCell_setCell_same _ tr 6 _ h1tr (by omega)
  refine ⟨hlen3, hmc3, hother, ?_, ?_⟩
  · have hr6 : List.range 6 = [0, 1, 2, 3, 4, 5] := rfl
    simp only [Sheet.rowCells, hmc3, hr6, List.map_cons, List.map_nil]
    rw [hg4, hg5, hg6, hg1 1 (by omega) (by omega), hg1 2 (by omega) (by omega),
      hg1 3 (by omega) (by omega)]
  · intro r hr hne
    simp only [Sheet.rowCells, hmc3, hmc]
    apply List.map_congr_left
    intro i _
    exact hother r (i + 1) hr hne

/-- Decoded rows of the updated payments sheet: entry `tr - 2` has its
status/amount/updated_at replaced, all else unchanged. -/
theorem sheet_to_dicts_tripleSet (ws : Sheet) (tr : Nat) (status now : String) (amount : ℚ)
    (h2 : 2 ≤ tr) (hlen : tr ≤ ws.rows.length) (hmc : ws.maxCol = 6)
    (hnb : ∀ r ∈ List.range' 2 (ws.maxRow - 1),
      ¬ (ws.rowCells r).all (fun c => c = Cell.blank)) :
    sheet_to_dicts (((ws.setCell tr 4 (Cell.str status)).setCell tr 5
        (Cell.num amount)).setCell tr 6 (Cell.str now)) =
      (sheet_to_dicts ws).set (tr - 2)
        (ws.row1Cells.zip [ws.getCell tr 1, ws.getCell tr 2, ws.getCell tr 3,
          Cell.str status, Cell.num amount, Cell.str now]) ∧
    (((ws.setCell tr 4 (Cell.str status)).setCell tr 5 (Cell.num amount)).setCell tr 6
        (Cell.str now)).row1Cells = ws.row1Cells ∧
    (((ws.setCell tr 4 (Cell.str status)).setCell tr 5 (Cell.num amount)).setCell tr 6
        (Cell.str now)).maxRow = ws.maxRow ∧
    (∀ r ∈ List.range' 2 ((((ws.setCell tr 4 (Cell.str status)).setCell tr 5
        (Cell.num amount)).setCell tr 6 (Cell.str now)).maxRow - 1),
      ¬ ((((ws.setCell tr 4 (Cell.str status)).setCell tr 5 (Cell.num amount)).setCell tr 6
        (Cell.str now)).rowCells r).all (fun c => c = Cell.blank)) := by
  obtain ⟨hlen3, hmc3, hother, hrcTr, hrcOther⟩ :=
    tripleSet_facts ws tr status now amount h2 hlen hmc
  have hmr : (((ws.setCell tr 4 (Cell.str status)).setCell tr 5 (Cell.num amount)).setCell
      tr 6 (Cell.str now)).maxRow = ws.maxRow := by
    simp [Sheet.maxRow, hlen3]
  have hrow1 : (((ws.setCell tr 4 (Cell.str status)).setCell tr 5 (Cell.num amount)).setCell
      tr 6 (Cell.str now)).row1Cells = ws.row1Cells :=
    hrcOther 1 (le_refl 1) (by omega)
  have hnb' : ∀ r ∈ List.range' 2 ((((ws.setCell tr 4 (Cell.str status)).setCell tr 5
      (Cell.num amount)).setCell tr 6 (Cell.str now)).maxRow - 1),
      ¬ ((((ws.setCell tr 4 (Cell.str status)).setCell tr 5 (Cell.num amount)).setCell tr 6
        (Cell.str now)).rowCells r).all (fun c => c = Cell.blank) := by
    intro r hr
    rw [hmr] at hr
    rcases eq_or_ne r tr with hre | hre
    · subst hre
      rw [hrcTr]
      simp
    · rw [hrcOther r (by have := List.mem_range'_1.mp hr; omega) hre]
      exact hnb r hr
  refine ⟨?_, hrow1, hmr, hnb'⟩
  rw [sheet_to_dicts_eq_map _ hnb', sheet_to_dicts_eq_map _ hnb, hmr]
  apply List.ext_getElem
  · simp
  · intro j hj1 hj2
    simp only [List.getElem_map, List.getElem_range'] at *
    have hjlen : j < ws.maxRow - 1 := by
      simp at hj1
      omega
    have hrval : (2 + 1 * j) = 2 + j := by omega
    rcases eq_or_ne (2 + j) tr with hje | hje
    · have hjtr : j = tr - 2 := by omega
      subst hjtr
      rw [List.getElem_set_self (by simp; omega)]
      have h2j : 2 + 1 * (tr - 2) = tr := by omega
      rw [hrow1, h2j, hrcTr]
    · rw [List.getElem_set_ne (by omega)]
      simp only [List.getElem_map, List.getElem_range']
      rw [hrow1, hrval, hrcOther (2 + j) (by omega) hje]

theorem setPaymentRow_payHeaders (ws : Sheet) (tr : Nat) (idCol now status : String)
    (amount : ℚ) (h3 : idCol ≠ "status") (h4 : idCol ≠ "amount")
    (h5 : idCol ≠ "updated_at") :
    setPaymentRow ws tr ((payHeaders idCol).map Cell.str) now status amount =
      ((ws.setCell tr 4 (Cell.str status)).setCell tr 5 (Cell.num amount)).setCell tr 6
        (Cell.str now) := by
  simp [setPaymentRow, payHeaders, pyEq, h3, h4, h5, List.enumFrom]

theorem payInsertRow_eq (idCol pid now status : String) (Y M : Int) (amount : ℚ)
    (h1 : idCol ≠ "year") (h2 : idCol ≠ "month") (h3 : idCol ≠ "status")
    (h4 : idCol ≠ "amount") (h5 : idCol ≠ "updated_at") :
    ((payHeaders idCol).map Cell.str).map (fun h => dataGetCell
      [(idCol, Cell.str pid), ("year", Cell.int Y), ("month", Cell.int M),
       ("status", Cell.str status), ("amount", Cell.num amount),
       ("updated_at", Cell.str now)] h (Cell.str "")) =
      [Cell.str pid, Cell.int Y, Cell.int M, Cell.str status, Cell.num amount,
       Cell.str now] := by
  simp [payHeaders, dataGetCell, dataGet, h1, h2, h3, h4, h5]

theorem idColFor_ne (entity : String) :
    idColFor entity ≠ "year" ∧ idColFor entity ≠ "month" ∧ idColFor entity ≠ "status" ∧
    idColFor entity ≠ "amount" ∧ idColFor entity ≠ "updated_at" := by
  unfold idColFor
  split <;> simp

theorem maxCol_of_payHeaders (ws : Sheet) (idCol : String)
    (hhdr : ws.row1Cells = (payHeaders idCol).map Cell.str) : ws.maxCol = 6 := by
  have := ws.row1Cells_length
  rw [hhdr] at this
  simpa using this.symm

theorem rows_pos_of_payHeaders (ws : Sheet) (idCol : String)
    (hhdr : ws.row1Cells = (payHeaders idCol).map Cell.str) : 1 ≤ ws.rows.length := by
  have hmc : ws.maxCol = 6 := maxCol_of_payHeaders ws idCol hhdr
  have hr6 : List.range 6 = [0, 1, 2, 3, 4, 5] := rfl
  have h0 : ws.getCell 1 1 = Cell.str idCol := by
    have := hhdr
    simp only [Sheet.row1Cells, Sheet.rowCells, hmc, hr6, List.map_cons, List.map_nil,
      payHeaders_map_str] at this
    exact (List.cons_eq_cons.mp this).1
  exact ws.rows_ne_nil_of_cell 1 (by rw [h0]; simp)

/-- Branch characterization of `set_payment` on a schema-correct payments
sheet: the miss branch appends the explicit new row; the hit branch
rewrites columns 4-6 of the aligned sheet row. -/
theorem set_payment_core (now entity pid : String) (Y M : Int) (status : String)
    (amount : ℚ) (d : Doc)
    (hhdr : (paymentsSheet d entity).row1Cells = (payHeaders (idColFor entity)).map Cell.str)
    (hnb : ∀ r ∈ List.range' 2 ((paymentsSheet d entity).maxRow - 1),
      ¬ ((paymentsSheet d entity).rowCells r).all (fun c => c = Cell.blank)) :
    (findPaymentIdx (idColFor entity) pid Y M 2 (sheet_to_dicts (paymentsSheet d entity)) =
        Except.ok none →
      set_payment now entity pid Y M status amount d =
        Except.ok (setPaymentsSheet d entity ((paymentsSheet d entity).appendRow
          [Cell.str pid, Cell.int Y, Cell.int M, Cell.str status, Cell.num amount,
           Cell.str now]))) ∧
    (∀ tr, findPaymentIdx (idColFor entity) pid Y M 2
        (sheet_to_dicts (paymentsSheet d entity)) = Except.ok (some tr) →
      2 ≤ tr ∧ tr ≤ (paymentsSheet d entity).rows.length ∧
      set_payment now entity pid Y M status amount d =
        Except.ok (setPaymentsSheet d entity
          ((((paymentsSheet d entity).setCell tr 4 (Cell.str status)).setCell tr 5
            (Cell.num amount)).setCell tr 6 (Cell.str now)))) := by
  obtain ⟨hn1, hn2, hn3, hn4, hn5⟩ := idColFor_ne entity
  have hmc : (paymentsSheet d entity).maxCol = 6 := maxCol_of_payHeaders _ _ hhdr
  have hrows : 1 ≤ (paymentsSheet d entity).rows.length := rows_pos_of_payHeaders _ _ hhdr
  have hmr : (paymentsSheet d entity).maxRow = (paymentsSheet d entity).rows.length := by
    simp [Sheet.maxRow]
    omega
  constructor
  · intro hfi
    simp only [set_payment, hfi]
    rw [hhdr, payInsertRow_eq (idColFor entity) pid now status Y M amount hn1 hn2 hn3 hn4 hn5]
  · intro tr hfi
    obtain ⟨htr2, htrlt, -, -⟩ :=
      findPaymentIdx_ok_some (idColFor entity) pid Y M
        (sheet_to_dicts (paymentsSheet d entity)) 2 tr hfi
    have hdlen : (sheet_to_dicts (paymentsSheet d entity)).length =
        (paymentsSheet d entity).maxRow - 1 := by
      rw [sheet_to_dicts_eq_map _ hnb]
      simp
    have htrle : tr ≤ (paymentsSheet d entity).rows.length := by
      rw [hdlen, hmr] at htrlt
      omega
    refine ⟨htr2, htrle, ?_⟩
    simp only [set_payment, hfi]
    rw [hhdr, setPaymentRow_payHeaders _ tr (idColFor entity) now status amount hn3 hn4 hn5]

theorem countP_set_of_iff {α : Type} (p : α → Bool) (l : List α) (i : Nat) (a : α)
    (hi : i < l.length) (hiff : p a = p (l[i])) :
    (l.set i a).countP p = l.countP p := by
  rw [List.set_eq_take_append_cons_drop, if_pos hi, List.countP_append, List.countP_cons]
  conv_rhs => rw [← List.take_append_drop i l]
  rw [List.countP_append]
  have hdrop : l.drop i = l[i] :: l.drop (i + 1) := (List.getElem_cons_drop l i hi).symm
  rw [hdrop, List.countP_cons, hiff]

theorem set_last_append {α : Type} (l : List α) (a b : α) :
    (l ++ [a]).set l.length b = l ++ [b] := by
  induction l with
  | nil => rfl
  | cons x xs ih => simp [ih]

theorem paymentsSheet_set (d : Doc) (entity : String) (ws : Sheet) :
    paymentsSheet (setPaymentsSheet d entity ws) entity = ws := by
  by_cases he : entity = "student" <;> simp [paymentsSheet, setPaymentsSheet, he]

theorem dictMatchesKey_payZip (idCol pid : String) (Y M : Int) (a b c e f g : Cell)
    (h1 : idCol ≠ "year") (h2 : idCol ≠ "month") (h3 : idCol ≠ "status")
    (h4 : idCol ≠ "amount") (h5 : idCol ≠ "updated_at") :
    dictMatchesKey idCol pid Y M (((payHeaders idCol).map Cell.str).zip [a, b, c, e, f, g]) ↔
      (pyStr a = pid ∧ pyInt b = some Y ∧ pyInt c = some M) := by
  unfold dictMatchesKey
  rw [payDict_get_id _ _ _ _ _ _ _ _ h1 h2 h3 h4 h5, payDict_get_year, payDict_get_month]

theorem rowCells_six (ws : Sheet) (r : Nat) (hmc : ws.maxCol = 6) :
    ws.rowCells r = [ws.getCell r 1, ws.getCell r 2, ws.getCell r 3, ws.getCell r 4,
      ws.getCell r 5, ws.getCell r 6] := by
  have hr6 : List.range 6 = [0, 1, 2, 3, 4, 5] := rfl
  simp [Sheet.rowCells, hmc, hr6]

/-- C9 amended: PROVIDED the payments sheet is schema-correct and has no
entirely blank data row (the counterexample shows a blank row breaks the
row-index alignment of the scan), `set_payment` is an upsert on the
composite key: a miss appends exactly one new row holding the key and the
supplied status/amount; a hit rewrites only status, amount and updated_at
of the aligned row, leaving key columns untouched; the number of records
for the key becomes `max(previous, 1)`, preserving at-most-one; and the
Paid-then-Pending toggle on a fresh key leaves exactly one record for the
key, with status "Pending" and amount 500. -/
theorem set_payment_upsert_spec (now entity pid : String) (Y M : Int) (status : String)
    (amount : ℚ) (d : Doc)
    (hhdr : (paymentsSheet d entity).row1Cells = (payHeaders (idColFor entity)).map Cell.str)
    (hnb : ∀ r ∈ List.range' 2 ((paymentsSheet d entity).maxRow - 1),
      ¬ ((paymentsSheet d entity).rowCells r).all (fun c => c = Cell.blank)) :
    (findPaymentIdx (idColFor entity) pid Y M 2 (sheet_to_dicts (paymentsSheet d entity)) =
        Except.ok none →
      set_payment now entity pid Y M status amount d =
        Except.ok (setPaymentsSheet d entity ((paymentsSheet d entity).appendRow
          [Cell.str pid, Cell.int Y, Cell.int M, Cell.str status, Cell.num amount,
           Cell.str now]))) ∧
    (∀ tr, findPaymentIdx (idColFor entity) pid Y M 2
        (sheet_to_dicts (paymentsSheet d entity)) = Except.ok (some tr) →
      2 ≤ tr ∧ tr ≤ (paymentsSheet d entity).rows.length ∧
      set_payment now entity pid Y M status amount d =
        Except.ok (setPaymentsSheet d entity
          ((((paymentsSheet d entity).setCell tr 4 (Cell.str status)).setCell tr 5
            (Cell.num amount)).setCell tr 6 (Cell.str now)))) ∧
    (∀ d', set_payment now entity pid Y M status amount d = Except.ok d' →
      (sheet_to_dicts (paymentsSheet d' entity)).countP
          (fun r => decide (dictMatchesKey (idColFor entity) pid Y M r)) =
        max ((sheet_to_dicts (paymentsSheet d entity)).countP
          (fun r => decide (dictMatchesKey (idColFor entity) pid Y M r))) 1) ∧
    (∀ (now1 now2 : String) (d1 d2 : Doc),
      (sheet_to_dicts (paymentsSheet d entity)).countP
        (fun r => decide (dictMatchesKey (idColFor entity) pid Y M r)) = 0 →
      set_payment now1 entity pid Y M "Paid" 500 d = Except.ok d1 →
      set_payment now2 entity pid Y M "Pending" 500 d1 = Except.ok d2 →
      (sheet_to_dicts (paymentsSheet d2 entity)).countP
        (fun r => decide (dictMatchesKey (idColFor entity) pid Y M r)) = 1 ∧
      (∀ r ∈ sheet_to_dicts (paymentsSheet d2 entity),
        dictMatchesKey (idColFor entity) pid Y M r →
        dictGetS r "status" (Cell.str "") = Cell.str "Pending" ∧
        dictGetS r "amount" (Cell.int 0) = Cell.num 500)) := by
  obtain ⟨hn1, hn2, hn3, hn4, hn5⟩ := idColFor_ne entity
  have hmc : (paymentsSheet d entity).maxCol = 6 := maxCol_of_payHeaders _ _ hhdr
  have hrows : 1 ≤ (paymentsSheet d entity).rows.length := rows_pos_of_payHeaders _ _ hhdr
  have hmr : (paymentsSheet d entity).maxRow = (paymentsSheet d entity).rows.length := by
    simp [Sheet.maxRow]; omega
  have hdlen : (sheet_to_dicts (paymentsSheet d entity)).length =
      (paymentsSheet d entity).maxRow - 1 := by
    rw [sheet_to_dicts_eq_map _ hnb]; simp
  obtain ⟨hc1, hc2⟩ := set_payment_core now entity pid Y M status amount d hhdr hnb
  refine ⟨hc1, hc2, ?_, ?_⟩
  · -- count formula
    intro d' h'
    rcases hfi : findPaymentIdx (idColFor entity) pid Y M 2
        (sheet_to_dicts (paymentsSheet d entity)) with e | o
    · simp only [set_payment, hfi] at h'
      exact Except.noConfusion h'
    · cases o with
      | none =>
        have heq := hc1 hfi
        rw [h'] at heq
        injection heq with heq
        rw [heq, paymentsSheet_set,
          sheet_to_dicts_appendRow _ _ (by simp [hmc]) (by simp) hrows,
          List.countP_append, hhdr]
        have hz : List.countP (fun r => decide (dictMatchesKey (idColFor entity) pid Y M r))
            (sheet_to_dicts (paymentsSheet d entity)) = 0 := by
          rw [List.countP_eq_zero]
          intro a ha
          simpa using findPaymentIdx_ok_none (idColFor entity) pid Y M _ 2 hfi a ha
        rw [hz]
        have hk : dictMatchesKey (idColFor entity) pid Y M
            (((payHeaders (idColFor entity)).map Cell.str).zip
              [Cell.str pid, Cell.int Y, Cell.int M, Cell.str status, Cell.num amount,
               Cell.str now]) := by
          rw [dictMatchesKey_payZip _ _ _ _ _ _ _ _ _ _ hn1 hn2 hn3 hn4 hn5]
          exact ⟨rfl, rfl, rfl⟩
        simp [hk]
      | some tr =>
        obtain ⟨htr2, htrle, heq⟩ := hc2 tr hfi
        rw [h'] at heq
        injection heq with heq
        obtain ⟨hKle, hKlt, hKm, -⟩ := findPaymentIdx_ok_some (idColFor entity) pid Y M
          (sheet_to_dicts (paymentsSheet d entity)) 2 tr hfi
        obtain ⟨hset, -, -, -⟩ := sheet_to_dicts_tripleSet (paymentsSheet d entity) tr
          status now amount htr2 htrle hmc hnb
        have hidx : tr - 2 < (sheet_to_dicts (paymentsSheet d entity)).length := hKlt
        -- the element at tr - 2 is the decoded row tr, whose key cells survive
        have hgetD : (sheet_to_dicts (paymentsSheet d entity)).getD (tr - 2) [] =
            (paymentsSheet d entity).row1Cells.zip
              ((paymentsSheet d entity).rowCells tr) := by
          have hj2 : tr - 2 < (List.range' 2 ((paymentsSheet d entity).maxRow - 1)).length := by
            simp
            rw [← hdlen]
            exact hKlt
          rw [sheet_to_dicts_eq_map _ hnb, List.getD_eq_getElem _ _ (by simpa using hj2),
            List.getElem_map, List.getElem_range']
          have harith : 2 + 1 * (tr - 2) = tr := by omega
          rw [harith]
        have hKold : dictMatchesKey (idColFor entity) pid Y M
            ((paymentsSheet d entity).row1Cells.zip
              ((paymentsSheet d entity).rowCells tr)) := by
          rw [← hgetD]
          exact hKm
        have hKnew : dictMatchesKey (idColFor entity) pid Y M
            ((paymentsSheet d entity).row1Cells.zip
              [(paymentsSheet d entity).getCell tr 1, (paymentsSheet d entity).getCell tr 2,
               (paymentsSheet d entity).getCell tr 3, Cell.str status, Cell.num amount,
               Cell.str now]) := by
          rw [hhdr, dictMatchesKey_payZip _ _ _ _ _ _ _ _ _ _ hn1 hn2 hn3 hn4 hn5]
          rw [hhdr, rowCells_six _ tr hmc,
            dictMatchesKey_payZip _ _ _ _ _ _ _ _ _ _ hn1 hn2 hn3 hn4 hn5] at hKold
          exact hKold
        have hpos : 0 < (sheet_to_dicts (paymentsSheet d entity)).countP
            (fun r => decide (dictMatchesKey (idColFor entity) pid Y M r)) := by
          rw [List.countP_pos]
          refine ⟨(sheet_to_dicts (paymentsSheet d entity)).getD (tr - 2) [], ?_, ?_⟩
          · rw [List.getD_eq_getElem _ _ hidx]
            exact List.getElem_mem hidx
          · simpa using hKm
        rw [heq, paymentsSheet_set, hset,
          countP_set_of_iff _ _ _ _ hidx ?_]
        · omega
        · rw [← List.getD_eq_getElem _ [] hidx, hgetD]
          simp [hKnew, hKold]
  · -- toggle round-trip
    intro now1 now2 d1 d2 hcnt0 h1 h2
    rcases hfi : findPaymentIdx (idColFor entity) pid Y M 2
        (sheet_to_dicts (paymentsSheet d entity)) with e | o
    · simp only [set_payment, hfi] at h1
      exact Except.noConfusion h1
    · cases o with
      | some tr =>
        exfalso
        obtain ⟨-, hKlt, hKm, -⟩ := findPaymentIdx_ok_some (idColFor entity) pid Y M
          (sheet_to_dicts (paymentsSheet d entity)) 2 tr hfi
        have hpos : 0 < (sheet_to_dicts (paymentsSheet d entity)).countP
            (fun r => decide (dictMatchesKey (idColFor entity) pid Y M r)) := by
          rw [List.countP_pos]
          refine ⟨(sheet_to_dicts (paymentsSheet d entity)).getD (tr - 2) [], ?_, ?_⟩
          · rw [List.getD_eq_getElem _ _ hKlt]
            exact List.getElem_mem hKlt
          · simpa using hKm
        omega
      | none =>
        obtain ⟨hcp1, -⟩ := set_payment_core now1 entity pid Y M "Paid" 500 d hhdr hnb
        have heq1 := hcp1 hfi
        rw [h1] at heq1
        injection heq1 with heq1
        have hps1 : paymentsSheet d1 entity = (paymentsSheet d entity).appendRow
            [Cell.str pid, Cell.int Y, Cell.int M, Cell.str "Paid", Cell.num 500,
             Cell.str now1] := by
          rw [heq1, paymentsSheet_set]
        have hhdr1 : (paymentsSheet d1 entity).row1Cells =
            (payHeaders (idColFor entity)).map Cell.str := by
          rw [hps1, Sheet.row1Cells_appendRow _ _ hrows (by simp [hmc])]
          exact hhdr
        have hmr1 : (paymentsSheet d1 entity).maxRow = (paymentsSheet d entity).maxRow + 1 := by
          rw [hps1, Sheet.maxRow_appendRow _ _ hrows]
        have hnb1 : ∀ r ∈ List.range' 2 ((paymentsSheet d1 entity).maxRow - 1),
            ¬ ((paymentsSheet d1 entity).rowCells r).all (fun c => c = Cell.blank) := by
          intro r hr
          have hrb := List.mem_range'_1.mp hr
          rw [hmr1] at hrb
          rcases lt_or_ge r ((paymentsSheet d entity).maxRow + 1) with hlt | hge
          · rw [hps1, Sheet.rowCells_appendRow_old _ _ r (by omega)
              (by omega) (by simp [hmc])]
            apply hnb
            rw [List.mem_range'_1]
            omega
          · have hreq : r = (paymentsSheet d entity).rows.length + 1 := by omega
            rw [hps1, hreq, Sheet.rowCells_appendRow_new _ _ (by simp [hmc])]
            simp
        have hd1dicts : sheet_to_dicts (paymentsSheet d1 entity) =
            sheet_to_dicts (paymentsSheet d entity) ++
              [((payHeaders (idColFor entity)).map Cell.str).zip
                [Cell.str pid, Cell.int Y, Cell.int M, Cell.str "Paid", Cell.num 500,
                 Cell.str now1]] := by
          rw [hps1, sheet_to_dicts_appendRow _ _ (by simp [hmc]) (by simp) hrows, hhdr]
        have hKn1 : dictMatchesKey (idColFor entity) pid Y M
            (((payHeaders (idColFor entity)).map Cell.str).zip
              [Cell.str pid, Cell.int Y, Cell.int M, Cell.str "Paid", Cell.num 500,
               Cell.str now1]) := by
          rw [dictMatchesKey_payZip _ _ _ _ _ _ _ _ _ _ hn1 hn2 hn3 hn4 hn5]
          exact ⟨rfl, rfl, rfl⟩
        have hfi1 : findPaymentIdx (idColFor entity) pid Y M 2
            (sheet_to_dicts (paymentsSheet d1 entity)) =
            Except.ok (some (2 + (sheet_to_dicts (paymentsSheet d entity)).length)) := by
          rw [hd1dicts]
          exact findPaymentIdx_append_match (idColFor entity) pid Y M _ 2 _ hfi hKn1
        obtain ⟨-, hcq2⟩ := set_payment_core now2 entity pid Y M "Pending" 500 d1 hhdr1 hnb1
        obtain ⟨htr2', htrle', heq2⟩ :=
          hcq2 (2 + (sheet_to_dicts (paymentsSheet d entity)).length) hfi1
        rw [h2] at heq2
        injection heq2 with heq2
        have hmc1 : (paymentsSheet d1 entity).maxCol = 6 := maxCol_of_payHeaders _ _ hhdr1
        obtain ⟨hset2, -, -, -⟩ := sheet_to_dicts_tripleSet (paymentsSheet d1 entity)
          (2 + (sheet_to_dicts (paymentsSheet d entity)).length) "Pending" now2 500
          htr2' htrle' hmc1 hnb1
        have htr1eq : 2 + (sheet_to_dicts (paymentsSheet d entity)).length =
            (paymentsSheet d entity).rows.length + 1 := by
          rw [hdlen]
          omega
        -- cells 1..3 of the updated (appended) row are the key cells
        have hg1 : (paymentsSheet d1 entity).getCell
            (2 + (sheet_to_dicts (paymentsSheet d entity)).length) 1 = Cell.str pid := by
          rw [hps1, htr1eq, Sheet.getCell_appendRow_new]
          rfl
        have hg2 : (paymentsSheet d1 entity).getCell
            (2 + (sheet_to_dicts (paymentsSheet d entity)).length) 2 = Cell.int Y := by
          rw [hps1, htr1eq, Sheet.getCell_appendRow_new]
          rfl
        have hg3 : (paymentsSheet d1 entity).getCell
            (2 + (sheet_to_dicts (paymentsSheet d entity)).length) 3 = Cell.int M := by
          rw [hps1, htr1eq, Sheet.getCell_appendRow_new]
          rfl
        have hd2dicts : sheet_to_dicts (paymentsSheet d2 entity) =
            sheet_to_dicts (paymentsSheet d entity) ++
              [((payHeaders (idColFor entity)).map Cell.str).zip
                [Cell.str pid, Cell.int Y, Cell.int M, Cell.str "Pending", Cell.num 500,
                 Cell.str now2]] := by
          rw [heq2, paymentsSheet_set, hset2, hg1, hg2, hg3, hhdr1, hd1dicts]
          rw [show (2 + (sheet_to_dicts (paymentsSheet d entity)).length - 2) =
            (sheet_to_dicts (paymentsSheet d entity)).length by omega]
          exact set_last_append _ _ _
        have hKn2 : dictMatchesKey (idColFor entity) pid Y M
            (((payHeaders (idColFor entity)).map Cell.str).zip
              [Cell.str pid, Cell.int Y, Cell.int M, Cell.str "Pending", Cell.num 500,
               Cell.str now2]) := by
          rw [dictMatchesKey_payZip _ _ _ _ _ _ _ _ _ _ hn1 hn2 hn3 hn4 hn5]
          exact ⟨rfl, rfl, rfl⟩
        constructor
        · rw [hd2dicts, List.countP_append, hcnt0]
          simp [hKn2]
        · intro r hr hKr
          rw [hd2dicts] at hr
          rcases List.mem_append.mp hr with hr | hr
          · exfalso
            have := List.countP_eq_zero.mp hcnt0 r hr
            simp at this
            exact this hKr
          · rw [List.mem_singleton.mp hr]
            constructor
            · exact payDict_get_status _ _ _ _ _ _ _ _
            · exact payDict_get_amount _ _ _ _ _ _ _ _

/-- A document with an empty (header-only) student-payments sheet. -/
def c9WitnessDoc : Doc :=
  Doc.mk ⟨[]⟩ ⟨[]⟩ ⟨[(payHeaders "student_id").map Cell.str]⟩ ⟨[]⟩ ⟨[]⟩

/-- The document after `set_payment(..., "Paid", 500)` on the fresh key. -/
def c9W1 : Doc :=
  Doc.mk ⟨[]⟩ ⟨[]⟩ ⟨[(payHeaders "student_id").map Cell.str,
    [Cell.str "S1", Cell.int 2026, Cell.int 3, Cell.str "Paid", Cell.num 500,
     Cell.str "t1"]]⟩ ⟨[]⟩ ⟨[]⟩

/-- The document after the subsequent `set_payment(..., "Pending", 500)`. -/
def c9W2 : Doc :=
  Doc.mk ⟨[]⟩ ⟨[]⟩ ⟨[(payHeaders "student_id").map Cell.str,
    [Cell.str "S1", Cell.int 2026, Cell.int 3, Cell.str "Pending", Cell.num 500,
     Cell.str "t2"]]⟩ ⟨[]⟩ ⟨[]⟩

/-- Instantiation of `set_payment_upsert_spec` (toggle part) at a concrete
fresh key: after Paid-then-Pending, exactly one record exists for the key
and it reads status "Pending", amount 500. -/
theorem set_payment_upsert_spec_witness :
    (sheet_to_dicts (paymentsSheet c9W2 "student")).countP
      (fun r => decide (dictMatchesKey (idColFor "student") "S1" 2026 3 r)) = 1 ∧
    (∀ r ∈ sheet_to_dicts (paymentsSheet c9W2 "student"),
      dictMatchesKey (idColFor "student") "S1" 2026 3 r →
      dictGetS r "status" (Cell.str "") = Cell.str "Pending" ∧
      dictGetS r "amount" (Cell.int 0) = Cell.num 500) :=
  (set_payment_upsert_spec "t0" "student" "S1" 2026 3 "X" 0 c9WitnessDoc (by decide)
    (by decide)).2.2.2 "t1" "t2" c9W1 c9W2 (by decide) (by decide) (by decide)

/-! ### C3 — `get_pending_months` -/

/-- A payments sheet whose single record for (2026, 3) carries status
"PAID" (uppercase). -/
def c3Doc : Doc :=
  Doc.mk ⟨[]⟩ ⟨[]⟩ ⟨[(payHeaders "student_id").map Cell.str,
    [Cell.str "S1", Cell.int 2026, Cell.int 3, Cell.str "PAID", Cell.num 500,
     Cell.str "t"]]⟩ ⟨[]⟩ ⟨[]⟩

/-- C3 fails on the code as stated: the claim makes a month pending iff
its record's status is not exactly "Paid", but the code compares
case-insensitively (`.lower() != "paid"`).  With a record whose status is
"PAID" (≠ "Paid") at (2026, 3), the claim says that month is pending and
the walk ends at (2026, 3); the code treats it as paid: only 23 entries,
ending at (2026, 2), with (2026, 3) absent. -/
theorem pending_months_case_counterexample :
    (get_pending_months c3Doc "student" "S1" 2026 3 100).map (fun l =>
        (l.length, l.getLast?, l.any (fun e => e.year == 2026 && e.month == 3))) =
      Except.ok (23, some (PendEntry.mk 2026 2 100), false) ∧
    c3Doc.student_payments.getCell 2 4 = Cell.str "PAID" ∧
    Cell.str "PAID" ≠ Cell.str "Paid" := by
  decide

/-- One backward step of the month walk (month 1 wraps to month 12 of the
previous year; as in the code, any month below 1 wraps). -/
def stepMonth (y m : Int) : Int × Int :=
  if m - 1 < 1 then (y - 1, 12) else (y, m - 1)

/-- The month visited `k` steps back from `(y, m)` (spec-side description
of the walk). -/
def monthBack (y m : Int) : Nat → Int × Int
  | 0 => (y, m)
  | k + 1 => stepMonth (monthBack y m k).1 (monthBack y m k).2

/-- Strict chronological order on (year, month) pairs. -/
def monthLtP (a b : Int × Int) : Prop :=
  a.1 < b.1 ∨ (a.1 = b.1 ∧ a.2 < b.2)

/-- The stored payment record the walk sees for a month: the last record
of this person whose year/month convert to the key (duplicates overwrite,
malformed records skipped), exactly as `paid_lookup` resolves it. -/
def recordFor (d : Doc) (entity pid : String) (ym : Int × Int) : Option Dict :=
  lookupGet (buildPaidLookup (idColFor entity) pid (list_all_payments d entity)) ym

/-- The pending condition and amount rule for one month, as the claim
(amended to the code's case-insensitive status test) states it. -/
def pendSpec (lookup : List ((Int × Int) × Dict)) (dflt : ℚ) (ym : Int × Int)
    (a : ℚ) : Prop :=
  (lookupGet lookup ym = none ∧ a = dflt) ∨
  (∃ rec q, lookupGet lookup ym = some rec ∧
    pyLower (pyStr (dictGetS rec "status" (Cell.str ""))) ≠ "paid" ∧
    pyFloat (pyOr (dictGetS rec "amount" (Cell.int 0)) (Cell.int 0)) = some q ∧
    a = if q ≤ 0 then dflt else q)

theorem monthLtP_trans {a b c : Int × Int} (h1 : monthLtP a b) (h2 : monthLtP b c) :
    monthLtP a c := by
  rcases a with ⟨a1, a2⟩
  rcases b with ⟨b1, b2⟩
  rcases c with ⟨c1, c2⟩
  unfold monthLtP at *
  simp only at *
  omega

theorem monthBack_succ_lt (y m : Int) (j : Nat) :
    monthLtP (monthBack y m (j + 1)) (monthBack y m j) := by
  show monthLtP (stepMonth (monthBack y m j).1 (monthBack y m j).2) (monthBack y m j)
  generalize monthBack y m j = p
  obtain ⟨p1, p2⟩ := p
  unfold stepMonth monthLtP
  split <;> dsimp only <;> omega

theorem monthBack_lt (y m : Int) : ∀ j j' : Nat, j < j' →
    monthLtP (monthBack y m j') (monthBack y m j) := by
  intro j j'
  induction j' with
  | zero => intro h; omega
  | succ j'' ih =>
    intro h
    rcases eq_or_lt_of_le (Nat.le_of_lt_succ h) with he | hlt
    · rw [he]
      exact monthBack_succ_lt y m j''
    · exact monthLtP_trans (monthBack_succ_lt y m j'') (ih hlt)

theorem pendingLoop_succ (lookup : List ((Int × Int) × Dict)) (dflt : ℚ)
    (k : Nat) (y m : Int) :
    pendingLoop lookup dflt (k + 1) y m =
      (match lookupGet lookup (y, m) with
      | none =>
        (pendingLoop lookup dflt k (stepMonth y m).1 (stepMonth y m).2).map
          (fun rest => PendEntry.mk y m dflt :: rest)
      | some rec =>
        if pyLower (pyStr (dictGetS rec "status" (Cell.str ""))) ≠ "paid" then
          match pyFloat (pyOr (dictGetS rec "amount" (Cell.int 0)) (Cell.int 0)) with
          | none => Except.error ()
          | some a =>
            (pendingLoop lookup dflt k (stepMonth y m).1 (stepMonth y m).2).map
              (fun rest => PendEntry.mk y m (if a ≤ 0 then dflt else a) :: rest)
        else pendingLoop lookup dflt k (stepMonth y m).1 (stepMonth y m).2) := by
  have h1 : (stepMonth y m).1 = (if m - 1 < 1 then y - 1 else y) := by
    unfold stepMonth; split <;> rfl
  have h2 : (stepMonth y m).2 = (if m - 1 < 1 then 12 else m - 1) := by
    unfold stepMonth; split <;> rfl
  rw [h1, h2]
  rfl

/-- The full characterization of the 24-iteration backward walk. -/
theorem pendingLoop_spec (lookup : List ((Int × Int) × Dict)) (dflt : ℚ) :
    ∀ (k : Nat) (y m : Int) (t : List PendEntry),
      pendingLoop lookup dflt k y m = Except.ok t →
      (∀ e : PendEntry, e ∈ t ↔ ∃ j, j < k ∧ monthBack y m j = (e.year, e.month) ∧
        pendSpec lookup dflt (e.year, e.month) e.amount) ∧
      List.Pairwise (fun e1 e2 =>
        monthLtP (e2.year, e2.month) (e1.year, e1.month)) t ∧
      t.length ≤ k ∧
      (lookupGet lookup (y, m) = none → 1 ≤ k →
        t.head? = some (PendEntry.mk y m dflt)) ∧
      ((∀ ym : Int × Int, lookupGet lookup ym = none) →
        t = (List.range k).map (fun j =>
          PendEntry.mk (monthBack y m j).1 (monthBack y m j).2 dflt)) := by
  intro k
  induction k with
  | zero =>
    intro y m t h
    simp only [pendingLoop] at h
    injection h with h
    rw [← h]
    refine ⟨by simp, by simp, by simp, ?_, by simp⟩
    intro _ h1k
    exact absurd h1k (by omega)
  | succ k ih =>
    intro y m t h
    rw [pendingLoop_succ] at h
    have hshift : ∀ j : Nat, monthBack y m (j + 1) =
        monthBack (stepMonth y m).1 (stepMonth y m).2 j := by
      intro j
      induction j with
      | zero => rfl
      | succ j' ihj =>
        show stepMonth (monthBack y m (j' + 1)).1 (monthBack y m (j' + 1)).2 = _
        rw [ihj]
        rfl
    rcases hlk : lookupGet lookup (y, m) with _ | rec
    · rw [hlk] at h
      rcases hnext : pendingLoop lookup dflt k (stepMonth y m).1 (stepMonth y m).2 with e | t'
      · rw [hnext] at h; exact Except.noConfusion h
      · rw [hnext] at h
        simp only [Except.map] at h
        injection h with h
        replace h : PendEntry.mk y m dflt :: t' = t := h
        obtain ⟨ihm, ihp, ihl, -, ihz⟩ := ih (stepMonth y m).1 (stepMonth y m).2 t' hnext
        rw [← h]
        refine ⟨?_, ?_, by simp; omega, ?_, ?_⟩
        · intro e
          constructor
          · intro he
            rcases List.mem_cons.mp he with he | he
            · refine ⟨0, by omega, by subst he; rfl, ?_⟩
              rw [he]
              exact Or.inl ⟨hlk, rfl⟩
            · obtain ⟨j, hj, hjm, hjs⟩ := (ihm e).mp he
              exact ⟨j + 1, by omega, by rw [hshift j]; exact hjm, hjs⟩
          · rintro ⟨j, hj, hjm, hjs⟩
            rcases Nat.eq_zero_or_pos j with hj0 | hj0
            · subst hj0
              simp only [monthBack] at hjm
              have hey : e.year = y := by
                have := congrArg Prod.fst hjm; simpa using this.symm
              have hem : e.month = m := by
                have := congrArg Prod.snd hjm; simpa using this.symm
              have hea : e.amount = dflt := by
                rcases hjs with ⟨-, ha⟩ | ⟨rec, q, hrec, -⟩
                · exact ha
                · rw [hey, hem] at hrec
                  rw [hlk] at hrec
                  exact Option.noConfusion hrec
              have heq : e = PendEntry.mk y m dflt := by
                cases e
                simp only at hey hem hea
                rw [hey, hem, hea]
              rw [heq]
              exact List.mem_cons_self _ _
            · apply List.mem_cons.mpr
              apply Or.inr
              apply (ihm e).mpr
              refine ⟨j - 1, by omega, ?_, hjs⟩
              rw [← hshift (j - 1)]
              have : j - 1 + 1 = j := by omega
              rw [this]
              exact hjm
        · rw [List.pairwise_cons]
          refine ⟨?_, ihp⟩
          intro e he
          obtain ⟨j, hj, hjm, -⟩ := (ihm e).mp he
          have := monthBack_lt y m 0 (j + 1) (by omega)
          rw [hshift j, hjm] at this
          simpa [monthBack] using this
        · intro _ _
          simp
        · intro hz
          have ht' := ihz hz
          rw [ht', List.range_succ_eq_map, List.map_cons, List.map_map]
          congr 1
          apply List.map_congr_left
          intro j _
          simp only [Function.comp]
          rw [← hshift j]
    · rw [hlk] at h
      dsimp only at h
      by_cases hst : pyLower (pyStr (dictGetS rec "status" (Cell.str ""))) ≠ "paid"
      · rw [if_pos hst] at h
        rcases hfl : pyFloat (pyOr (dictGetS rec "amount" (Cell.int 0)) (Cell.int 0))
            with _ | a
        · rw [hfl] at h; exact Except.noConfusion h
        · rw [hfl] at h
          rcases hnext : pendingLoop lookup dflt k (stepMonth y m).1 (stepMonth y m).2
              with e | t'
          · rw [hnext] at h; exact Except.noConfusion h
          · rw [hnext] at h
            simp only [Except.map] at h
            injection h with h
            replace h : PendEntry.mk y m (if a ≤ 0 then dflt else a) :: t' = t := h
            obtain ⟨ihm, ihp, ihl, -, -⟩ := ih (stepMonth y m).1 (stepMonth y m).2 t' hnext
            rw [← h]
            refine ⟨?_, ?_, by simp; omega, ?_, ?_⟩
            · intro e
              constructor
              · intro he
                rcases List.mem_cons.mp he with he | he
                · refine ⟨0, by omega, by subst he; rfl, ?_⟩
                  rw [he]
                  exact Or.inr ⟨rec, a, hlk, hst, hfl, rfl⟩
                · obtain ⟨j, hj, hjm, hjs⟩ := (ihm e).mp he
                  exact ⟨j + 1, by omega, by rw [hshift j]; exact hjm, hjs⟩
              · rintro ⟨j, hj, hjm, hjs⟩
                rcases Nat.eq_zero_or_pos j with hj0 | hj0
                · subst hj0
                  simp only [monthBack] at hjm
                  have hey : e.year = y := by
                    have := congrArg Prod.fst hjm; simpa using this.symm
                  have hem : e.month = m := by
                    have := congrArg Prod.snd hjm; simpa using this.symm
                  have hea : e.amount = if a ≤ 0 then dflt else a := by
                    rcases hjs with ⟨hrec, -⟩ | ⟨rec', q, hrec, -, hfl', ha⟩
                    · rw [hey, hem, hlk] at hrec
                      exact Option.noConfusion hrec
                    · rw [hey, hem, hlk] at hrec
                      injection hrec with hrec
                      rw [← hrec] at hfl'
                      rw [hfl] at hfl'
                      injection hfl' with hfl'
                      rw [ha, hfl']
                  have heq : e = PendEntry.mk y m (if a ≤ 0 then dflt else a) := by
                    cases e
                    simp only at hey hem hea
                    rw [hey, hem, hea]
                  rw [heq]
                  exact List.mem_cons_self _ _
                · apply List.mem_cons.mpr
                  apply Or.inr
                  apply (ihm e).mpr
                  refine ⟨j - 1, by omega, ?_, hjs⟩
                  rw [← hshift (j - 1)]
                  have : j - 1 + 1 = j := by omega
                  rw [this]
                  exact hjm
            · rw [List.pairwise_cons]
              refine ⟨?_, ihp⟩
              intro e he
              obtain ⟨j, hj, hjm, -⟩ := (ihm e).mp he
              have := monthBack_lt y m 0 (j + 1) (by omega)
              rw [hshift j, hjm] at this
              simpa [monthBack] using this
            · intro hnone _
              exact Option.noConfusion hnone
            · intro hz
              have := hz (y, m)
              rw [this] at hlk
              exact Option.noConfusion hlk
      · rw [if_neg hst] at h
        obtain ⟨ihm, ihp, ihl, -, -⟩ := ih (stepMonth y m).1 (stepMonth y m).2 t h
        refine ⟨?_, ihp, by omega, ?_, ?_⟩
        · intro e
          constructor
          · intro he
            obtain ⟨j, hj, hjm, hjs⟩ := (ihm e).mp he
            exact ⟨j + 1, by omega, by rw [hshift j]; exact hjm, hjs⟩
          · rintro ⟨j, hj, hjm, hjs⟩
            rcases Nat.eq_zero_or_pos j with hj0 | hj0
            · exfalso
              subst hj0
              simp only [monthBack] at hjm
              have hey : e.year = y := by
                have := congrArg Prod.fst hjm; simpa using this.symm
              have hem : e.month = m := by
                have := congrArg Prod.snd hjm; simpa using this.symm
              rcases hjs with ⟨hrec, -⟩ | ⟨rec', q, hrec, hst', -, -⟩
              · rw [hey, hem, hlk] at hrec
                exact Option.noConfusion hrec
              · rw [hey, hem, hlk] at hrec
                injection hrec with hrec
                rw [← hrec] at hst'
                exact hst' (by simpa using hst)
            · apply (ihm e).mpr
              refine ⟨j - 1, by omega, ?_, hjs⟩
              rw [← hshift (j - 1)]
              have : j - 1 + 1 = j := by omega
              rw [this]
              exact hjm
        · intro hnone _
          exact Option.noConfusion hnone
        · intro hz
          have := hz (y, m)
          rw [this] at hlk
          exact Option.noConfusion hlk

/-- C3 amended: `get_pending_months` walks a fixed 24-month window
backward from (upToYear, upToMonth) inclusive, wrapping month 0 to month
12 of the previous year; a month is in the result iff it has no stored
record or its record's status — compared CASE-INSENSITIVELY — is not
"paid", with amount the record's amount when > 0 else the default; the
result is strictly chronological (oldest-first), ends at the walk start
when that month is pending, and for a person with zero records is exactly
the 24 months each at the default amount. -/
theorem get_pending_months_spec (d : Doc) (entity pid : String) (upY upM : Int)
    (dflt : ℚ) (l : List PendEntry)
    (h : get_pending_months d entity pid upY upM dflt = Except.ok l) :
    (∀ e : PendEntry, e ∈ l ↔ ∃ j, j < 24 ∧ monthBack upY upM j = (e.year, e.month) ∧
      pendSpec (buildPaidLookup (idColFor entity) pid (list_all_payments d entity)) dflt
        (e.year, e.month) e.amount) ∧
    List.Pairwise (fun e1 e2 => monthLtP (e1.year, e1.month) (e2.year, e2.month)) l ∧
    l.length ≤ 24 ∧
    (recordFor d entity pid (upY, upM) = none →
      l.getLast? = some (PendEntry.mk upY upM dflt)) ∧
    ((∀ ym : Int × Int, recordFor d entity pid ym = none) →
      l = (List.range 24).map (fun k =>
        PendEntry.mk (monthBack upY upM (23 - k)).1 (monthBack upY upM (23 - k)).2 dflt)) := by
  simp only [get_pending_months] at h
  rcases hp : pendingLoop
      (buildPaidLookup (idColFor entity) pid (list_all_payments d entity)) dflt 24 upY upM
      with e | t
  · rw [hp] at h
    exact Except.noConfusion h
  · rw [hp] at h
    simp only [Except.map] at h
    injection h with h
    obtain ⟨hm, hpw, hlen, hhd, hz⟩ := pendingLoop_spec
      (buildPaidLookup (idColFor entity) pid (list_all_payments d entity)) dflt 24 upY upM t hp
    subst h
    refine ⟨?_, ?_, ?_, ?_, ?_⟩
    · intro e
      rw [List.mem_reverse]
      exact hm e
    · exact (List.pairwise_reverse).mpr hpw
    · simpa using hlen
    · intro hr
      rw [List.getLast?_reverse]
      exact hhd hr (by omega)
    · intro hz0
      rw [hz hz0]
      apply List.ext_getElem
      · simp
      · intro i h1 h2
        simp only [List.getElem_reverse, List.getElem_map, List.getElem_range,
          List.length_map, List.length_range]

/-- A document with an empty (header-only) student-payments sheet for the
zero-records instance. -/
def c3WDoc : Doc :=
  Doc.mk ⟨[]⟩ ⟨[]⟩ ⟨[(payHeaders "student_id").map Cell.str]⟩ ⟨[]⟩ ⟨[]⟩

/-- The expected 24-entry oldest-first pending list for the zero-records
instance up to (2026, 3) with default amount 100. -/
def c3WList : List PendEntry :=
  (List.range 24).map (fun k =>
    PendEntry.mk (monthBack 2026 3 (23 - k)).1 (monthBack 2026 3 (23 - k)).2 100)

set_option maxRecDepth 8192 in
/-- Instantiation of `get_pending_months_spec` at the zero-records
instance: the walk ends at (2026, 3) with the default amount. -/
theorem get_pending_months_spec_witness :
    c3WList.getLast? = some (PendEntry.mk 2026 3 100) ∧ c3WList.length ≤ 24 :=
  ⟨(get_pending_months_spec c3WDoc "student" "S1" 2026 3 100 c3WList
      (by decide)).2.2.2.1 (by decide),
   (get_pending_months_spec c3WDoc "student" "S1" 2026 3 100 c3WList (by decide)).2.2.1⟩

/-- A document with exactly one (well-identified) student and no payment
rows. -/
def c2WitnessDoc : Doc :=
  Doc.mk ⟨[(studentHeaders []).map Cell.str, [Cell.str "S1", Cell.str "Ann"]]⟩ ⟨[]⟩
    ⟨[(payHeaders "student_id").map Cell.str]⟩ ⟨[]⟩ ⟨[]⟩

/-- Instantiation of `payment_stats_total_spec`: one student and no
payment rows yields `total = 1`, matching the one listed record. -/
theorem payment_stats_total_spec_witness :
    (PayStats.mk 0 1 1).total = (PayStats.mk 0 1 1).paid + (PayStats.mk 0 1 1).pending ∧
    (PayStats.mk 0 1 1).total =
      ((if "student" = "student" then list_students c2WitnessDoc
        else list_teachers c2WitnessDoc).countP
        (fun p => pyStr (dictGetS p
          (if "student" = "student" then "student_id" else "teacher_id")
          (Cell.str "")) ≠ "")) :=
  payment_stats_total_spec c2WitnessDoc "student" 2026 3 (PayStats.mk 0 1 1) (by decide)


/-! ### Lemmas for delete_student: row deletion and unique-header lookups -/

theorem pyEq_str_iff (c : Cell) (s : String) :
    pyEq c (Cell.str s) = true ↔ c = Cell.str s := by
  cases c <;> simp [pyEq]

/-- Characterisation of a successful `findIdx?`: the index is in range, the
element there satisfies the predicate, and no earlier element does. -/
theorem findIdx?_spec {α : Type} (p : α → Bool) (d : α) :
    ∀ (l : List α) (i : Nat), l.findIdx? p = some i →
      i < l.length ∧ p (l.getD i d) = true ∧ ∀ j < i, p (l.getD j d) = false := by
  intro l
  induction l with
  | nil => intro i h; simp [List.findIdx?] at h
  | cons x xs ih =>
    intro i h
    rw [List.findIdx?_cons] at h
    by_cases hx : p x = true
    · rw [if_pos hx] at h
      injection h with h
      subst h
      refine ⟨by simp, by simpa using hx, ?_⟩
      intro j hj; omega
    · rw [if_neg hx, List.findIdx?_succ] at h
      rcases Option.map_eq_some'.mp h with ⟨i', hi', rfl⟩
      obtain ⟨h1, h2, h3⟩ := ih i' hi'
      refine ⟨by simpa using Nat.succ_lt_succ h1, by simpa using h2, ?_⟩
      intro j hj
      cases j with
      | zero => simpa using Bool.eq_false_iff.mpr hx
      | succ j' => simpa using h3 j' (by omega)

/-- `findIdx?` is unchanged by truncation past the found index. -/
theorem findIdx?_take_of {α : Type} (p : α → Bool) :
    ∀ (l : List α) (i n : Nat), l.findIdx? p = some i → i < n →
      (l.take n).findIdx? p = some i := by
  intro l
  induction l with
  | nil => intro i n h _; simp [List.findIdx?] at h
  | cons x xs ih =>
    intro i n h hin
    cases n with
    | zero => omega
    | succ m =>
      rw [List.take_succ_cons, List.findIdx?_cons]
      rw [List.findIdx?_cons] at h
      by_cases hx : p x = true
      · rw [if_pos hx] at h ⊢; exact h
      · rw [if_neg hx] at h ⊢
        rw [List.findIdx?_succ] at h ⊢
        rcases Option.map_eq_some'.mp h with ⟨i', hi', rfl⟩
        rw [ih i' m hi' (by omega)]
        rfl

/-- Python dict lookup on a zipped header/row pair: when the key occurs at
most once among the headers and `findIdx?` locates it at `i` within the
row's length, the lookup returns the `i`-th cell of the row. -/
theorem dictGet_zip_unique (k : String) (dflt : Cell) :
    ∀ (headers cells : List Cell) (i : Nat),
      headers.count (Cell.str k) ≤ 1 →
      headers.findIdx? (fun c => pyEq c (Cell.str k)) = some i →
      i < cells.length →
      dictGet (headers.zip cells) (Cell.str k) dflt = cells.getD i dflt := by
  intro headers
  induction headers with
  | nil => intro cells i _ h _; simp [List.findIdx?] at h
  | cons h hs ih =>
    intro cells i hcount hidx hlen
    cases cells with
    | nil => simp at hlen
    | cons c cs =>
      rw [List.findIdx?_cons] at hidx
      by_cases hp : pyEq h (Cell.str k) = true
      · rw [if_pos hp] at hidx
        injection hidx with hidx
        subst hidx
        have hh : h = Cell.str k := (pyEq_str_iff h k).mp hp
        subst hh
        rw [List.count_cons_self] at hcount
        have hzero : List.count (Cell.str k) hs = 0 := by omega
        have hnot : Cell.str k ∉ hs := List.count_eq_zero.mp hzero
        rw [List.getD_cons_zero]
        unfold dictGet
        rw [List.zip_cons_cons, List.reverse_cons, List.find?_append]
        have hnone : (hs.zip cs).reverse.find? (fun p => pyEq p.1 (Cell.str k)) = none := by
          rw [List.find?_eq_none]
          rintro ⟨a, b⟩ hab
          rw [List.mem_reverse] at hab
          intro habs
          exact hnot ((pyEq_str_iff a k).mp habs ▸ (List.of_mem_zip hab).1)
        rw [hnone]
        simp [pyEq]
      · rw [if_neg hp, List.findIdx?_succ] at hidx
        rcases Option.map_eq_some'.mp hidx with ⟨i', hi', rfl⟩
        have hcount' : List.count (Cell.str k) hs ≤ 1 := by
          have hne : h ≠ Cell.str k := fun habs => hp (habs ▸ (pyEq_str_iff _ _).mpr rfl)
          rwa [List.count_cons_of_ne (Ne.symm hne)] at hcount
        have hlen' : i' < cs.length := by simpa using hlen
        have hih := ih cs i' hcount' hi' hlen'
        rw [List.getD_cons_succ]
        unfold dictGet at hih ⊢
        rw [List.zip_cons_cons, List.reverse_cons, List.find?_append]
        have hone : List.find? (fun p => pyEq p.1 (Cell.str k)) [(h, c)] = none := by
          simp [List.find?, hp]
        rw [hone, Option.or_none]
        exact hih

theorem List_getD_eraseIdx {α : Type} (l : List α) (i j : Nat) (d : α) :
    (l.eraseIdx i).getD j d = if j < i then l.getD j d else l.getD (j + 1) d := by
  rcases lt_or_ge j i with h | h
  · rw [if_pos h, List.getD_eq_getElem?_getD, List.getElem?_eraseIdx, if_pos h,
      ← List.getD_eq_getElem?_getD]
  · rw [if_neg (by omega), List.getD_eq_getElem?_getD, List.getElem?_eraseIdx,
      if_neg (by omega), ← List.getD_eq_getElem?_getD]

theorem List_getD_mem {α : Type} (l : List α) (i : Nat) (d : α) (h : i < l.length) :
    l.getD i d ∈ l := by
  rw [List.getD_eq_getElem?_getD, List.getElem?_eq_getElem h, Option.getD_some]
  exact List.getElem_mem _

theorem List_getD_ne_default_lt {α : Type} (l : List α) (i : Nat) (d : α)
    (h : l.getD i d ≠ d) : i < l.length := by
  by_contra hc
  push_neg at hc
  rw [List.getD_eq_default _ _ hc] at h
  exact h rfl

/-- Deleting row `r` shifts later rows up and leaves earlier rows alone. -/
theorem Sheet.getCell_deleteRowAt (ws : Sheet) (r rr c : Nat)
    (hr : 1 ≤ r) (hrr : 1 ≤ rr) :
    (ws.deleteRowAt r).getCell rr c =
      if rr < r then ws.getCell rr c else ws.getCell (rr + 1) c := by
  unfold Sheet.deleteRowAt Sheet.getCell
  simp only
  rw [List_getD_eraseIdx]
  rcases lt_or_ge rr r with h | h
  · rw [if_pos (by omega), if_pos h]
  · rw [if_neg (by omega), if_neg (by omega)]
    have : rr - 1 + 1 = rr + 1 - 1 := by omega
    rw [this]

theorem Sheet.rows_length_deleteRowAt (ws : Sheet) (r : Nat)
    (h1 : 1 ≤ r) (h2 : r ≤ ws.rows.length) :
    (ws.deleteRowAt r).rows.length = ws.rows.length - 1 := by
  unfold Sheet.deleteRowAt
  rw [List.length_eraseIdx, if_pos (by omega)]

theorem Sheet.maxRow_deleteRowAt (ws : Sheet) (r : Nat)
    (h1 : 1 ≤ r) (h2 : r ≤ ws.rows.length) (hlen : 2 ≤ ws.rows.length) :
    (ws.deleteRowAt r).maxRow = ws.maxRow - 1 := by
  unfold Sheet.maxRow
  rw [Sheet.rows_length_deleteRowAt ws r h1 h2]
  omega

theorem Sheet.maxCol_deleteRowAt_le (ws : Sheet) (r : Nat) :
    (ws.deleteRowAt r).maxCol ≤ ws.maxCol := by
  apply Sheet.maxCol_le
  · simp [Sheet.maxCol]
  · intro row hrow
    exact ws.le_maxCol row ((List.eraseIdx_sublist ws.rows (r - 1)).mem hrow)

/-- Deleting a data row preserves the header row up to the (possibly
shrunken) column count. -/
theorem Sheet.row1Cells_deleteRowAt (ws : Sheet) (r : Nat) (hr : 2 ≤ r) :
    (ws.deleteRowAt r).row1Cells = ws.row1Cells.take ((ws.deleteRowAt r).maxCol) := by
  have hle := Sheet.maxCol_deleteRowAt_le ws r
  simp only [Sheet.row1Cells, Sheet.rowCells]
  rw [← List.map_take, List.take_range]
  have hmin : min ((ws.deleteRowAt r).maxCol) ws.maxCol = (ws.deleteRowAt r).maxCol := by
    omega
  rw [hmin]
  apply List.map_congr_left
  intro i _
  rw [Sheet.getCell_deleteRowAt ws r 1 (i + 1) (by omega) (by omega), if_pos (by omega)]

theorem Sheet.rowCells_getD (ws : Sheet) (r i : Nat) (d : Cell) (hi : i < ws.maxCol) :
    (ws.rowCells r).getD i d = ws.getCell r (i + 1) := by
  unfold Sheet.rowCells
  rw [List.getD_eq_getElem?_getD, List.getElem?_map, List.getElem?_range hi]
  rfl

/-- C8: `delete_student` is a no-op returning `False` when no row carries the
ID (the post-load state is returned unchanged: the cache still holds the
loaded workbook and the disk copy is untouched); the returned flag is `True`
exactly when some data row's id cell `==` the ID; on a hit with a successful
save it returns `True`, removes exactly that row, and — when the id header
occurs once and no other row matched — the ID no longer appears among the
records of `list_students`. -/
theorem delete_student_semantics (s : StoreState) (wb : Doc) (s1 : StoreState)
    (sid : String) (i : Nat)
    (hload : load_wb s = Except.ok (wb, s1))
    (hidx : wb.students.row1Cells.findIdx?
      (fun c => pyEq c (Cell.str "student_id")) = some i) :
    ((∀ r ∈ List.range' 2 (wb.students.maxRow - 1),
        ¬ pyEq (wb.students.getCell r (i + 1)) (Cell.str sid) = true) →
      ∀ saveOk, delete_student_run saveOk sid s = (Except.ok false, s1)) ∧
    (s1.cache = some wb ∧ s1.disk = s.disk) ∧
    ((delete_student sid wb).1 = true ↔
      ∃ r ∈ List.range' 2 (wb.students.maxRow - 1),
        pyEq (wb.students.getCell r (i + 1)) (Cell.str sid) = true) ∧
    (∀ r, find_row_by_id wb.students "student_id" sid = some r →
      delete_student_run true sid s =
        (Except.ok true,
         StoreState.mk (some { wb with students := wb.students.deleteRowAt r })
           (some { wb with students := wb.students.deleteRowAt r })) ∧
      (wb.students.deleteRowAt r).rows.length = wb.students.rows.length - 1 ∧
      (wb.students.row1Cells.count (Cell.str "student_id") ≤ 1 →
        (∀ r' ∈ List.range' 2 (wb.students.maxRow - 1), r' ≠ r →
          ¬ pyEq (wb.students.getCell r' (i + 1)) (Cell.str sid) = true) →
        ∀ rec ∈ list_students { wb with students := wb.students.deleteRowAt r },
          ¬ pyEq (dictGetS rec "student_id" (Cell.str "")) (Cell.str sid) = true)) := by
  have hilen : i < wb.students.maxCol := by
    have h1 := (findIdx?_spec (fun c => pyEq c (Cell.str "student_id"))
      Cell.blank _ i hidx).1
    rwa [Sheet.row1Cells_length] at h1
  have hcell1 : wb.students.getCell 1 (i + 1) = Cell.str "student_id" := by
    have h2 := (findIdx?_spec (fun c => pyEq c (Cell.str "student_id"))
      Cell.blank _ i hidx).2.1
    simp only [Sheet.row1Cells] at h2
    rw [Sheet.rowCells_getD _ 1 i Cell.blank hilen] at h2
    exact (pyEq_str_iff _ _).mp h2
  have hstate : s1.cache = some wb ∧ s1.disk = s.disk := by
    rcases hc : s.cache with _ | w
    · simp only [load_wb, hc] at hload
      rcases hd : s.disk with _ | dsk
      · rw [hd] at hload; exact Except.noConfusion hload
      · rw [hd] at hload
        injection hload with hload
        injection hload with h1 h2
        subst h1
        rw [← h2]
        exact ⟨rfl, rfl⟩
    · simp only [load_wb, hc] at hload
      injection hload with hload
      injection hload with h1 h2
      subst h1
      rw [← h2]
      exact ⟨hc, rfl⟩
  refine ⟨?_, hstate, ?_, ?_⟩
  · -- no matching row: ok false, post-load state returned as is
    intro hnone saveOk
    have hfind : find_row_by_id wb.students "student_id" sid = none := by
      unfold find_row_by_id
      rw [hidx]
      exact List.find?_eq_none.mpr (fun r hr => hnone r hr)
    simp only [delete_student_run, hload, hfind]
  · -- the flag is true iff some row's id cell matches
    have hrw : find_row_by_id wb.students "student_id" sid =
        (List.range' 2 (wb.students.maxRow - 1)).find?
          (fun r => pyEq (wb.students.getCell r (i + 1)) (Cell.str sid)) := by
      unfold find_row_by_id
      rw [hidx]
    rcases hfind : (List.range' 2 (wb.students.maxRow - 1)).find?
        (fun r => pyEq (wb.students.getCell r (i + 1)) (Cell.str sid)) with _ | a
    · simp only [delete_student, hrw, hfind]
      constructor
      · intro habs
        exact absurd habs (by simp)
      · rintro ⟨r, hr, hq⟩
        exact absurd hq (List.find?_eq_none.mp hfind r hr)
    · simp only [delete_student, hrw, hfind]
      constructor
      · intro _
        refine ⟨a, List.mem_of_find?_eq_some hfind, ?_⟩
        have hp := List.find?_some hfind
        simpa using hp
      · intro _
        trivial
  · -- a matching row: removed, and the id is gone from the listing
    intro r hfr
    have hf2 : (List.range' 2 (wb.students.maxRow - 1)).find?
        (fun r => pyEq (wb.students.getCell r (i + 1)) (Cell.str sid)) = some r := by
      unfold find_row_by_id at hfr
      rw [hidx] at hfr
      exact hfr
    have hmem := List.mem_of_find?_eq_some hf2
    rw [List.mem_range'_1] at hmem
    have hmax2 : 2 ≤ wb.students.maxRow := by omega
    have hmaxeq : wb.students.maxRow = max 1 wb.students.rows.length := rfl
    have hlen2 : 2 ≤ wb.students.rows.length := by omega
    have hrlen : r ≤ wb.students.rows.length := by omega
    refine ⟨?_, Sheet.rows_length_deleteRowAt _ r (by omega) hrlen, ?_⟩
    · simp only [delete_student_run, hload, hfr, if_pos]
    · intro hcount huniq rec hrec
      set W := wb.students.deleteRowAt r with hW
      simp only [list_students, sheet_to_dicts, List.mem_filterMap] at hrec
      rcases hrec with ⟨rr, hrr, hfm⟩
      split at hfm
      · exact Option.noConfusion hfm
      · injection hfm with hfm
        have hmaxR : W.maxRow = wb.students.maxRow - 1 :=
          Sheet.maxRow_deleteRowAt _ r (by omega) hrlen hlen2
        rw [hmaxR, List.mem_range'_1] at hrr
        obtain ⟨hrr1, hrr2⟩ := hrr
        have hg0 : wb.students.getCell 1 (i + 1) =
            (wb.students.rows.getD 0 []).getD i Cell.blank := by
          simp [Sheet.getCell]
        have hne : (wb.students.rows.getD 0 []).getD i Cell.blank ≠ Cell.blank := by
          rw [← hg0, hcell1]
          exact fun h => Cell.noConfusion h
        have hilt : i < (wb.students.rows.getD 0 []).length :=
          List_getD_ne_default_lt _ _ _ hne
        have hW0 : W.rows.getD 0 [] = wb.students.rows.getD 0 [] := by
          show (wb.students.rows.eraseIdx (r - 1)).getD 0 [] = _
          rw [List_getD_eraseIdx, if_pos (by omega)]
        have hWlen : 1 ≤ W.rows.length := by
          rw [Sheet.rows_length_deleteRowAt _ r (by omega) hrlen]
          omega
        have hmem0 : wb.students.rows.getD 0 [] ∈ W.rows := by
          rw [← hW0]
          exact List_getD_mem _ 0 [] (by omega)
        have hiW : i < W.maxCol := lt_of_lt_of_le hilt (W.le_maxCol _ hmem0)
        have hidx' : W.row1Cells.findIdx?
            (fun c => pyEq c (Cell.str "student_id")) = some i := by
          rw [Sheet.row1Cells_deleteRowAt _ r (by omega)]
          exact findIdx?_take_of _ _ i W.maxCol hidx hiW
        have hcount' : W.row1Cells.count (Cell.str "student_id") ≤ 1 := by
          rw [Sheet.row1Cells_deleteRowAt _ r (by omega)]
          exact le_trans ((List.take_sublist _ _).count_le _) hcount
        have hlen' : i < (W.rowCells rr).length := by
          rw [Sheet.rowCells_length]
          exact hiW
        have hval : dictGetS rec "student_id" (Cell.str "") = W.getCell rr (i + 1) := by
          rw [← hfm]
          unfold dictGetS
          rw [dictGet_zip_unique "student_id" (Cell.str "") _ _ i hcount' hidx' hlen']
          exact Sheet.rowCells_getD _ rr i (Cell.str "") hiW
        rw [hval, Sheet.getCell_deleteRowAt _ r rr (i + 1) (by omega) (by omega)]
        rcases lt_or_ge rr r with hc | hc
        · rw [if_pos hc]
          exact huniq rr (List.mem_range'_1.mpr ⟨by omega, by omega⟩) (by omega)
        · rw [if_neg (by omega)]
          exact huniq (rr + 1) (List.mem_range'_1.mpr ⟨by omega, by omega⟩) (by omega)

/-- A three-row students table: header, `S1`, `S2`. -/
def c8Doc : Doc :=
  Doc.mk ⟨[[Cell.str "student_id", Cell.str "first_name"],
           [Cell.str "S1", Cell.str "Ann"],
           [Cell.str "S2", Cell.str "Bob"]]⟩ ⟨[]⟩ ⟨[]⟩ ⟨[]⟩ ⟨[]⟩

/-- Instantiation of `delete_student_semantics`: deleting `S2` from a loaded
store returns `True` and removes its row from cache and disk. -/
theorem delete_student_semantics_witness :
    delete_student_run true "S2" (StoreState.mk (some c8Doc) (some c8Doc)) =
      (Except.ok true,
        StoreState.mk (some { c8Doc with students := c8Doc.students.deleteRowAt 3 })
          (some { c8Doc with students := c8Doc.students.deleteRowAt 3 })) :=
  ((delete_student_semantics (StoreState.mk (some c8Doc) (some c8Doc)) c8Doc
      (StoreState.mk (some c8Doc) (some c8Doc)) "S2" 0
      (by decide) (by decide)).2.2.2 3 (by decide)).1

/-! ### Lemmas for upsert_student: the partial-update write loop -/

/-- The `enumerate(headers, start=1)` write loop of the update branch of
`upsert_student`, generalised over the start column for induction. -/
def updFold (row : Nat) (now : String) (data : PyDict) (hs : List Cell) (j : Nat)
    (ws : Sheet) : Sheet :=
  (hs.enumFrom j).foldl (fun ws' p =>
    if pyEq p.2 (Cell.str "created_at") then ws'
    else if pyEq p.2 (Cell.str "updated_at") then ws'.setCell row p.1 (Cell.str now)
    else if dataHasKey data p.2 then ws'.setCell row p.1 (dataGetCell data p.2 (Cell.str ""))
    else ws') ws

theorem updateRowFromData_eq_updFold (ws : Sheet) (row : Nat) (headers : List Cell)
    (now : String) (data : PyDict) :
    updateRowFromData ws row headers now data = updFold row now data headers 1 ws := rfl

theorem updFold_cons (row : Nat) (now : String) (data : PyDict) (h : Cell)
    (t : List Cell) (j : Nat) (ws : Sheet) :
    updFold row now data (h :: t) j ws =
      updFold row now data t (j + 1)
        (if pyEq h (Cell.str "created_at") then ws
         else if pyEq h (Cell.str "updated_at") then ws.setCell row j (Cell.str now)
         else if dataHasKey data h then ws.setCell row j (dataGetCell data h (Cell.str ""))
         else ws) := by
  simp only [updFold, List.enumFrom_cons, List.foldl_cons]

theorem updFold_getCell_other_row (row : Nat) (now : String) (data : PyDict)
    (hrow : 1 ≤ row) :
    ∀ (hs : List Cell) (j : Nat) (ws : Sheet) (r' c' : Nat), 1 ≤ r' → r' ≠ row →
      (updFold row now data hs j ws).getCell r' c' = ws.getCell r' c' := by
  intro hs
  induction hs with
  | nil => intro j ws r' c' _ _; rfl
  | cons h t ih =>
    intro j ws r' c' hr' hne
    rw [updFold_cons, ih (j + 1) _ r' c' hr' hne]
    split_ifs <;>
      first
      | rfl
      | rw [Sheet.getCell_setCell_other_row _ _ _ _ _ _ hrow hr' hne]

theorem updFold_getCell_other_col (row : Nat) (now : String) (data : PyDict)
    (hrow : 1 ≤ row) :
    ∀ (hs : List Cell) (j : Nat) (ws : Sheet) (c : Nat), 1 ≤ j → 1 ≤ c →
      (c < j ∨ j + hs.length ≤ c) →
      (updFold row now data hs j ws).getCell row c = ws.getCell row c := by
  intro hs
  induction hs with
  | nil => intro j ws c _ _ _; rfl
  | cons h t ih =>
    intro j ws c hj hc hout
    have hlen : (h :: t).length = t.length + 1 := rfl
    have hout' : c < j + 1 ∨ (j + 1) + t.length ≤ c := by omega
    have hne : c ≠ j := by omega
    rw [updFold_cons, ih (j + 1) _ c (by omega) hc hout']
    split_ifs <;>
      first
      | rfl
      | rw [Sheet.getCell_setCell_other_col _ _ _ _ _ hrow hj hc hne]

theorem updFold_getCell_in (row : Nat) (now : String) (data : PyDict)
    (hrow : 1 ≤ row) :
    ∀ (hs : List Cell) (j : Nat) (ws : Sheet) (c : Nat), 1 ≤ j → j ≤ c →
      c < j + hs.length →
      (updFold row now data hs j ws).getCell row c =
        (if pyEq (hs.getD (c - j) Cell.blank) (Cell.str "created_at") then
           ws.getCell row c
         else if pyEq (hs.getD (c - j) Cell.blank) (Cell.str "updated_at") then
           Cell.str now
         else if dataHasKey data (hs.getD (c - j) Cell.blank) then
           dataGetCell data (hs.getD (c - j) Cell.blank) (Cell.str "")
         else ws.getCell row c) := by
  intro hs
  induction hs with
  | nil => intro j ws c _ h1 h2; simp at h2; omega
  | cons h t ih =>
    intro j ws c hj hjc hlt
    have hlen : (h :: t).length = t.length + 1 := rfl
    rcases Nat.eq_or_lt_of_le hjc with heq | hgt
    · subst heq
      rw [updFold_cons,
        updFold_getCell_other_col row now data hrow t (j + 1) _ j (by omega) (by omega)
          (Or.inl (by omega))]
      simp only [Nat.sub_self, List.getD_cons_zero]
      split_ifs with h1 h2 h3
      · rfl
      · rw [Sheet.getCell_setCell_same _ _ _ _ hrow (by omega)]
      · rw [Sheet.getCell_setCell_same _ _ _ _ hrow (by omega)]
      · rfl
    · have hsub : c - j = (c - j - 1) + 1 := by omega
      rw [updFold_cons, ih (j + 1) _ c (by omega) (by omega) (by omega)]
      rw [hsub, List.getD_cons_succ]
      have hkeep : (if pyEq h (Cell.str "created_at") then ws
            else if pyEq h (Cell.str "updated_at") then ws.setCell row j (Cell.str now)
            else if dataHasKey data h then
              ws.setCell row j (dataGetCell data h (Cell.str ""))
            else ws).getCell row c = ws.getCell row c := by
        split_ifs <;>
          first
          | rfl
          | rw [Sheet.getCell_setCell_other_col _ _ _ _ _ hrow (by omega) (by omega)
              (by omega)]
      rw [hkeep, Nat.sub_sub]

theorem updFold_rows_length (row : Nat) (now : String) (data : PyDict) :
    ∀ (hs : List Cell) (j : Nat) (ws : Sheet), row ≤ ws.rows.length →
      (updFold row now data hs j ws).rows.length = ws.rows.length := by
  intro hs
  induction hs with
  | nil => intro j ws _; rfl
  | cons h t ih =>
    intro j ws hrow
    rw [updFold_cons]
    have hstep : ∀ v : Cell, (ws.setCell row j v).rows.length = ws.rows.length :=
      fun v => Sheet.rows_length_setCell ws row j v hrow
    split_ifs with h1 h2 h3
    · exact ih (j + 1) ws hrow
    · rw [ih (j + 1) _ (by rw [hstep]; exact hrow), hstep]
    · rw [ih (j + 1) _ (by rw [hstep]; exact hrow), hstep]
    · exact ih (j + 1) ws hrow

theorem updFold_maxCol (row : Nat) (now : String) (data : PyDict) (hrow : 1 ≤ row) :
    ∀ (hs : List Cell) (j : Nat) (ws : Sheet), 1 ≤ j → row ≤ ws.rows.length →
      j + hs.length ≤ ws.maxCol + 1 →
      (updFold row now data hs j ws).maxCol = ws.maxCol := by
  intro hs
  induction hs with
  | nil => intro j ws _ _ _; rfl
  | cons h t ih =>
    intro j ws hj hrlen hcle
    have hlen : (h :: t).length = t.length + 1 := rfl
    have hjle : j ≤ ws.maxCol := by omega
    rw [updFold_cons]
    have hstepc : ∀ v, (ws.setCell row j v).maxCol = ws.maxCol :=
      fun v => Sheet.maxCol_setCell_eq ws row j v hrow hrlen hj hjle
    have hstepl : ∀ v, (ws.setCell row j v).rows.length = ws.rows.length :=
      fun v => Sheet.rows_length_setCell ws row j v hrlen
    split_ifs with h1 h2 h3
    · exact ih (j + 1) ws (by omega) hrlen (by omega)
    · rw [ih (j + 1) _ (by omega) (by rw [hstepl]; exact hrlen) (by rw [hstepc]; omega),
        hstepc]
    · rw [ih (j + 1) _ (by omega) (by rw [hstepl]; exact hrlen) (by rw [hstepc]; omega),
        hstepc]
    · exact ih (j + 1) ws (by omega) hrlen (by omega)

/-- A decoded-row count: when exactly one source row yields a record
satisfying `p` and every other row's record fails `p`, the filtered count
is one. -/
theorem countP_filterMap_single {α β : Type} (f : α → Option β) (p : β → Bool) :
    ∀ (l : List α) (r0 : α) (rec0 : β), l.Nodup → r0 ∈ l →
      f r0 = some rec0 → p rec0 = true →
      (∀ r ∈ l, r ≠ r0 → ∀ rec, f r = some rec → p rec = false) →
      (l.filterMap f).countP p = 1 := by
  intro l
  induction l with
  | nil => intro r0 rec0 _ hmem _ _ _; cases hmem
  | cons a t ih =>
    intro r0 rec0 hnd hmem hf0 hp0 hother
    obtain ⟨hat, hndt⟩ := List.nodup_cons.mp hnd
    rcases List.mem_cons.mp hmem with heq | hmemt
    · subst heq
      rw [List.filterMap_cons, hf0, List.countP_cons_of_pos p _ hp0]
      have hzero : (t.filterMap f).countP p = 0 := by
        rw [List.countP_eq_zero]
        intro rec hrec
        rcases List.mem_filterMap.mp hrec with ⟨r, hrt, hfr⟩
        have hne : r ≠ r0 := fun habs => hat (habs ▸ hrt)
        rw [hother r (List.mem_cons_of_mem r0 hrt) hne rec hfr]
        exact Bool.false_ne_true
      rw [hzero]
    · have hne : a ≠ r0 := fun habs => hat (habs ▸ hmemt)
      have hih := ih r0 rec0 hndt hmemt hf0 hp0
        (fun r hr hrne rec hfr => hother r (List.mem_cons_of_mem a hr) hrne rec hfr)
      rw [List.filterMap_cons]
      rcases hfa : f a with _ | rec'
      · exact hih
      · have hpfa : p rec' = false := hother a (List.mem_cons_self a t) hne rec' hfa
        rw [List.countP_cons_of_neg p _ (by rw [hpfa]; exact Bool.false_ne_true), hih]

/-- C1: on an existing student row, `upsert_student` performs an in-place
partial update of exactly that row: headers supplied in the mapping get the
mapped value, unsupplied headers keep their prior cell, `created_at` is
never written (even when supplied), `updated_at` is stamped with the clock
reading (even when supplied), other rows and out-of-table columns are
untouched; and with unique headers, a stamped `updated_at` column, and no
other row carrying the ID string, `list_students` afterwards holds exactly
one record with that ID, whose supplied non-timestamp fields equal the
mapping's values. -/
theorem upsert_student_update_spec (now : String) (data : PyDict) (d : Doc)
    (row i : Nat)
    (hidx : d.students.row1Cells.findIdx?
      (fun c => pyEq c (Cell.str "student_id")) = some i)
    (hfind : find_row_by_id d.students "student_id"
      (pyStr (dataGet data "student_id" (Cell.str ""))) = some row) :
    upsert_student now data d =
      { d with students :=
          updateRowFromData d.students row d.students.row1Cells now data } ∧
    (∀ r' c', 1 ≤ r' → r' ≠ row →
      (updateRowFromData d.students row d.students.row1Cells now data).getCell r' c' =
        d.students.getCell r' c') ∧
    (∀ c, 1 ≤ c → c ≤ d.students.maxCol →
      (updateRowFromData d.students row d.students.row1Cells now data).getCell row c =
        (if pyEq (d.students.row1Cells.getD (c - 1) Cell.blank) (Cell.str "created_at")
           then d.students.getCell row c
         else if pyEq (d.students.row1Cells.getD (c - 1) Cell.blank)
             (Cell.str "updated_at") then Cell.str now
         else if dataHasKey data (d.students.row1Cells.getD (c - 1) Cell.blank) then
           dataGetCell data (d.students.row1Cells.getD (c - 1) Cell.blank) (Cell.str "")
         else d.students.getCell row c)) ∧
    (∀ c, d.students.maxCol < c →
      (updateRowFromData d.students row d.students.row1Cells now data).getCell row c =
        d.students.getCell row c) ∧
    ((∀ s : String, d.students.row1Cells.count (Cell.str s) ≤ 1) →
     Cell.str "updated_at" ∈ d.students.row1Cells →
     (∀ r' ∈ List.range' 2 (d.students.maxRow - 1), r' ≠ row →
        pyStr (d.students.getCell r' (i + 1)) ≠
          pyStr (dataGet data "student_id" (Cell.str ""))) →
     (list_students (upsert_student now data d)).countP
        (fun rec => pyStr (dictGetS rec "student_id" (Cell.str "")) =
          pyStr (dataGet data "student_id" (Cell.str ""))) = 1 ∧
     (∀ k j, k ≠ "created_at" → k ≠ "updated_at" →
        d.students.row1Cells.findIdx? (fun c => pyEq c (Cell.str k)) = some j →
        dataHasKey data (Cell.str k) = true →
        ∀ rec ∈ list_students (upsert_student now data d),
          pyStr (dictGetS rec "student_id" (Cell.str "")) =
            pyStr (dataGet data "student_id" (Cell.str "")) →
          dictGetS rec k (Cell.str "") = dataGet data k (Cell.str ""))) := by
  set pid := pyStr (dataGet data "student_id" (Cell.str "")) with hpid
  have hf2 : (List.range' 2 (d.students.maxRow - 1)).find?
      (fun r => pyEq (d.students.getCell r (i + 1)) (Cell.str pid)) = some row := by
    unfold find_row_by_id at hfind
    rw [hidx] at hfind
    exact hfind
  have hmem := List.mem_of_find?_eq_some hf2
  rw [List.mem_range'_1] at hmem
  have hmatch : pyEq (d.students.getCell row (i + 1)) (Cell.str pid) = true := by
    have h0 := List.find?_some hf2
    simpa using h0
  have hmaxeq : d.students.maxRow = max 1 d.students.rows.length := rfl
  have hmax2 : 2 ≤ d.students.maxRow := by omega
  have hlen2 : 2 ≤ d.students.rows.length := by omega
  have hrowle : row ≤ d.students.rows.length := by omega
  have hrow2 : 2 ≤ row := by omega
  have hHlen : d.students.row1Cells.length = d.students.maxCol :=
    Sheet.row1Cells_length _
  set U := updateRowFromData d.students row d.students.row1Cells now data with hU
  have hUfold : U = updFold row now data d.students.row1Cells 1 d.students :=
    updateRowFromData_eq_updFold _ _ _ _ _
  have hULen : U.rows.length = d.students.rows.length := by
    rw [hUfold]
    exact updFold_rows_length row now data _ 1 _ hrowle
  have hUMaxCol : U.maxCol = d.students.maxCol := by
    rw [hUfold]
    exact updFold_maxCol row now data (by omega) _ 1 _ (by omega) hrowle (by omega)
  have hUMaxRow : U.maxRow = d.students.maxRow := by
    show max 1 U.rows.length = max 1 d.students.rows.length
    rw [hULen]
  have hOther : ∀ r' c', 1 ≤ r' → r' ≠ row →
      U.getCell r' c' = d.students.getCell r' c' := by
    intro r' c' h1 h2
    rw [hUfold]
    exact updFold_getCell_other_row row now data (by omega) _ 1 _ r' c' h1 h2
  have hIn : ∀ c, 1 ≤ c → c ≤ d.students.maxCol →
      U.getCell row c =
        (if pyEq (d.students.row1Cells.getD (c - 1) Cell.blank) (Cell.str "created_at")
           then d.students.getCell row c
         else if pyEq (d.students.row1Cells.getD (c - 1) Cell.blank)
             (Cell.str "updated_at") then Cell.str now
         else if dataHasKey data (d.students.row1Cells.getD (c - 1) Cell.blank) then
           dataGetCell data (d.students.row1Cells.getD (c - 1) Cell.blank) (Cell.str "")
         else d.students.getCell row c) := by
    intro c h1 h2
    rw [hUfold]
    exact updFold_getCell_in row now data (by omega) _ 1 _ c (by omega) h1 (by omega)
  have hOut : ∀ c, d.students.maxCol < c →
      U.getCell row c = d.students.getCell row c := by
    intro c hcgt
    rw [hUfold]
    exact updFold_getCell_other_col row now data (by omega) _ 1 _ c (by omega) (by omega)
      (Or.inr (by omega))
  have hUrow1 : U.row1Cells = d.students.row1Cells := by
    show U.rowCells 1 = d.students.rowCells 1
    unfold Sheet.rowCells
    rw [hUMaxCol]
    apply List.map_congr_left
    intro a _
    exact hOther 1 (a + 1) (by omega) (by omega)
  have hupsert : upsert_student now data d = { d with students := U } := by
    simp only [upsert_student, hfind, hU]
  refine ⟨hupsert, hOther, hIn, hOut, ?_⟩
  intro hall hupd huniq
  have hidspec := findIdx?_spec (fun c => pyEq c (Cell.str "student_id"))
    Cell.blank _ i hidx
  have hiLt : i < d.students.maxCol := by
    rw [← hHlen]
    exact hidspec.1
  have hidcell : d.students.row1Cells.getD i Cell.blank = Cell.str "student_id" :=
    (pyEq_str_iff _ _).mp (by simpa using hidspec.2.1)
  have hnewid : pyStr (U.getCell row (i + 1)) = pid := by
    rw [hIn (i + 1) (by omega) (by omega)]
    have hsub : i + 1 - 1 = i := by omega
    rw [hsub, hidcell, if_neg (by simp [pyEq]), if_neg (by simp [pyEq])]
    by_cases hk : dataHasKey data (Cell.str "student_id") = true
    · rw [if_pos hk]
      exact hpid.symm
    · rw [if_neg hk, (pyEq_str_iff _ _).mp hmatch]
      rfl
  have hsome : (d.students.row1Cells.findIdx?
      (fun c => pyEq c (Cell.str "updated_at"))).isSome = true := by
    rw [List.findIdx?_isSome]
    exact List.any_eq_true.mpr ⟨_, hupd, by simp [pyEq]⟩
  obtain ⟨ju, hju⟩ := Option.isSome_iff_exists.mp hsome
  have hjuspec := findIdx?_spec (fun c => pyEq c (Cell.str "updated_at"))
    Cell.blank _ ju hju
  have hjuLt : ju < d.students.maxCol := by
    rw [← hHlen]
    exact hjuspec.1
  have hjucell : d.students.row1Cells.getD ju Cell.blank = Cell.str "updated_at" :=
    (pyEq_str_iff _ _).mp (by simpa using hjuspec.2.1)
  have hnowcell : U.getCell row (ju + 1) = Cell.str now := by
    rw [hIn (ju + 1) (by omega) (by omega)]
    have hsub : ju + 1 - 1 = ju := by omega
    rw [hsub, hjucell, if_neg (by simp [pyEq]), if_pos (by simp [pyEq])]
  have hnotblank : ¬ ((U.rowCells row).all (fun c => c = Cell.blank) = true) := by
    intro hall'
    have hmemc : (U.rowCells row).getD ju Cell.blank ∈ U.rowCells row := by
      apply List_getD_mem
      rw [Sheet.rowCells_length, hUMaxCol]
      exact hjuLt
    have hbl := List.all_eq_true.mp hall' _ hmemc
    rw [Sheet.rowCells_getD _ _ _ _ (by rw [hUMaxCol]; exact hjuLt), hnowcell] at hbl
    simp at hbl
  have hrid : ∀ rr, dictGetS (U.row1Cells.zip (U.rowCells rr)) "student_id"
      (Cell.str "") = U.getCell rr (i + 1) := by
    intro rr
    unfold dictGetS
    rw [dictGet_zip_unique "student_id" (Cell.str "") _ _ i
      (by rw [hUrow1]; exact hall "student_id") (by rw [hUrow1]; exact hidx)
      (by rw [Sheet.rowCells_length, hUMaxCol]; exact hiLt)]
    exact Sheet.rowCells_getD _ rr i (Cell.str "") (by rw [hUMaxCol]; exact hiLt)
  constructor
  · rw [hupsert]
    simp only [list_students]
    unfold sheet_to_dicts
    refine countP_filterMap_single _ _ _ row (U.row1Cells.zip (U.rowCells row))
      (List.nodup_range' _ _) ?_ ?_ ?_ ?_
    · rw [hUMaxRow]
      exact List.mem_range'_1.mpr ⟨by omega, by omega⟩
    · show (if (U.rowCells row).all (fun c => c = Cell.blank) then none
        else some (U.row1Cells.zip (U.rowCells row))) =
          some (U.row1Cells.zip (U.rowCells row))
      rw [if_neg hnotblank]
    · simp only [decide_eq_true_eq]
      rw [hrid row]
      exact hnewid
    · intro r hr hne rec hfr
      have hr' : r ∈ List.range' 2 (d.students.maxRow - 1) := by
        rw [hUMaxRow] at hr
        exact hr
      rw [List.mem_range'_1] at hr'
      dsimp only at hfr
      split at hfr
      · exact Option.noConfusion hfr
      · injection hfr with hfr
        rw [decide_eq_false_iff_not, ← hfr, hrid r,
          hOther r (i + 1) (by omega) hne]
        exact huniq r (List.mem_range'_1.mpr ⟨by omega, by omega⟩) hne
  · intro k j hk1 hk2 hjidx hkdata rec hrec hrecid
    rw [hupsert] at hrec
    simp only [list_students, sheet_to_dicts, List.mem_filterMap] at hrec
    rcases hrec with ⟨rr, hrr, hfm⟩
    split at hfm
    · exact Option.noConfusion hfm
    · injection hfm with hfm
      have hjspec := findIdx?_spec (fun c => pyEq c (Cell.str k)) Cell.blank _ j hjidx
      have hjLt : j < d.students.maxCol := by
        rw [← hHlen]
        exact hjspec.1
      have hjcell : d.students.row1Cells.getD j Cell.blank = Cell.str k :=
        (pyEq_str_iff _ _).mp (by simpa using hjspec.2.1)
      have hrreq : rr = row := by
        by_contra hne
        rw [hUMaxRow, List.mem_range'_1] at hrr
        rw [← hfm, hrid rr, hOther rr (i + 1) (by omega) hne] at hrecid
        exact huniq rr (List.mem_range'_1.mpr ⟨by omega, by omega⟩) hne hrecid
      subst hrreq
      rw [← hfm]
      unfold dictGetS
      rw [dictGet_zip_unique k (Cell.str "") _ _ j
        (by rw [hUrow1]; exact hall k) (by rw [hUrow1]; exact hjidx)
        (by rw [Sheet.rowCells_length, hUMaxCol]; exact hjLt)]
      rw [Sheet.rowCells_getD _ rr j (Cell.str "") (by rw [hUMaxCol]; exact hjLt)]
      rw [hIn (j + 1) (by omega) (by omega)]
      have hsub : j + 1 - 1 = j := by omega
      have hc1 : ¬ (pyEq (Cell.str k) (Cell.str "created_at") = true) := by
        simp [pyEq, hk1]
      have hc2 : ¬ (pyEq (Cell.str k) (Cell.str "updated_at") = true) := by
        simp [pyEq, hk2]
      rw [hsub, hjcell, if_neg hc1, if_neg hc2, if_pos hkdata]
      rfl

/-- A students table with one record `S1` and all four core columns. -/
def c1Doc : Doc :=
  Doc.mk ⟨[[Cell.str "student_id", Cell.str "first_name", Cell.str "created_at",
            Cell.str "updated_at"],
           [Cell.str "S1", Cell.str "Ann", Cell.str "t0", Cell.str "t0"]]⟩
    ⟨[]⟩ ⟨[]⟩ ⟨[]⟩ ⟨[]⟩

/-- A partial update of `S1`: only `first_name` is supplied. -/
def c1Data : PyDict := [("student_id", Cell.str "S1"), ("first_name", Cell.str "Beth")]

/-- Instantiation of `upsert_student_update_spec`: renaming `S1` leaves
exactly one listed record carrying the ID `S1`. -/
theorem upsert_student_update_spec_witness :
    (list_students (upsert_student "t1" c1Data c1Doc)).countP
      (fun rec => pyStr (dictGetS rec "student_id" (Cell.str "")) =
        pyStr (dataGet c1Data "student_id" (Cell.str ""))) = 1 :=
  ((upsert_student_update_spec "t1" c1Data c1Doc 2 0 (by decide) (by decide)).2.2.2.2
    (fun s => List.nodup_iff_count_le_one.mp (by decide) (Cell.str s))
    (by decide) (by decide)).1

/-! ### Lemmas for the header repair policy of _ensure_sheet_headers -/

/-- The headers the append-missing loop adds, in required order, each
checked against the header list as grown so far (mirrors the loop's
`existing` accumulator). -/
def missingHeaders (existing : List Cell) : List String → List Cell
  | [] => []
  | h :: t =>
    if existing.any (fun c => pyEq c (Cell.str h)) then missingHeaders existing t
    else Cell.str h :: missingHeaders (existing ++ [Cell.str h]) t

theorem appendMissingHeaders_cons (ws : Sheet) (existing : List Cell) (h : String)
    (t : List String) :
    appendMissingHeaders ws existing (h :: t) =
      (if existing.any (fun c => pyEq c (Cell.str h)) then
        appendMissingHeaders ws existing t
       else appendMissingHeaders (ws.setCell 1 (existing.length + 1) (Cell.str h))
         (existing ++ [Cell.str h]) t) := by
  simp only [appendMissingHeaders, List.foldl_cons]
  split_ifs with hc
  · rfl
  · rfl

/-- Replacing row 1 by a row at least as long as every stored row sets the
column count to that row's length. -/
theorem maxCol_mk_set0 (rows : List (List Cell)) (newrow : List Cell)
    (h1 : 1 ≤ rows.length)
    (hub : ∀ r ∈ rows, r.length ≤ newrow.length) :
    (Sheet.mk (rows.set 0 newrow)).maxCol = max 1 newrow.length := by
  apply le_antisymm
  · apply Sheet.maxCol_le _ _ (by omega)
    intro r hr
    rcases List.mem_or_eq_of_mem_set hr with hmem | heq
    · have := hub r hmem
      omega
    · rw [heq]
      omega
  · have hg : (rows.set 0 newrow).getD 0 [] = newrow :=
      List_getD_set_self _ _ _ _ (by omega)
    have hmem : newrow ∈ rows.set 0 newrow := by
      have hm := List_getD_mem (rows.set 0 newrow) 0 [] (by rw [List.length_set]; omega)
      rw [hg] at hm
      exact hm
    have hle := Sheet.le_maxCol (Sheet.mk (rows.set 0 newrow)) newrow hmem
    have hone : 1 ≤ (Sheet.mk (rows.set 0 newrow)).maxCol := by
      simp [Sheet.maxCol]
    omega

theorem Sheet.maxCol_setCell_extend (ws : Sheet) (v : Cell) (hrows : 1 ≤ ws.rows.length) :
    (ws.setCell 1 (ws.maxCol + 1) v).maxCol = ws.maxCol + 1 := by
  have hpad : padRows ws.rows 1 = ws.rows := padRows_eq_self _ _ hrows
  have hrow0 : (ws.rows.getD 0 []).length ≤ ws.maxCol := ws.row_length_le_maxCol_getD 0
  unfold Sheet.setCell
  simp only [hpad, Nat.sub_self, Nat.add_sub_cancel]
  rw [maxCol_mk_set0 _ _ hrows]
  · rw [List.length_set, padRow_length]
    omega
  · intro r hr
    have h1 := ws.le_maxCol r hr
    rw [List.length_set, padRow_length]
    omega

theorem Sheet.row1Cells_setCell_extend (ws : Sheet) (v : Cell)
    (hrows : 1 ≤ ws.rows.length) :
    (ws.setCell 1 (ws.maxCol + 1) v).row1Cells = ws.row1Cells ++ [v] := by
  have hmc := Sheet.maxCol_setCell_extend ws v hrows
  show (ws.setCell 1 (ws.maxCol + 1) v).rowCells 1 = ws.rowCells 1 ++ [v]
  unfold Sheet.rowCells
  rw [hmc, List.range_succ, List.map_append]
  congr 1
  · apply List.map_congr_left
    intro a ha
    rw [List.mem_range] at ha
    exact Sheet.getCell_setCell_other_col ws 1 (ws.maxCol + 1) (a + 1) v (by omega)
      (by omega) (by omega) (by omega)
  · simp only [List.map_cons, List.map_nil]
    rw [Sheet.getCell_setCell_same ws 1 (ws.maxCol + 1) v (by omega) (by omega)]

/-- The append-missing loop extends the header row by exactly the missing
headers and never touches data rows. -/
theorem appendMissingHeaders_spec :
    ∀ (hs : List String) (ws : Sheet) (existing : List Cell),
      existing = ws.row1Cells → 1 ≤ ws.rows.length →
      (appendMissingHeaders ws existing hs).row1Cells =
        existing ++ missingHeaders existing hs ∧
      ∀ r' c', 2 ≤ r' →
        (appendMissingHeaders ws existing hs).getCell r' c' = ws.getCell r' c' := by
  intro hs
  induction hs with
  | nil =>
    intro ws existing hex _
    constructor
    · simp only [appendMissingHeaders, List.foldl_nil, missingHeaders, List.append_nil]
      exact hex.symm
    · intro r' c' _
      rfl
  | cons h t ih =>
    intro ws existing hex hlen
    rw [appendMissingHeaders_cons]
    by_cases hc : existing.any (fun c => pyEq c (Cell.str h)) = true
    · rw [if_pos hc]
      obtain ⟨h1, h2⟩ := ih ws existing hex hlen
      refine ⟨?_, h2⟩
      rw [h1]
      congr 1
      simp only [missingHeaders]
      rw [if_pos hc]
    · rw [if_neg hc]
      have hexlen : existing.length = ws.maxCol := by
        rw [hex]
        exact Sheet.row1Cells_length ws
      rw [hexlen]
      have hrow1' : (ws.setCell 1 (ws.maxCol + 1) (Cell.str h)).row1Cells =
          ws.row1Cells ++ [Cell.str h] :=
        Sheet.row1Cells_setCell_extend ws _ hlen
      have hex' : existing ++ [Cell.str h] =
          (ws.setCell 1 (ws.maxCol + 1) (Cell.str h)).row1Cells := by
        rw [hrow1', hex]
      have hlen' : 1 ≤ (ws.setCell 1 (ws.maxCol + 1) (Cell.str h)).rows.length := by
        rw [Sheet.rows_length_setCell ws 1 _ _ hlen]
        exact hlen
      obtain ⟨h1, h2⟩ := ih _ (existing ++ [Cell.str h]) hex' hlen'
      constructor
      · rw [h1]
        simp only [missingHeaders]
        rw [if_neg hc, List.append_assoc, List.singleton_append]
      · intro r' c' hr'
        rw [h2 r' c' hr']
        exact Sheet.getCell_setCell_other_row ws 1 (ws.maxCol + 1) r' c' _ (by omega)
          (by omega) (by omega)

/-- The `enumerate(headers, start=1)` header-write loop, generalised over the
start column. -/
def writeFold (hs : List String) (j : Nat) (ws : Sheet) : Sheet :=
  (hs.enumFrom j).foldl (fun ws' p => ws'.setCell 1 p.1 (Cell.str p.2)) ws

theorem writeHeaderRow_eq_writeFold (ws : Sheet) (hs : List String) :
    writeHeaderRow ws hs = writeFold hs 1 ws := rfl

theorem writeFold_cons (h : String) (t : List String) (j : Nat) (ws : Sheet) :
    writeFold (h :: t) j ws = writeFold t (j + 1) (ws.setCell 1 j (Cell.str h)) := by
  simp only [writeFold, List.enumFrom_cons, List.foldl_cons]

theorem writeFold_getCell_other_row :
    ∀ (hs : List String) (j : Nat) (ws : Sheet) (r' c' : Nat), 2 ≤ r' →
      (writeFold hs j ws).getCell r' c' = ws.getCell r' c' := by
  intro hs
  induction hs with
  | nil => intro j ws r' c' _; rfl
  | cons h t ih =>
    intro j ws r' c' hr'
    rw [writeFold_cons, ih (j + 1) _ r' c' hr',
      Sheet.getCell_setCell_other_row ws 1 j r' c' _ (by omega) (by omega) (by omega)]

theorem writeFold_getCell_other_col :
    ∀ (hs : List String) (j : Nat) (ws : Sheet) (c : Nat), 1 ≤ j → 1 ≤ c →
      (c < j ∨ j + hs.length ≤ c) →
      (writeFold hs j ws).getCell 1 c = ws.getCell 1 c := by
  intro hs
  induction hs with
  | nil => intro j ws c _ _ _; rfl
  | cons h t ih =>
    intro j ws c hj hc hout
    have hlen : (h :: t).length = t.length + 1 := rfl
    rw [writeFold_cons, ih (j + 1) _ c (by omega) hc (by omega),
      Sheet.getCell_setCell_other_col ws 1 j c _ (by omega) hj hc (by omega)]

theorem writeFold_getCell_in :
    ∀ (hs : List String) (j : Nat) (ws : Sheet) (c : Nat), 1 ≤ j → j ≤ c →
      c < j + hs.length →
      (writeFold hs j ws).getCell 1 c = Cell.str (hs.getD (c - j) "") := by
  intro hs
  induction hs with
  | nil => intro j ws c _ h1 h2; simp at h2; omega
  | cons h t ih =>
    intro j ws c hj hjc hlt
    have hlen : (h :: t).length = t.length + 1 := rfl
    rcases Nat.eq_or_lt_of_le hjc with heq | hgt
    · subst heq
      rw [writeFold_cons,
        writeFold_getCell_other_col t (j + 1) _ j (by omega) (by omega)
          (Or.inl (by omega)),
        Sheet.getCell_setCell_same ws 1 j _ (by omega) (by omega)]
      simp [Nat.sub_self]
    · have hsub : c - j = (c - j - 1) + 1 := by omega
      rw [writeFold_cons, ih (j + 1) _ c (by omega) (by omega) (by omega),
        hsub, List.getD_cons_succ, Nat.sub_sub]

/-- C7 counterexample: with a blank first row, the code compares only the
first `len(required)` cells of row 2 against the required list — not the
whole row.  Here row 2 is `["a", "x"]` and the required list is `["a"]`:
row 2 does not equal the required column list exactly, yet the blank row 1
is deleted instead of being overwritten with the required columns. -/
theorem ensure_headers_exact_counterexample :
    (Sheet.mk [[], [Cell.str "a", Cell.str "x"]]).getCell 1 1 = Cell.blank ∧
    ((Sheet.mk [[], [Cell.str "a", Cell.str "x"]]).row1Cells.all
      (fun c => c = Cell.blank)) = true ∧
    ¬ pyEqList ((Sheet.mk [[], [Cell.str "a", Cell.str "x"]]).rowCells 2)
      (["a"].map Cell.str) = true ∧
    ensure_sheet_headers (Sheet.mk [[], [Cell.str "a", Cell.str "x"]]) ["a"] =
      Sheet.mk [[Cell.str "a", Cell.str "x"]] ∧
    ensure_sheet_headers (Sheet.mk [[], [Cell.str "a", Cell.str "x"]]) ["a"] ≠
      writeHeaderRow (Sheet.mk [[], [Cell.str "a", Cell.str "x"]]) ["a"] := by
  decide

/-- C7: the actual header repair policy.  With a blank first row: when the
FIRST `len(required)` cells of row 2 `==` the required list (a prefix
check, not exact row equality) and the sheet has a second row, row 1 is
deleted; otherwise row 1 is overwritten with the required columns
(columns `1..len` get the required names, data rows untouched).  With a
non-blank first row differing from the required list, no existing column
is overwritten: the header row becomes the old header row followed by
exactly the missing columns in required order, data rows untouched; an
exactly-matching header row is left as is. -/
theorem ensure_sheet_headers_policy (ws : Sheet) (headers : List String) :
    ((ws.getCell 1 1 = Cell.blank ∧
        ws.row1Cells.all (fun c => c = Cell.blank) = true) →
      ((2 ≤ ws.maxRow ∧
          pyEqList ((List.range headers.length).map (fun i => ws.getCell 2 (i + 1)))
            (headers.map Cell.str) = true) →
        ensure_sheet_headers ws headers = Sheet.mk (ws.rows.drop 1)) ∧
      (¬ (2 ≤ ws.maxRow ∧
          pyEqList ((List.range headers.length).map (fun i => ws.getCell 2 (i + 1)))
            (headers.map Cell.str) = true) →
        ensure_sheet_headers ws headers = writeHeaderRow ws headers ∧
        (∀ c, 1 ≤ c → c ≤ headers.length →
          (writeHeaderRow ws headers).getCell 1 c =
            Cell.str (headers.getD (c - 1) "")) ∧
        (∀ r' c', 2 ≤ r' →
          (writeHeaderRow ws headers).getCell r' c' = ws.getCell r' c'))) ∧
    (¬ (ws.getCell 1 1 = Cell.blank ∧
        ws.row1Cells.all (fun c => c = Cell.blank) = true) →
      (¬ pyEqList ws.row1Cells (headers.map Cell.str) = true →
        ensure_sheet_headers ws headers =
          appendMissingHeaders ws ws.row1Cells headers ∧
        (appendMissingHeaders ws ws.row1Cells headers).row1Cells =
          ws.row1Cells ++ missingHeaders ws.row1Cells headers ∧
        (∀ c, 1 ≤ c → c ≤ ws.maxCol →
          (appendMissingHeaders ws ws.row1Cells headers).getCell 1 c =
            ws.getCell 1 c) ∧
        (∀ r' c', 2 ≤ r' →
          (appendMissingHeaders ws ws.row1Cells headers).getCell r' c' =
            ws.getCell r' c')) ∧
      (pyEqList ws.row1Cells (headers.map Cell.str) = true →
        ensure_sheet_headers ws headers = ws)) := by
  have houter : ¬ (ws.maxRow < 1 ∨ ws.maxCol < 1) := by
    have h1 : 1 ≤ ws.maxRow := le_max_left 1 _
    have h2 : 1 ≤ ws.maxCol := le_max_left 1 _
    omega
  have hwc1 : ∀ c, 1 ≤ c → c ≤ headers.length →
      (writeHeaderRow ws headers).getCell 1 c = Cell.str (headers.getD (c - 1) "") := by
    intro c h1 h2
    rw [writeHeaderRow_eq_writeFold]
    exact writeFold_getCell_in headers 1 ws c (by omega) h1 (by omega)
  have hwc2 : ∀ r' c', 2 ≤ r' →
      (writeHeaderRow ws headers).getCell r' c' = ws.getCell r' c' := by
    intro r' c' hr'
    rw [writeHeaderRow_eq_writeFold]
    exact writeFold_getCell_other_row headers 1 ws r' c' hr'
  constructor
  · intro hblank
    constructor
    · rintro ⟨hmr, hpref⟩
      unfold ensure_sheet_headers
      rw [if_neg houter, if_pos hblank, if_pos hmr, if_pos hpref]
      show Sheet.mk (ws.rows.eraseIdx (1 - 1)) = Sheet.mk (ws.rows.drop 1)
      rw [show (1 : Nat) - 1 = 0 from rfl, List.eraseIdx_zero, List.drop_one]
    · intro hneg
      by_cases hmr : 2 ≤ ws.maxRow
      · have hpref : ¬ (pyEqList
            ((List.range headers.length).map (fun i => ws.getCell 2 (i + 1)))
            (headers.map Cell.str) = true) := fun hp => hneg ⟨hmr, hp⟩
        refine ⟨?_, hwc1, hwc2⟩
        unfold ensure_sheet_headers
        rw [if_neg houter, if_pos hblank, if_pos hmr, if_neg hpref]
      · refine ⟨?_, hwc1, hwc2⟩
        unfold ensure_sheet_headers
        rw [if_neg houter, if_pos hblank, if_neg hmr]
  · intro hnb
    have hlen1 : 1 ≤ ws.rows.length := by
      by_contra hc
      push_neg at hc
      have hrows : ws.rows = [] := List.length_eq_zero.mp (by omega)
      apply hnb
      constructor
      · simp [Sheet.getCell, hrows]
      · rw [List.all_eq_true]
        intro c hc'
        simp only [Sheet.row1Cells, Sheet.rowCells] at hc'
        rcases List.mem_map.mp hc' with ⟨a, _, hac⟩
        rw [← hac]
        simp [Sheet.getCell, hrows]
    constructor
    · intro hne
      obtain ⟨hA, hB⟩ := appendMissingHeaders_spec headers ws ws.row1Cells rfl hlen1
      have hens : ensure_sheet_headers ws headers =
          appendMissingHeaders ws ws.row1Cells headers := by
        unfold ensure_sheet_headers
        rw [if_neg houter, if_neg hnb, if_pos hne]
      have hmcR : ws.maxCol ≤ (appendMissingHeaders ws ws.row1Cells headers).maxCol := by
        have hlenR := Sheet.row1Cells_length (appendMissingHeaders ws ws.row1Cells headers)
        rw [hA, List.length_append, Sheet.row1Cells_length] at hlenR
        omega
      refine ⟨hens, hA, ?_, hB⟩
      intro c h1 h2
      have hc1 : c - 1 + 1 = c := by omega
      have hg1 := Sheet.rowCells_getD (appendMissingHeaders ws ws.row1Cells headers) 1
        (c - 1) Cell.blank (by omega)
      rw [hc1] at hg1
      rw [← hg1]
      show ((appendMissingHeaders ws ws.row1Cells headers).row1Cells).getD (c - 1)
        Cell.blank = ws.getCell 1 c
      rw [hA, List.getD_append _ _ _ _ (by rw [Sheet.row1Cells_length]; omega)]
      have hg2 := Sheet.rowCells_getD ws 1 (c - 1) Cell.blank (by omega)
      rw [hc1] at hg2
      exact hg2
    · intro heq
      unfold ensure_sheet_headers
      rw [if_neg houter, if_neg hnb, if_neg (fun hcon => hcon heq)]

/-- Instantiation of `ensure_sheet_headers_policy` on the non-blank branch:
a header row `["a"]` with required columns `["a", "b"]` gains exactly the
missing column `"b"`, appended after the existing header. -/
theorem ensure_sheet_headers_policy_witness :
    ensure_sheet_headers (Sheet.mk [[Cell.str "a"], [Cell.str "1"]]) ["a", "b"] =
      appendMissingHeaders (Sheet.mk [[Cell.str "a"], [Cell.str "1"]])
        (Sheet.mk [[Cell.str "a"], [Cell.str "1"]]).row1Cells ["a", "b"] ∧
    (appendMissingHeaders (Sheet.mk [[Cell.str "a"], [Cell.str "1"]])
        (Sheet.mk [[Cell.str "a"], [Cell.str "1"]]).row1Cells ["a", "b"]).row1Cells =
      (Sheet.mk [[Cell.str "a"], [Cell.str "1"]]).row1Cells ++
        missingHeaders (Sheet.mk [[Cell.str "a"], [Cell.str "1"]]).row1Cells
          ["a", "b"] := by
  have h := ((ensure_sheet_headers_policy (Sheet.mk [[Cell.str "a"], [Cell.str "1"]])
    ["a", "b"]).2 (by decide)).1 (by decide)
  exact ⟨h.1, h.2.1⟩

/-! ### Lemmas for ensure_workbook idempotence -/

/-- The content-only deletion predicate of the cleanup scan: the row's
first `len(headers)` cells duplicate the header values, or are all
blank/empty-string. -/
def predRow (hs : List String) (row : List Cell) : Bool :=
  pyEqList ((List.range hs.length).map (fun i => row.getD i Cell.blank))
    (hs.map Cell.str) ||
  ((List.range hs.length).map (fun i => row.getD i Cell.blank)).all
    (fun v => v = Cell.blank ∨ v = Cell.str "")

theorem cleanupStep_eq (ws : Sheet) (hs : List String) (r : Nat) :
    cleanupStep ws hs r =
      if predRow hs (ws.rows.getD (r - 1) []) = true then ws.deleteRowAt r else ws := by
  have hv : rowValsFor ws r hs.length =
      (List.range hs.length).map (fun i => (ws.rows.getD (r - 1) []).getD i Cell.blank) :=
    rfl
  unfold cleanupStep
  by_cases h1 : pyEqList (rowValsFor ws r hs.length) (hs.map Cell.str) = true
  · rw [if_pos h1, if_pos]
    unfold predRow
    rw [← hv, h1]
    rfl
  · rw [if_neg h1]
    by_cases h2 : (rowValsFor ws r hs.length).all
        (fun v => v = Cell.blank ∨ v = Cell.str "") = true
    · rw [if_pos h2, if_pos]
      unfold predRow
      rw [← hv, h2, Bool.or_true]
    · rw [if_neg h2, if_neg]
      unfold predRow
      rw [← hv]
      intro habs
      simp only [Bool.or_eq_true] at habs
      rcases habs with hh | hh
      · exact h1 hh
      · exact h2 hh

theorem cleanupFrom_succ (hs : List String) (n : Nat) (ws : Sheet) :
    cleanupFrom hs (n + 2) ws = cleanupFrom hs (n + 1) (cleanupStep ws hs (n + 2)) := rfl

/-- The bottom-up cleanup scan from row `n + 2` filters rows `2 .. n + 2`
by the content predicate and leaves the header row and rows above the scan
start untouched. -/
theorem cleanupFrom_spec (hs : List String) :
    ∀ (n : Nat) (R : List (List Cell)), n + 2 ≤ R.length →
      cleanupFrom hs (n + 2) (Sheet.mk R) =
        Sheet.mk (R.take 1 ++
          ((R.drop 1).take (n + 1)).filter (fun row => ! predRow hs row) ++
          R.drop (n + 2)) := by
  intro n
  induction n with
  | zero =>
    intro R hlen
    rcases R with _ | ⟨r0, R1⟩
    · simp at hlen
    rcases R1 with _ | ⟨r1, rest⟩
    · simp at hlen
    rw [cleanupFrom_succ, cleanupStep_eq]
    by_cases hpred : predRow hs ((Sheet.mk (r0 :: r1 :: rest)).rows.getD (2 - 1) []) = true
    · rw [if_pos hpred]
      have hpr1 : predRow hs r1 = true := hpred
      show Sheet.mk ((r0 :: r1 :: rest).eraseIdx 1) = _
      simp [List.filter, hpr1]
    · rw [if_neg hpred]
      have hpr1 : predRow hs r1 = false := Bool.eq_false_iff.mpr hpred
      show Sheet.mk (r0 :: r1 :: rest) = _
      simp [List.filter, hpr1]
  | succ n ih =>
    intro R hlen
    have hlt : n + 2 < R.length := by omega
    have hgd : (Sheet.mk R).rows.getD (n + 1 + 2 - 1) [] = R[n + 2] :=
      List.getD_eq_getElem R [] hlt
    rw [cleanupFrom_succ, cleanupStep_eq, hgd]
    by_cases hpred : predRow hs R[n + 2] = true
    · rw [if_pos hpred]
      have hsheet : (Sheet.mk R).deleteRowAt (n + 1 + 2) =
          Sheet.mk (R.eraseIdx (n + 2)) := rfl
      rw [hsheet, ih (R.eraseIdx (n + 2))
        (by rw [List.length_eraseIdx, if_pos hlt]; omega)]
      rw [List.eraseIdx_eq_take_drop_succ]
      have htl : (R.take (n + 2)).length = n + 2 := by
        rw [List.length_take]
        omega
      congr 1
      have e1 : (R.take (n + 2) ++ R.drop (n + 2 + 1)).take 1 = R.take 1 := by
        rw [List.take_append_of_le_length (by omega), List.take_take,
          Nat.min_eq_left (by omega)]
      have e2 : ((R.take (n + 2) ++ R.drop (n + 2 + 1)).drop 1).take (n + 1) =
          (R.drop 1).take (n + 1) := by
        rw [List.drop_append_of_le_length (by omega), List.drop_take,
          show n + 2 - 1 = n + 1 from rfl,
          List.take_append_of_le_length
            (by rw [List.length_take, List.length_drop]; omega),
          List.take_take, Nat.min_self]
      have e3 : (R.take (n + 2) ++ R.drop (n + 2 + 1)).drop (n + 2) =
          R.drop (n + 2 + 1) := by
        have hd := List.drop_left (R.take (n + 2)) (R.drop (n + 2 + 1))
        rw [htl] at hd
        exact hd
      rw [e1, e2, e3]
      have e4 : ((R.drop 1).take (n + 1 + 1)).filter (fun row => ! predRow hs row) =
          ((R.drop 1).take (n + 1)).filter (fun row => ! predRow hs row) := by
        rw [List.take_succ, List.getElem?_drop, show 1 + (n + 1) = n + 2 from by omega,
          List.getElem?_eq_getElem hlt]
        rw [List.filter_append]
        have hfp : (fun row => ! predRow hs row) R[n + 2] = false := by
          show (! predRow hs R[n + 2]) = false
          rw [hpred]
          rfl
        simp [List.filter, hfp]
      rw [e4, show n + 2 + 1 = n + 1 + 2 from by omega]
    · rw [if_neg hpred]
      have hpf : predRow hs R[n + 2] = false := Bool.eq_false_iff.mpr hpred
      rw [ih R (by omega)]
      congr 1
      have e5 : ((R.drop 1).take (n + 1 + 1)).filter (fun row => ! predRow hs row) =
          ((R.drop 1).take (n + 1)).filter (fun row => ! predRow hs row) ++
            [R[n + 2]] := by
        rw [List.take_succ, List.getElem?_drop, show 1 + (n + 1) = n + 2 from by omega,
          List.getElem?_eq_getElem hlt, List.filter_append]
        have hfp : (fun row => ! predRow hs row) R[n + 2] = true := by
          show (! predRow hs R[n + 2]) = true
          rw [hpf]
          rfl
        simp [List.filter, hfp]
      have e6 : R.drop (n + 2) = R[n + 2] :: R.drop (n + 1 + 2) := by
        rw [List.drop_eq_getElem_cons hlt, show n + 2 + 1 = n + 1 + 2 from by omega]
      rw [e5, e6]
      simp [List.append_assoc]

theorem cleanup_sheet_spec (ws : Sheet) (hs : List String) (hlen : 2 ≤ ws.rows.length) :
    cleanup_sheet ws hs =
      Sheet.mk (ws.rows.take 1 ++
        (ws.rows.drop 1).filter (fun row => ! predRow hs row)) := by
  obtain ⟨R⟩ := ws
  have hmr : (Sheet.mk R).maxRow = R.length := by
    show max 1 R.length = R.length
    simp at hlen
    omega
  unfold cleanup_sheet
  rw [if_neg (by rw [hmr]; simp at hlen; omega)]
  simp only at hlen
  obtain ⟨n, hn⟩ : ∃ n, R.length = n + 2 := ⟨R.length - 2, by omega⟩
  rw [hmr, hn, cleanupFrom_spec hs n R (by omega)]
  congr 1
  have e8 : (R.drop 1).take (n + 1) = R.drop 1 :=
    List.take_of_length_le (by rw [List.length_drop]; omega)
  have e9 : R.drop (n + 2) = [] := List.drop_eq_nil_of_le (by omega)
  rw [e8, e9, List.append_nil]

theorem cleanup_sheet_short (ws : Sheet) (hs : List String)
    (h : ws.rows.length ≤ 1) : cleanup_sheet ws hs = ws := by
  unfold cleanup_sheet
  rw [if_pos]
  show ws.maxRow ≤ 1
  unfold Sheet.maxRow
  omega

theorem pyEqList_getD (xs ys : List Cell) (h : pyEqList xs ys = true) :
    xs.length = ys.length ∧ ∀ k, k < ys.length →
      pyEq (xs.getD k Cell.blank) (ys.getD k Cell.blank) = true := by
  unfold pyEqList at h
  rw [Bool.and_eq_true] at h
  obtain ⟨hlen, hall⟩ := h
  have hlen' : xs.length = ys.length := by simpa using hlen
  refine ⟨hlen', ?_⟩
  intro k hk
  have hkx : k < xs.length := by omega
  have hkz : k < (xs.zip ys).length := by
    rw [List.length_zip]
    omega
  have hmem : (xs.zip ys)[k] ∈ xs.zip ys := List.getElem_mem _
  have hpe := List.all_eq_true.mp hall _ hmem
  rw [List.getElem_zip] at hpe
  rw [List.getD_eq_getElem xs Cell.blank hkx, List.getD_eq_getElem ys Cell.blank hk]
  simpa using hpe

theorem map_str_getD (hs : List String) (k : Nat) (hk : k < hs.length) :
    (hs.map Cell.str).getD k Cell.blank = Cell.str (hs.getD k "") := by
  rw [List.getD_eq_getElem _ _ (by simpa using hk), List.getElem_map,
    List.getD_eq_getElem _ _ hk]

theorem map_range_getD (f : Nat → Cell) (n k : Nat) (hk : k < n) (d : Cell) :
    ((List.range n).map f).getD k d = f k := by
  rw [List.getD_eq_getElem?_getD, List.getElem?_map, List.getElem?_range hk]
  rfl

theorem str_mem_row1Cells_of_getCell (ws : Sheet) (k : Nat) (s : String)
    (h : ws.getCell 1 (k + 1) = Cell.str s) : Cell.str s ∈ ws.row1Cells := by
  have hne : (ws.rows.getD 0 []).getD k Cell.blank ≠ Cell.blank := by
    have hh : ws.getCell 1 (k + 1) = (ws.rows.getD 0 []).getD k Cell.blank := rfl
    rw [← hh, h]
    exact fun habs => Cell.noConfusion habs
  have hklt : k < (ws.rows.getD 0 []).length := List_getD_ne_default_lt _ _ _ hne
  have hkmc : k < ws.maxCol := lt_of_lt_of_le hklt (ws.row_length_le_maxCol_getD 0)
  have hgd : ws.row1Cells.getD k Cell.blank = ws.getCell 1 (k + 1) :=
    Sheet.rowCells_getD ws 1 k Cell.blank hkmc
  have hmem : ws.row1Cells.getD k Cell.blank ∈ ws.row1Cells := by
    apply List_getD_mem
    rw [Sheet.row1Cells_length]
    exact hkmc
  rw [hgd, h] at hmem
  exact hmem

theorem getCell_of_str_mem_row1Cells (ws : Sheet) (s : String)
    (h : Cell.str s ∈ ws.row1Cells) : ∃ k, ws.getCell 1 (k + 1) = Cell.str s := by
  obtain ⟨k, hk, hget⟩ := List.getElem_of_mem h
  refine ⟨k, ?_⟩
  have hkmc : k < ws.maxCol := by rwa [Sheet.row1Cells_length] at hk
  rw [← Sheet.rowCells_getD ws 1 k Cell.blank hkmc]
  show (ws.row1Cells).getD k Cell.blank = Cell.str s
  rw [List.getD_eq_getElem _ _ hk]
  exact hget

theorem rows_pos_of_not_blank (ws : Sheet)
    (hnb : ¬ (ws.getCell 1 1 = Cell.blank ∧
      ws.row1Cells.all (fun c => c = Cell.blank) = true)) :
    1 ≤ ws.rows.length := by
  by_contra hc
  push_neg at hc
  have hrows : ws.rows = [] := List.length_eq_zero.mp (by omega)
  apply hnb
  constructor
  · simp [Sheet.getCell, hrows]
  · rw [List.all_eq_true]
    intro c hc'
    simp only [Sheet.row1Cells, Sheet.rowCells] at hc'
    rcases List.mem_map.mp hc' with ⟨a, _, hac⟩
    rw [← hac]
    simp [Sheet.getCell, hrows]

theorem appendMissingHeaders_noop :
    ∀ (hs : List String) (ws : Sheet) (existing : List Cell),
      (∀ h ∈ hs, existing.any (fun c => pyEq c (Cell.str h)) = true) →
      appendMissingHeaders ws existing hs = ws := by
  intro hs
  induction hs with
  | nil => intro ws existing _; rfl
  | cons h t ih =>
    intro ws existing hall
    rw [appendMissingHeaders_cons, if_pos (hall h (List.mem_cons_self h t))]
    exact ih ws existing (fun h' hh' => hall h' (List.mem_cons_of_mem h hh'))

theorem str_mem_append_missingHeaders :
    ∀ (hs : List String) (existing : List Cell) (h : String), h ∈ hs →
      Cell.str h ∈ existing ++ missingHeaders existing hs := by
  intro hs
  induction hs with
  | nil => intro existing h hmem; cases hmem
  | cons h' t ih =>
    intro existing h hmem
    simp only [missingHeaders]
    by_cases hc : existing.any (fun c => pyEq c (Cell.str h')) = true
    · rw [if_pos hc]
      rcases List.mem_cons.mp hmem with heq | hmt
      · subst heq
        rcases List.any_eq_true.mp hc with ⟨c, hcmem, hpc⟩
        have hcs : c = Cell.str h := (pyEq_str_iff _ _).mp hpc
        rw [hcs] at hcmem
        exact List.mem_append_left _ hcmem
      · exact ih existing h hmt
    · rw [if_neg hc]
      rcases List.mem_cons.mp hmem with heq | hmt
      · subst heq
        exact List.mem_append_right _ (List.mem_cons_self _ _)
      · have hih := ih (existing ++ [Cell.str h']) h hmt
        rw [show existing ++ Cell.str h' :: missingHeaders (existing ++ [Cell.str h']) t
            = (existing ++ [Cell.str h']) ++ missingHeaders (existing ++ [Cell.str h']) t
          from by rw [List.append_assoc, List.singleton_append]]
        exact hih

/-- After `_ensure_sheet_headers`, every required header is present as a
row-1 cell. -/
theorem ensure_sheet_headers_hasHeader (ws : Sheet) (hs : List String) :
    ∀ h ∈ hs, ∃ k, (ensure_sheet_headers ws hs).getCell 1 (k + 1) = Cell.str h := by
  intro h hmem
  obtain ⟨k, hk, hget⟩ := List.getElem_of_mem hmem
  have hwrite : ∃ k', (writeHeaderRow ws hs).getCell 1 (k' + 1) = Cell.str h := by
    refine ⟨k, ?_⟩
    rw [writeHeaderRow_eq_writeFold,
      writeFold_getCell_in hs 1 ws (k + 1) (by omega) (by omega) (by omega),
      show k + 1 - 1 = k from rfl, List.getD_eq_getElem _ _ hk, hget]
  unfold ensure_sheet_headers
  by_cases h1 : ws.maxRow < 1 ∨ ws.maxCol < 1
  · rw [if_pos h1]
    exact hwrite
  rw [if_neg h1]
  by_cases h2 : ws.getCell 1 1 = Cell.blank ∧
      ws.row1Cells.all (fun c => c = Cell.blank) = true
  · rw [if_pos h2]
    by_cases h3 : 2 ≤ ws.maxRow
    · rw [if_pos h3]
      by_cases h4 : pyEqList
          ((List.range hs.length).map (fun i => ws.getCell 2 (i + 1)))
          (hs.map Cell.str) = true
      · rw [if_pos h4]
        refine ⟨k, ?_⟩
        have houter : (ws.rows.drop 1).getD 0 [] = ws.rows.getD 1 [] := by
          rw [List.getD_eq_getElem?_getD, List.getElem?_drop,
            ← List.getD_eq_getElem?_getD]
        have hdrop : (ws.deleteRowAt 1).getCell 1 (k + 1) = ws.getCell 2 (k + 1) := by
          show ((ws.rows.eraseIdx 0).getD 0 []).getD k Cell.blank = _
          rw [List.eraseIdx_zero, ← List.drop_one, houter]
          rfl
        obtain ⟨hlen2a, hpref⟩ := pyEqList_getD _ _ h4
        have hx := hpref k (by rw [List.length_map]; exact hk)
        rw [map_range_getD _ hs.length k hk, map_str_getD hs k hk] at hx
        rw [hdrop, (pyEq_str_iff _ _).mp hx, List.getD_eq_getElem _ _ hk, hget]
      · rw [if_neg h4]
        exact hwrite
    · rw [if_neg h3]
      exact hwrite
  · rw [if_neg h2]
    by_cases h5 : ¬ pyEqList ws.row1Cells (hs.map Cell.str) = true
    · rw [if_pos h5]
      have hlen1 := rows_pos_of_not_blank ws h2
      have hmemE : Cell.str h ∈ (appendMissingHeaders ws ws.row1Cells hs).row1Cells := by
        rw [(appendMissingHeaders_spec hs ws ws.row1Cells rfl hlen1).1]
        exact str_mem_append_missingHeaders hs ws.row1Cells h hmem
      exact getCell_of_str_mem_row1Cells _ h hmemE
    · rw [if_neg h5]
      push_neg at h5
      obtain ⟨hlenr, hpr⟩ := pyEqList_getD _ _ h5
      have hx := hpr k (by rw [List.length_map]; exact hk)
      rw [map_str_getD hs k hk] at hx
      have hcell : ws.row1Cells.getD k Cell.blank = Cell.str (hs.getD k "") :=
        (pyEq_str_iff _ _).mp hx
      refine ⟨k, ?_⟩
      have hkmc : k < ws.maxCol := by
        rw [List.length_map] at hlenr
        rw [Sheet.row1Cells_length] at hlenr
        omega
      rw [← Sheet.rowCells_getD ws 1 k Cell.blank hkmc]
      show ws.row1Cells.getD k Cell.blank = Cell.str h
      rw [hcell, List.getD_eq_getElem _ _ hk, hget]

/-- `_ensure_sheet_headers` is the identity on a sheet whose header row is
non-blank and already contains every required header. -/
theorem ensure_sheet_headers_noop (ws : Sheet) (hs : List String)
    (hnb : ¬ (ws.getCell 1 1 = Cell.blank ∧
      ws.row1Cells.all (fun c => c = Cell.blank) = true))
    (hall : ∀ h ∈ hs, ws.row1Cells.any (fun c => pyEq c (Cell.str h)) = true) :
    ensure_sheet_headers ws hs = ws := by
  have h1 : ¬ (ws.maxRow < 1 ∨ ws.maxCol < 1) := by
    have a1 : 1 ≤ ws.maxRow := le_max_left 1 _
    have a2 : 1 ≤ ws.maxCol := le_max_left 1 _
    omega
  unfold ensure_sheet_headers
  rw [if_neg h1, if_neg hnb]
  by_cases h5 : ¬ pyEqList ws.row1Cells (hs.map Cell.str) = true
  · rw [if_pos h5]
    exact appendMissingHeaders_noop hs ws ws.row1Cells hall
  · rw [if_neg h5]

theorem getCell_take1_append (R X : List (List Cell)) (c : Nat)
    (h : 1 ≤ R.length) :
    (Sheet.mk (R.take 1 ++ X)).getCell 1 c = (Sheet.mk R).getCell 1 c := by
  rcases R with _ | ⟨r0, rest⟩
  · simp at h
  · rfl

/-- One table pass of `ensure_workbook` is idempotent. -/
theorem ensureTable_idem (ws : Sheet) (hs : List String) (hne : hs ≠ []) :
    ensureTable (ensureTable ws hs) hs = ensureTable ws hs := by
  set E := ensure_sheet_headers ws hs with hE
  set T := cleanup_sheet E hs with hT
  have hrow1 : ∀ c, T.getCell 1 c = E.getCell 1 c := by
    intro c
    by_cases hElen : 2 ≤ E.rows.length
    · have hTeq : T = Sheet.mk (E.rows.take 1 ++
          (E.rows.drop 1).filter (fun row => ! predRow hs row)) := by
        rw [hT, cleanup_sheet_spec E hs hElen]
      rw [hTeq]
      exact getCell_take1_append E.rows _ c (by omega)
    · rw [hT, cleanup_sheet_short E hs (by omega)]
  have hhasT : ∀ h ∈ hs, ∃ k, T.getCell 1 (k + 1) = Cell.str h := by
    intro h hm
    obtain ⟨k, hk⟩ := ensure_sheet_headers_hasHeader ws hs h hm
    exact ⟨k, by rw [hrow1]; exact hk⟩
  obtain ⟨h0, hh0⟩ := List.exists_mem_of_ne_nil hs hne
  have hnbT : ¬ (T.getCell 1 1 = Cell.blank ∧
      T.row1Cells.all (fun c => c = Cell.blank) = true) := by
    rintro ⟨hble, hball⟩
    obtain ⟨k, hk⟩ := hhasT h0 hh0
    have hmemk : Cell.str h0 ∈ T.row1Cells := str_mem_row1Cells_of_getCell T k h0 hk
    have hcontr := List.all_eq_true.mp hball _ hmemk
    simp at hcontr
  have hallT : ∀ h ∈ hs, T.row1Cells.any (fun c => pyEq c (Cell.str h)) = true := by
    intro h hm
    obtain ⟨k, hk⟩ := hhasT h hm
    exact List.any_eq_true.mpr
      ⟨_, str_mem_row1Cells_of_getCell T k h hk, by simp [pyEq]⟩
  have hens2 : ensure_sheet_headers T hs = T := ensure_sheet_headers_noop T hs hnbT hallT
  have hdata : ∀ row ∈ T.rows.drop 1, (! predRow hs row) = true := by
    intro row hrow
    by_cases hElen : 2 ≤ E.rows.length
    · have hTrows : T.rows = E.rows.take 1 ++
          (E.rows.drop 1).filter (fun row => ! predRow hs row) := by
        rw [hT, cleanup_sheet_spec E hs hElen]
      have h1 : (E.rows.take 1).length = 1 := by
        rw [List.length_take]
        omega
      have hdrop : (E.rows.take 1 ++
          (E.rows.drop 1).filter (fun row => ! predRow hs row)).drop 1 =
          (E.rows.drop 1).filter (fun row => ! predRow hs row) := by
        have hd := List.drop_left (E.rows.take 1)
          ((E.rows.drop 1).filter (fun row => ! predRow hs row))
        rw [h1] at hd
        exact hd
      rw [hTrows, hdrop] at hrow
      have hf := List.of_mem_filter hrow
      exact hf
    · have hTE : T = E := by
        rw [hT, cleanup_sheet_short E hs (by omega)]
      rw [hTE, List.drop_eq_nil_of_le (by omega)] at hrow
      cases hrow
  have hclean2 : cleanup_sheet T hs = T := by
    by_cases hTlen : 2 ≤ T.rows.length
    · rw [cleanup_sheet_spec T hs hTlen, List.filter_eq_self.mpr hdata,
        List.take_append_drop]
    · exact cleanup_sheet_short T hs (by omega)
  have hTdef : ensureTable ws hs = T := hT.symm
  rw [hTdef]
  show cleanup_sheet (ensure_sheet_headers T hs) hs = T
  rw [hens2, hclean2]

/-- C6: `ensure_workbook` is idempotent: immediately repeating the schema
repair with the same custom-field lists changes nothing — each table's
headers, columns and data rows are exactly as the first call left them, so
no duplicate header rows or columns are introduced and surviving data rows
are preserved. -/
theorem ensure_workbook_idem (scf tcf : List String) (d : Doc) :
    ensure_workbook scf tcf (ensure_workbook scf tcf d) = ensure_workbook scf tcf d := by
  unfold ensure_workbook
  dsimp only
  rw [ensureTable_idem _ _ (by simp [studentHeaders]),
    ensureTable_idem _ _ (by simp [teacherHeaders]),
    ensureTable_idem _ _ (by simp [payHeaders]),
    ensureTable_idem _ _ (by simp [payHeaders]),
    ensureTable_idem _ _ (by simp [activityHeaders])]
